import Mathlib

/-!
# kngrok: the service reconciler

A shallow embedding of `controllers/service_controller.go`, `util/util.go`
and `ngrok/errors/errors.go`, and theorems about the reconcile pass and the
finalization pass of the service controller.

Go strings are modelled by `String` (valid UTF-8 text), Go `int`/`int32`
values by `Int` with explicit wrap-around where a conversion narrows, and a
Go `map[string]string` by an association list with at most one entry per key.
The external ngrok agent is an arbitrary state machine (`Agent`), and the Go
standard library functions whose exact behaviour the controller does not pin
down (`url.Parse`, `strings.ToLower`, `strings.ToUpper`) are fields of a
`GoLib` record the model is parametrised over.
-/

namespace Kngrok

/-! ## Kubernetes and ngrok data -/

/-- One entry of `spec.ports` (`corev1.ServicePort`): the fields the controller reads. -/
structure ServicePort where
  Name : String
  Protocol : String
  Port : Int
deriving DecidableEq, Repr

/-- The type `corev1.PortStatus`. -/
structure PortStatus where
  Port : Int
  Protocol : String
deriving DecidableEq, Repr

/-- The type `corev1.LoadBalancerIngress`. -/
structure LoadBalancerIngress where
  IP : String
  Hostname : String
  Ports : List PortStatus
deriving DecidableEq, Repr

/-- The part of `corev1.Service` the controller reads or writes. `Annotations` is the
annotation map (a nil map and an empty map are both `[]`), `DeletionTimestamp` is
`none` when the timestamp is nil or zero, `Ingress` is `status.loadBalancer.ingress`. -/
structure Service where
  Namespace : String
  Name : String
  Annotations : List (String × String)
  Finalizers : List String
  DeletionTimestamp : Option Nat
  ClusterIP : String
  Ports : List ServicePort
  Ingress : List LoadBalancerIngress
deriving DecidableEq, Repr

/-- The type `ngrok.TunnelConfig`. -/
structure TunnelConfig where
  Addr : String
  Proto : String
  RemoteAddr : String
deriving DecidableEq, Repr

/-- The type `ngrok.Tunnel`. -/
structure Tunnel where
  Name : String
  Addr : String
  URI : String
  PublicURL : String
  Proto : String
  Config : TunnelConfig
deriving DecidableEq, Repr

/-- The type `nerrors.Error`, the structured error body of the agent API. -/
structure NgrokError where
  Code : Int
  StatusCode : Int
  Message : String
deriving DecidableEq, Repr

/-- A non-nil Go `error` value: either an agent API error (`nerrors.Error`) or any
other error (transport failure, malformed response, parse error). -/
inductive GoError where
  | api (e : NgrokError)
  | other (msg : String)
deriving DecidableEq, Repr

/-- The error a pass returns: one error as it is, or `kerrors.NewAggregate` of a
non-empty list. -/
inductive RetError where
  | plain (e : GoError)
  | aggregate (errs : List GoError)
deriving DecidableEq, Repr

/-- The function `nerrors.IsNotFound`: the error is an agent API error with status code 404
(`http.StatusNotFound`); false on nil. -/
def IsNotFound : Option GoError → Bool
  | some (GoError.api e) => e.StatusCode == 404
  | _ => false

/-- The function `kerrors.NewAggregate`: nil for an empty list, the aggregate otherwise. -/
def NewAggregate : List GoError → Option RetError
  | [] => none
  | e :: es => some (RetError.aggregate (e :: es))

/-- The constant `ControllerName`, also the finalizer of the controller. -/
def ControllerName : String := "service.k-ngrok.io/controller"

/-- The annotation key of the tunnel registry (a string literal in `reconcile`). -/
def registryKey : String := "service.k-ngrok.io/tunnels"

/-! ## Go maps, finalizers, string sets -/

/-- Map lookup `m[k]` with the comma-ok form. -/
def mapGet : List (String × String) → String → Option String
  | [], _ => none
  | (k', v) :: t, k => if k' = k then some v else mapGet t k

/-- Map assignment `m[k] = v`. -/
def mapSet : List (String × String) → String → String → List (String × String)
  | [], k, v => [(k, v)]
  | (k', v') :: t, k, v => if k' = k then (k, v) :: t else (k', v') :: mapSet t k v

/-- The function `controllerutil.AddFinalizer` on the finalizer list. -/
def AddFinalizer (fs : List String) (finalizer : String) : List String :=
  if finalizer ∈ fs then fs else fs ++ [finalizer]

/-- The function `controllerutil.RemoveFinalizer` on the finalizer list. -/
def RemoveFinalizer (fs : List String) (finalizer : String) : List String :=
  fs.filter (fun e => e ≠ finalizer)

/-- Go string comparison `a < b` on the characters of two strings (for valid UTF-8,
byte order and code point order agree). -/
def lessChars : List Char → List Char → Bool
  | [], [] => false
  | [], _ :: _ => true
  | _ :: _, [] => false
  | a :: as, b :: bs =>
    if a.toNat < b.toNat then true
    else if b.toNat < a.toNat then false
    else lessChars as bs

/-- Order `a ≤ b` of Go strings, as a proposition. -/
def StrLE (a b : String) : Prop := lessChars b.data a.data = false

instance : DecidableRel StrLE := fun a b =>
  inferInstanceAs (Decidable (lessChars b.data a.data = false))

/-- A `sets.String`, represented by a list without duplicates. -/
abbrev StringSet := List String

/-- The method `sets.String.Insert` for one item. -/
def StringSet.Insert (s : StringSet) (item : String) : StringSet :=
  if item ∈ s then s else s ++ [item]

/-- The method `sets.String.Insert` for several items. -/
def StringSet.InsertAll (s : StringSet) (items : List String) : StringSet :=
  items.foldl StringSet.Insert s

/-- The method `sets.String.Difference`: the members of `s` that are not in `o`. -/
def StringSet.Difference (s o : StringSet) : StringSet :=
  s.filter (fun x => x ∉ o)

/-- The method `sets.String.List`: the members in ascending order. -/
def StringSet.List (s : StringSet) : List String :=
  s.insertionSort StrLE

/-- The function `strings.ReplaceAll` for a pattern and a replacement of one character each. -/
def ReplaceAll (s : String) (old new : Char) : String :=
  ⟨s.data.map (fun c => if c = old then new else c)⟩

/-! ## The registry codec: `encoding/json` on a `[]string` -/

/-- The table `hex` of `encoding/json`: the lower-case hexadecimal digit of `n < 16`. -/
def hexDigit (n : Nat) : Char :=
  if n < 10 then Char.ofNat (48 + n) else Char.ofNat (87 + n)

/-- How the encoder writes one character of a string (`encodeState.string` with HTML
escaping, as `json.Encoder` has by default): quote and backslash get a backslash,
newline, carriage return and tab their short form, every other character below
U+0020 and `<`, `>`, `&` the form `\u00XX`, U+2028 and U+2029 the form `\u202X`,
anything else stands for itself. -/
def escapeChar (c : Char) : List Char :=
  if c = '"' then ['\\', '"']
  else if c = '\\' then ['\\', '\\']
  else if c = '\n' then ['\\', 'n']
  else if c = '\r' then ['\\', 'r']
  else if c = '\t' then ['\\', 't']
  else if c.toNat < 32 ∨ c = '<' ∨ c = '>' ∨ c = '&' then
    ['\\', 'u', '0', '0', hexDigit (c.toNat / 16), hexDigit (c.toNat % 16)]
  else if c.toNat = 8232 then ['\\', 'u', '2', '0', '2', '8']
  else if c.toNat = 8233 then ['\\', 'u', '2', '0', '2', '9']
  else [c]

/-- A JSON string literal for `s`. -/
def quoteString (s : String) : List Char :=
  '"' :: (s.data.flatMap escapeChar ++ ['"'])

/-- The elements after the first one, each preceded by a comma, then the closing
bracket and the newline `Encoder.Encode` appends. -/
def encodeTail : List String → List Char
  | [] => [']', '\n']
  | s :: t => ',' :: (quoteString s ++ encodeTail t)

/-- What `json.NewEncoder(buf).Encode(l)` writes for a non-nil `[]string`. -/
def jsonEncode : List String → String
  | [] => ⟨['[', ']', '\n']⟩
  | s :: t => ⟨'[' :: (quoteString s ++ encodeTail t)⟩

/-- The function `isSpace` of the JSON scanner. -/
def isSpace (c : Char) : Bool :=
  c = ' ' || c = '\t' || c = '\r' || c = '\n'

/-- The value of a hexadecimal digit, if `c` is one. -/
def hexVal (c : Char) : Option Nat :=
  if 48 ≤ c.toNat ∧ c.toNat ≤ 57 then some (c.toNat - 48)
  else if 97 ≤ c.toNat ∧ c.toNat ≤ 102 then some (c.toNat - 87)
  else if 65 ≤ c.toNat ∧ c.toNat ≤ 70 then some (c.toNat - 55)
  else none

/-- The function `getu4`: the number written by four hexadecimal digits. -/
def getu4 (a b c d : Char) : Option Nat :=
  match hexVal a, hexVal b, hexVal c, hexVal d with
  | some x, some y, some z, some w => some (x * 4096 + y * 256 + z * 16 + w)
  | _, _, _, _ => none

/-- The character of a one-letter escape, if `e` is one. -/
def unescapeChar (e : Char) : Option Char :=
  if e = '"' then some '"'
  else if e = '\\' then some '\\'
  else if e = '/' then some '/'
  else if e = 'b' then some (Char.ofNat 8)
  else if e = 'f' then some (Char.ofNat 12)
  else if e = 'n' then some '\n'
  else if e = 'r' then some '\r'
  else if e = 't' then some '\t'
  else none

/-- The function `utf16.IsSurrogate`. -/
def isSurrogate (r : Nat) : Bool := 55296 ≤ r && r < 57344

/-- The function `utf16.DecodeRune` on a pair that is a high and a low surrogate. -/
def decodeSurrogates (r1 r2 : Nat) : Option Char :=
  if 55296 ≤ r1 ∧ r1 < 56320 ∧ 56320 ≤ r2 ∧ r2 < 57344 then
    some (Char.ofNat ((r1 - 55296) * 1024 + (r2 - 56320) + 65536))
  else none

/-- Where the decoder stands in the text of a `[]string`. Inside a string literal,
`hi` holds a `\uXXXX` surrogate that still waits for its partner. -/
inductive ScanState where
  | top
  | expectValue (acc : List String) (first : Bool)
  | inString (acc : List String) (cur : List Char) (hi : Option Nat)
  | afterValue (acc : List String)

/-- The characters decoded so far, a surrogate left without partner becoming U+FFFD. -/
def flush (cur : List Char) : Option Nat → List Char
  | none => cur
  | some _ => cur ++ [Char.ofNat 65533]

/-- Decoding the first JSON value of a text into a `[]string`, one character at a
time: `none` when `Decoder.Decode` returns an error (no value, a syntax error, or a
value that is not null or an array of strings and nulls). A null element leaves the
empty string; what follows the value is not read. -/
def scan : ScanState → List Char → Option (List String)
  | _, [] => none
  | ScanState.top, c :: cs =>
    if isSpace c then scan ScanState.top cs
    else if c = '[' then scan (ScanState.expectValue [] true) cs
    else if c = 'n' then
      match cs with
      | 'u' :: 'l' :: 'l' :: _ => some []
      | _ => none
    else none
  | ScanState.expectValue acc first, c :: cs =>
    if isSpace c then scan (ScanState.expectValue acc first) cs
    else if c = ']' then (if first then some acc else none)
    else if c = '"' then scan (ScanState.inString acc [] none) cs
    else if c = 'n' then
      match cs with
      | 'u' :: 'l' :: 'l' :: rest => scan (ScanState.afterValue (acc ++ [""])) rest
      | _ => none
    else none
  | ScanState.inString acc cur hi, c :: cs =>
    if c = '"' then scan (ScanState.afterValue (acc ++ [String.mk (flush cur hi)])) cs
    else if c = '\\' then
      match cs with
      | [] => none
      | e :: rest =>
        if e = 'u' then
          match rest with
          | h1 :: h2 :: h3 :: h4 :: rest2 =>
            match getu4 h1 h2 h3 h4 with
            | none => none
            | some r =>
              match hi.bind (fun r1 => decodeSurrogates r1 r) with
              | some ch => scan (ScanState.inString acc (cur ++ [ch]) none) rest2
              | none =>
                if isSurrogate r then scan (ScanState.inString acc (flush cur hi) (some r)) rest2
                else scan (ScanState.inString acc (flush cur hi ++ [Char.ofNat r]) none) rest2
          | _ => none
        else
          match unescapeChar e with
          | some ch => scan (ScanState.inString acc (flush cur hi ++ [ch]) none) rest
          | none => none
    else if c.toNat < 32 then none
    else scan (ScanState.inString acc (flush cur hi ++ [c]) none) cs
  | ScanState.afterValue acc, c :: cs =>
    if isSpace c then scan (ScanState.afterValue acc) cs
    else if c = ',' then scan (ScanState.expectValue acc false) cs
    else if c = ']' then some acc
    else none

/-- What `json.NewDecoder(bytes.NewReader([]byte(r))).Decode(&cur)` leaves in `cur`,
or the error it returns. -/
def jsonDecode (r : String) : Except GoError (List String) :=
  match scan ScanState.top r.data with
  | some cur => Except.ok cur
  | none => Except.error (GoError.other "json: cannot decode the value into a []string")

/-! ## Standard library functions used by the controller -/

/-- The part of `url.URL` the controller reads. -/
structure URL where
  Host : String
deriving DecidableEq, Repr

/-- The Go standard library functions the model leaves open: `url.Parse` (an error
stands for the pair of a nil `*URL` and the error), `strings.ToLower` and
`strings.ToUpper`. -/
structure GoLib where
  urlParse : String → Except GoError URL
  ToLower : String → String
  ToUpper : String → String

/-- Position of the first `c` in `l`. -/
def indexOfChar (c : Char) : List Char → Option Nat
  | [] => none
  | x :: xs => if x = c then some 0 else (indexOfChar c xs).map (fun i => i + 1)

/-- Position of the last `c` in `l`. -/
def lastIndexOfChar (c : Char) : List Char → Option Nat
  | [] => none
  | x :: xs =>
    match lastIndexOfChar c xs with
    | some i => some (i + 1)
    | none => if x = c then some 0 else none

/-- The error `net.AddrError` with the text of its method `Error`: the reason, after
`address <addr>: ` when the address is not empty. -/
def addrErr (addr why : String) : GoError :=
  if addr = "" then GoError.other why else GoError.other ("address " ++ addr ++ ": " ++ why)

/-- The function `net.SplitHostPort`. -/
def netSplitHostPort (hostport : String) : Except GoError (String × String) :=
  let s := hostport.data
  match lastIndexOfChar ':' s with
  | none => Except.error (addrErr hostport "missing port in address")
  | some i =>
    if s.head? = some '[' then
      match indexOfChar ']' s with
      | none => Except.error (addrErr hostport "missing ']' in address")
      | some e =>
        if e + 1 = s.length then Except.error (addrErr hostport "missing port in address")
        else if e + 1 = i then
          if '[' ∈ s.drop 1 then Except.error (addrErr hostport "unexpected '[' in address")
          else if ']' ∈ s.drop (e + 1) then
            Except.error (addrErr hostport "unexpected ']' in address")
          else Except.ok (String.mk ((s.take e).drop 1), String.mk (s.drop (i + 1)))
        else if (s.drop (e + 1)).head? = some ':' then
          Except.error (addrErr hostport "too many colons in address")
        else Except.error (addrErr hostport "missing port in address")
    else if ':' ∈ s.take i then Except.error (addrErr hostport "too many colons in address")
    else if '[' ∈ s then Except.error (addrErr hostport "unexpected '[' in address")
    else if ']' ∈ s then Except.error (addrErr hostport "unexpected ']' in address")
    else Except.ok (String.mk (s.take i), String.mk (s.drop (i + 1)))

/-- The number written by a list of decimal digits, most significant first. -/
def digitsValue : List Char → Nat → Option Nat
  | [], n => some n
  | c :: cs, n =>
    if 48 ≤ c.toNat ∧ c.toNat ≤ 57 then digitsValue cs (n * 10 + (c.toNat - 48)) else none

/-- The function `strconv.Atoi` where `int` has 64 bits: an optional sign and at
least one decimal digit, the value within the range of `int`. -/
def Atoi (s : String) : Except GoError Int :=
  let body : List Char → Option Nat := fun ds =>
    match ds with
    | [] => none
    | _ :: _ => digitsValue ds 0
  let r : Option Int :=
    match s.data with
    | '-' :: ds => (body ds).bind (fun n => if n ≤ 2 ^ 63 then some (-(n : Int)) else none)
    | '+' :: ds => (body ds).bind (fun n => if n < 2 ^ 63 then some (n : Int) else none)
    | ds => (body ds).bind (fun n => if n < 2 ^ 63 then some (n : Int) else none)
  match r with
  | some n => Except.ok n
  | none => Except.error (GoError.other ("strconv.Atoi: parsing " ++ s))

/-- The conversion `int32(n)` of an `int`: the value modulo `2 ^ 32`, in the signed range. -/
def int32 (n : Int) : Int :=
  (n + 2 ^ 31) % 2 ^ 32 - 2 ^ 31

/-- The function `strconv.Itoa`. -/
def Itoa (n : Int) : String :=
  if n < 0 then "-" ++ Nat.repr n.natAbs else Nat.repr n.toNat

/-- The function `net.JoinHostPort`. -/
def JoinHostPort (host port : String) : String :=
  if ':' ∈ host.data then "[" ++ host ++ "]:" ++ port else host ++ ":" ++ port

/-- The function `util.SplitHostPort`. -/
def SplitHostPort (lib : GoLib) (rawURL : String) : Except GoError (String × Int) :=
  match lib.urlParse rawURL with
  | Except.error err => Except.error err
  | Except.ok u =>
    match netSplitHostPort u.Host with
    | Except.error err => Except.error err
    | Except.ok (host, strport) =>
      match Atoi strport with
      | Except.error err => Except.error err
      | Except.ok port => Except.ok (host, int32 port)

/-! ## The agent and the trace of a pass -/

/-- The interface `ngrok.Agent` as a state machine: each call answers with what the
Go method returns (a possibly nil tunnel and a possibly nil error) and moves the
agent to a new state. -/
structure Agent (σ : Type) where
  Find : σ → String → (Option Tunnel × Option GoError) × σ
  Start : σ → String → TunnelConfig → (Option Tunnel × Option GoError) × σ
  Stop : σ → String → Option GoError × σ

/-- One call of a pass to the agent, with its answer. -/
inductive Call where
  | find (tunnelName : String) (tunnel : Option Tunnel) (err : Option GoError)
  | start (tunnelName : String) (config : TunnelConfig) (tunnel : Option Tunnel)
      (err : Option GoError)
  | stop (tunnelName : String) (err : Option GoError)
deriving DecidableEq, Repr

/-- The event `TunnelStarted` recorded for a started tunnel: the port and the host. -/
structure Event where
  Port : Int
  Host : String
deriving DecidableEq, Repr

/-- The local variables of `reconcile` during the loop over the ports, with the trace
of agent calls, the recorded events and the state of the agent. -/
structure LoopState (σ : Type) where
  errs : List GoError
  ingress : List LoadBalancerIngress
  currentTunnelSet : StringSet
  desiredTunnelSet : StringSet
  calls : List Call
  events : List Event
  agent : σ

/-- The state after an agent call: the call joins the trace, the agent has moved on. -/
def LoopState.called {σ : Type} (st : LoopState σ) (a : σ) (c : Call) : LoopState σ :=
  { st with agent := a, calls := st.calls ++ [c] }

/-- The statement `errs = append(errs, err)`. -/
def LoopState.failed {σ : Type} (st : LoopState σ) (err : GoError) : LoopState σ :=
  { st with errs := st.errs ++ [err] }

/-- How a step of the loop ends: with the next state, or in a nil dereference. -/
inductive Flow (σ : Type) where
  | next (st : LoopState σ)
  | panic (st : LoopState σ)

/-- What a pass leaves: the service as the caller sees it afterwards, the returned
error, whether the pass ended in a panic, the agent calls in order, the events, and
the state of the agent. -/
structure Pass (σ : Type) where
  svc : Service
  reterr : Option RetError
  panicked : Bool
  calls : List Call
  events : List Event
  agent : σ

/-- A call is a stop call. -/
def Call.isStop : Call → Bool
  | Call.stop _ _ => true
  | _ => false

/-- A call is a start call. -/
def Call.isStart : Call → Bool
  | Call.start _ _ _ _ => true
  | _ => false

/-- The tunnel name a call is about. -/
def Call.tunnelName : Call → String
  | Call.find n _ _ => n
  | Call.start n _ _ _ => n
  | Call.stop n _ => n

/-- The names of the find calls of a trace, in order. -/
def findNames (calls : List Call) : List String :=
  calls.filterMap (fun c => match c with
    | Call.find n _ _ => some n
    | _ => none)

/-- The names of the stop calls of a trace, in order. -/
def stopNames (calls : List Call) : List String :=
  calls.filterMap (fun c => match c with
    | Call.stop n _ => some n
    | _ => none)

/-- The trace shows that the agent handed out tunnel `t` for `tunnelName`: a find
call found it, or a start call returned it, without error. -/
def Obtained (calls : List Call) (tunnelName : String) (t : Tunnel) : Prop :=
  Call.find tunnelName (some t) none ∈ calls ∨
    ∃ config, Call.start tunnelName config (some t) none ∈ calls

/-- A find call on `tunnelName` that failed: its error is neither nil nor NotFound. -/
def FindFailed (c : Call) (tunnelName : String) : Prop :=
  ∃ ft e, c = Call.find tunnelName ft (some e) ∧ IsNotFound (some e) = false

/-- A find call on `tunnelName` that did not fail: its error is nil or NotFound. -/
def FindPassed (c : Call) (tunnelName : String) : Prop :=
  ∃ ft fe, c = Call.find tunnelName ft fe ∧ (fe = none ∨ IsNotFound fe = true)

/-! ## `ServiceReconciler.reconcile` -/

/-- The string `client.ObjectKeyFromObject(svc).String()`. -/
def svckey (svc : Service) : String :=
  svc.Namespace ++ "/" ++ svc.Name

/-- The tunnel name of a port in `reconcile` (lines 158-163). -/
def reconcileTunnelName (svc : Service) (sp : ServicePort) : String :=
  let tunnelName := ReplaceAll (svckey svc) '/' '-'
  if svc.Ports.length > 1 ∨ sp.Name ≠ "" then tunnelName ++ "-" ++ sp.Name else tunnelName

/-- The tunnel name of a port in `reconcileDeletion` (lines 248-253). -/
def deletionTunnelName (svc : Service) (sp : ServicePort) : String :=
  let tunnelName := ReplaceAll (svckey svc) '/' '-'
  if svc.Ports.length > 1 ∨ sp.Name ≠ "" then tunnelName ++ "-" ++ sp.Name else tunnelName

/-- The ingress entry of a tunnel whose public URL has host `hostname` and port `port`. -/
def ingressEntry (lib : GoLib) (hostname : String) (port : Int) (tunnel : Tunnel) :
    LoadBalancerIngress :=
  { IP := "", Hostname := hostname,
    Ports := [{ Port := port, Protocol := lib.ToUpper tunnel.Proto }] }

/-- Lines 190-209 of `reconcile`: split the public URL of the tunnel; on an error record
it and insert the name into the current set, otherwise insert the name into the
desired set and append the ingress entry. -/
def recordTunnel {σ : Type} (lib : GoLib) (tunnelName : String) (tunnel : Tunnel)
    (st : LoopState σ) : LoopState σ :=
  match SplitHostPort lib tunnel.PublicURL with
  | Except.error err =>
    { st.failed err with currentTunnelSet := st.currentTunnelSet.Insert tunnelName }
  | Except.ok (hostname, port) =>
    { st with desiredTunnelSet := st.desiredTunnelSet.Insert tunnelName,
              ingress := st.ingress ++ [ingressEntry lib hostname port tunnel] }

/-- The tunnel configuration of the start call (lines 176-179). -/
def startConfig (lib : GoLib) (svc : Service) (sp : ServicePort) : TunnelConfig :=
  { Addr := JoinHostPort svc.ClusterIP (Itoa sp.Port),
    Proto := lib.ToLower sp.Protocol, RemoteAddr := "" }

/-- The effect of one step of the loop on the local variables, given the tunnel the
agent handed out for the port, if any: without tunnel one error is recorded; with a
tunnel whose public URL does not split the error is recorded and the name joins the
current set; otherwise the name joins the desired set and the entry the ingress. -/
def StepEffect {σ : Type} (lib : GoLib) (tunnelName : String) (tun : Option Tunnel)
    (st st1 : LoopState σ) : Prop :=
  match tun with
  | none =>
    ∃ e, st1.errs = st.errs ++ [e] ∧ st1.ingress = st.ingress ∧
      st1.desiredTunnelSet = st.desiredTunnelSet ∧
      st1.currentTunnelSet = st.currentTunnelSet
  | some t =>
    match SplitHostPort lib t.PublicURL with
    | Except.error err =>
      st1.errs = st.errs ++ [err] ∧ st1.ingress = st.ingress ∧
        st1.desiredTunnelSet = st.desiredTunnelSet ∧
        st1.currentTunnelSet = st.currentTunnelSet.Insert tunnelName
    | Except.ok (hostname, port) =>
      st1.errs = st.errs ∧ st1.ingress = st.ingress ++ [ingressEntry lib hostname port t] ∧
        st1.desiredTunnelSet = st.desiredTunnelSet.Insert tunnelName ∧
        st1.currentTunnelSet = st.currentTunnelSet

/-- Lines 173-188 of `reconcile`, then lines 190-209: start the tunnel; on an error
record it and go to the next port. Otherwise read `tunnel.PublicURL`, a nil
dereference when the tunnel is nil, parse it dropping the error, and read `u.Host`
for the event, a nil dereference when the parse failed. -/
def startTunnel {σ : Type} (lib : GoLib) (agent : Agent σ) (svc : Service)
    (sp : ServicePort) (tunnelName : String) (st : LoopState σ) : Flow σ :=
  match agent.Start st.agent tunnelName (startConfig lib svc sp) with
  | ((tunnel, err), a) =>
    let st1 := st.called a (Call.start tunnelName (startConfig lib svc sp) tunnel err)
    match err with
    | some e => Flow.next (st1.failed e)
    | none =>
      match tunnel with
      | none => Flow.panic st1
      | some t =>
        match lib.urlParse t.PublicURL with
        | Except.error _ => Flow.panic st1
        | Except.ok u =>
          Flow.next (recordTunnel lib tunnelName t
            { st1 with events := st1.events ++ [{ Port := sp.Port, Host := u.Host }] })

/-- The body of the loop over the ports in `reconcile` (lines 158-209). -/
def portStep {σ : Type} (lib : GoLib) (agent : Agent σ) (svc : Service)
    (st : LoopState σ) (sp : ServicePort) : Flow σ :=
  let tunnelName := reconcileTunnelName svc sp
  match agent.Find st.agent tunnelName with
  | ((tunnel, err), a) =>
    let st1 := st.called a (Call.find tunnelName tunnel err)
    match err with
    | some e =>
      if IsNotFound (some e) then startTunnel lib agent svc sp tunnelName st1
      else Flow.next (st1.failed e)
    | none =>
      match tunnel with
      | none => startTunnel lib agent svc sp tunnelName st1
      | some t => Flow.next (recordTunnel lib tunnelName t st1)

/-- The loop over the ports in declared order; a panic ends it. -/
def portLoop {σ : Type} (lib : GoLib) (agent : Agent σ) (svc : Service) :
    List ServicePort → LoopState σ → Flow σ
  | [], st => Flow.next st
  | sp :: rest, st =>
    match portStep lib agent svc st sp with
    | Flow.next st1 => portLoop lib agent svc rest st1
    | Flow.panic st1 => Flow.panic st1

/-- The local state of the closure that stops the stale tunnels (lines 212-228). -/
structure StopState (σ : Type) where
  errs : List GoError
  calls : List Call
  agent : σ

/-- The loop of lines 215-225: stop each name, collect the errors that are not
NotFound. -/
def stopStale {σ : Type} (agent : Agent σ) : List String → StopState σ → StopState σ
  | [], st => st
  | tunnelName :: rest, st =>
    match agent.Stop st.agent tunnelName with
    | (err, a) =>
      let calls := st.calls ++ [Call.stop tunnelName err]
      match err with
      | some e =>
        if IsNotFound (some e) then stopStale agent rest { errs := st.errs, calls := calls, agent := a }
        else stopStale agent rest { errs := st.errs ++ [e], calls := calls, agent := a }
      | none => stopStale agent rest { errs := st.errs, calls := calls, agent := a }

/-- Lines 133-143 of `reconcile`: the current set read from the registry annotation,
empty when the annotation is absent, or the decode error. -/
def loadRegistry (svc : Service) : Except GoError StringSet :=
  match mapGet svc.Annotations registryKey with
  | some r =>
    match jsonDecode r with
    | Except.error err => Except.error err
    | Except.ok cur => Except.ok (StringSet.InsertAll [] cur)
  | none => Except.ok []

/-- The deferred function of `reconcile` (lines 145-153): the desired set is encoded into
the registry annotation. Encoding a `[]string` has no error, so the returned error
stays as it is. -/
def storeRegistry (svc : Service) (desiredTunnelSet : StringSet) : Service :=
  { svc with
    Annotations :=
      mapSet svc.Annotations registryKey (jsonEncode (StringSet.List desiredTunnelSet)) }

/-- The local variables of `reconcile` when the loop over the ports begins
(lines 121-127 and 142). -/
def LoopState.init {σ : Type} (currentTunnelSet : StringSet) (a : σ) : LoopState σ :=
  { errs := [], ingress := [], currentTunnelSet := currentTunnelSet, desiredTunnelSet := [],
    calls := [], events := [], agent := a }

/-- The call `controllerutil.AddFinalizer(svc, ControllerName)` of line 155. -/
def withFinalizer (svc : Service) : Service :=
  { svc with Finalizers := AddFinalizer svc.Finalizers ControllerName }

/-- The stale names in the order the closure of lines 212-228 stops them. -/
def staleNames {σ : Type} (st : LoopState σ) : List String :=
  StringSet.List (StringSet.Difference st.currentTunnelSet st.desiredTunnelSet)

/-- The method `ServiceReconciler.reconcile`. A decode error of the registry returns
before the deferred function is set up; every later exit, a panic included, runs the
deferred function, which stores the desired set. -/
def reconcile {σ : Type} (lib : GoLib) (agent : Agent σ) (a : σ) (svc : Service) : Pass σ :=
  match loadRegistry svc with
  | Except.error err =>
    { svc := svc, reterr := some (RetError.plain err), panicked := false,
      calls := [], events := [], agent := a }
  | Except.ok currentTunnelSet =>
    match portLoop lib agent (withFinalizer svc) (withFinalizer svc).Ports
        (LoopState.init currentTunnelSet a) with
    | Flow.panic st =>
      { svc := storeRegistry (withFinalizer svc) st.desiredTunnelSet, reterr := none,
        panicked := true, calls := st.calls, events := st.events, agent := st.agent }
    | Flow.next st =>
      let stale := stopStale agent (staleNames st)
        { errs := [], calls := st.calls, agent := st.agent }
      match NewAggregate stale.errs with
      | some err =>
        { svc := storeRegistry (withFinalizer svc) st.desiredTunnelSet, reterr := some err,
          panicked := false, calls := stale.calls, events := st.events, agent := stale.agent }
      | none =>
        match NewAggregate st.errs with
        | some err =>
          { svc := storeRegistry (withFinalizer svc) st.desiredTunnelSet, reterr := some err,
            panicked := false, calls := stale.calls, events := st.events,
            agent := stale.agent }
        | none =>
          { svc := storeRegistry { withFinalizer svc with Ingress := st.ingress }
              st.desiredTunnelSet,
            reterr := none, panicked := false, calls := stale.calls, events := st.events,
            agent := stale.agent }

/-! ## `ServiceReconciler.reconcileDeletion` -/

/-- The loop of `reconcileDeletion` (lines 247-263): stop the tunnel of each port,
collect the errors that are not NotFound. -/
def deletionLoop {σ : Type} (agent : Agent σ) (svc : Service) :
    List ServicePort → StopState σ → StopState σ
  | [], st => st
  | sp :: rest, st =>
    let tunnelName := deletionTunnelName svc sp
    match agent.Stop st.agent tunnelName with
    | (err, a) =>
      let calls := st.calls ++ [Call.stop tunnelName err]
      match err with
      | some e =>
        if IsNotFound (some e) then
          deletionLoop agent svc rest { errs := st.errs, calls := calls, agent := a }
        else deletionLoop agent svc rest { errs := st.errs ++ [e], calls := calls, agent := a }
      | none => deletionLoop agent svc rest { errs := st.errs, calls := calls, agent := a }

/-- The method `ServiceReconciler.reconcileDeletion`. -/
def reconcileDeletion {σ : Type} (agent : Agent σ) (a : σ) (svc : Service) : Pass σ :=
  let st := deletionLoop agent svc svc.Ports { errs := [], calls := [], agent := a }
  match NewAggregate st.errs with
  | some err =>
    { svc := svc, reterr := some err, panicked := false, calls := st.calls, events := [],
      agent := st.agent }
  | none =>
    { svc := { svc with Finalizers := RemoveFinalizer svc.Finalizers ControllerName },
      reterr := none, panicked := false, calls := st.calls, events := [], agent := st.agent }

/-- The method `ServiceReconciler.Reconcile` on a service already fetched from the
store, the patch to the store left out: a service without cluster IP is requeued
after three seconds (`some 3`), a service with a deletion timestamp goes to
`reconcileDeletion`, any other to `reconcile`. -/
def Reconcile {σ : Type} (lib : GoLib) (agent : Agent σ) (a : σ) (svc : Service) :
    Option Nat × Pass σ :=
  if svc.ClusterIP = "" then
    (some 3, { svc := svc, reterr := none, panicked := false, calls := [], events := [],
               agent := a })
  else if svc.DeletionTimestamp.isSome then (none, reconcileDeletion agent a svc)
  else (none, reconcile lib agent a svc)

/-! ## An example library and an example agent

`goLib` is a small instance of `GoLib`, used where a theorem is applied to a concrete
run; the general theorems hold for every `GoLib` and every `Agent`. -/

/-- The function `getScheme` of `net/url`: the scheme and what follows its colon, the
empty scheme and the whole text when there is no scheme, `none` for the error
`missing protocol scheme` of a text that starts with a colon. -/
def getScheme (rawURL : List Char) : List Char → List Char → Option (List Char × List Char)
  | [], _ => some ([], rawURL)
  | c :: cs, pre =>
    if (97 ≤ c.toNat ∧ c.toNat ≤ 122) ∨ (65 ≤ c.toNat ∧ c.toNat ≤ 90) then
      getScheme rawURL cs (pre ++ [c])
    else if (48 ≤ c.toNat ∧ c.toNat ≤ 57) ∨ c = '+' ∨ c = '-' ∨ c = '.' then
      (if pre = [] then some ([], rawURL) else getScheme rawURL cs (pre ++ [c]))
    else if c = ':' then (if pre = [] then none else some (pre, cs))
    else some ([], rawURL)

/-- The function `validOptionalPort` of `net/url`: empty, or a colon and decimal digits. -/
def validOptionalPort : List Char → Bool
  | [] => true
  | c :: ds => c = ':' && ds.all (fun d => 48 ≤ d.toNat && d.toNat ≤ 57)

/-- The host part of an authority as `parseHost` of `net/url` checks it: what follows the
last `]` of a bracketed host, or starts at the last colon of another host, must be an
optional port. -/
def parseHost (host : List Char) : Option (List Char) :=
  if host.head? = some '[' then
    match lastIndexOfChar ']' host with
    | none => none
    | some i => if validOptionalPort (host.drop (i + 1)) then some host else none
  else
    match lastIndexOfChar ':' host with
    | none => some host
    | some i => if validOptionalPort (host.drop i) then some host else none

/-- A model of `url.Parse` that yields the host: the text up to `#` must hold no ASCII
control character and must not start with a colon; a query is cut off; a text with a
scheme and no leading slash is opaque and has no host; a text without scheme whose
first path segment holds a colon is an error; after `//` the authority runs to the next
slash, user info up to the last `@` is dropped and the port is checked. Percent
escapes and the characters a host may not hold are not examined. -/
def goURLParse (rawURL : String) : Except GoError URL :=
  let fail : Except GoError URL := Except.error (GoError.other ("parse " ++ rawURL))
  let u := rawURL.data.takeWhile (fun c => c ≠ '#')
  if u.any (fun c => c.toNat < 32 || c.toNat = 127) then fail
  else if u = ['*'] then Except.ok { Host := "" }
  else
    match getScheme u u [] with
    | none => fail
    | some (scheme, rest0) =>
      let rest := rest0.takeWhile (fun c => c ≠ '?')
      if rest.head? ≠ some '/' ∧ scheme ≠ [] then Except.ok { Host := "" }
      else if rest.head? ≠ some '/' ∧ ':' ∈ rest.takeWhile (fun c => c ≠ '/') then fail
      else if (scheme ≠ [] ∨ rest.take 3 ≠ ['/', '/', '/']) ∧ rest.take 2 = ['/', '/'] then
        let authority := (rest.drop 2).takeWhile (fun c => c ≠ '/')
        let hostpart :=
          match lastIndexOfChar '@' authority with
          | none => authority
          | some i => authority.drop (i + 1)
        match parseHost hostpart with
        | none => fail
        | some h => Except.ok { Host := String.mk h }
      else Except.ok { Host := "" }

/-- Lower case of the ASCII letters of a string. -/
def asciiLower (s : String) : String :=
  String.mk (s.data.map (fun c => if 65 ≤ c.toNat ∧ c.toNat ≤ 90 then Char.ofNat (c.toNat + 32) else c))

/-- Upper case of the ASCII letters of a string. -/
def asciiUpper (s : String) : String :=
  String.mk (s.data.map (fun c => if 97 ≤ c.toNat ∧ c.toNat ≤ 122 then Char.ofNat (c.toNat - 32) else c))

/-- An example library: `goURLParse` for `url.Parse`, and the case functions on ASCII
letters. -/
def goLib : GoLib :=
  { urlParse := goURLParse, ToLower := asciiLower, ToUpper := asciiUpper }

/-- The agent API error with status code 404. -/
def notFoundError : GoError :=
  GoError.api { Code := 0, StatusCode := 404, Message := "tunnel not found" }

/-- An agent that is a map from tunnel name to tunnel: `Find` looks the name up and
answers NotFound when it is absent, `Start` binds the name to the tunnel `assign`
gives it and answers with that tunnel, `Stop` removes the name; no call fails. -/
def mapAgent (assign : String → TunnelConfig → Tunnel) : Agent (List (String × Tunnel)) :=
  { Find := fun m tunnelName =>
      match m.lookup tunnelName with
      | some t => ((some t, none), m)
      | none => ((none, some notFoundError), m)
    Start := fun m tunnelName config =>
      ((some (assign tunnelName config), none),
        (tunnelName, assign tunnelName config) :: m.filter (fun e => e.1 ≠ tunnelName))
    Stop := fun m tunnelName =>
      (none, m.filter (fun e => e.1 ≠ tunnelName)) }

/-- The tunnel an example agent gives a name: a TCP endpoint on a fixed public host. -/
def exampleAssign (tunnelName : String) (config : TunnelConfig) : Tunnel :=
  { Name := tunnelName, Addr := config.Addr, URI := "/api/tunnels/" ++ tunnelName,
    PublicURL := "tcp://0.tcp.ngrok.io:10000", Proto := config.Proto, Config := config }

/-- An example service `ns/svc` with cluster IP 10.0.0.5 and the given ports. -/
def exampleService (ports : List ServicePort) : Service :=
  { Namespace := "ns", Name := "svc", Annotations := [], Finalizers := [],
    DeletionTimestamp := none, ClusterIP := "10.0.0.5", Ports := ports, Ingress := [] }

/-- An agent that cannot be reached: every call fails with the same transport error. -/
def downAgent : Agent Unit :=
  { Find := fun _ _ => ((none, some (GoError.other "connection refused")), ())
    Start := fun _ _ _ => ((none, some (GoError.other "connection refused")), ())
    Stop := fun _ _ => (some (GoError.other "connection refused"), ()) }

/-- The example service with a registry annotation that holds the given names. -/
def exampleServiceWith (registry : List String) (ports : List ServicePort) : Service :=
  { exampleService ports with Annotations := [(registryKey, jsonEncode registry)] }

/-- The errors of the stop calls of a trace that are neither nil nor NotFound, in order. -/
def stopErrors (calls : List Call) : List GoError :=
  calls.filterMap (fun c => match c with
    | Call.stop _ (some e) => if IsNotFound (some e) then none else some e
    | _ => none)

/-- The tunnel an agent gives a name when its public URL is the text of one colon,
which `url.Parse` rejects (`missing protocol scheme`). -/
def colonAssign (tunnelName : String) (config : TunnelConfig) : Tunnel :=
  { Name := tunnelName, Addr := config.Addr, URI := "/api/tunnels/" ++ tunnelName,
    PublicURL := ":", Proto := config.Proto, Config := config }

/-- The tunnel an agent gives a name when it reports no public URL. -/
def emptyAssign (tunnelName : String) (config : TunnelConfig) : Tunnel :=
  { Name := tunnelName, Addr := config.Addr, URI := "/api/tunnels/" ++ tunnelName,
    PublicURL := "", Proto := config.Proto, Config := config }

/-- The public URL of the tunnel splits into host and port. -/
def splitOk (lib : GoLib) (t : Tunnel) : Bool :=
  match SplitHostPort lib t.PublicURL with
  | Except.ok _ => true
  | Except.error _ => false

/-- The agent served the call: a find answered NotFound, or nothing, or a tunnel whose
public URL splits; a start answered a tunnel whose public URL splits, without error.
Nothing is asked of a stop call. -/
def served (lib : GoLib) : Call → Bool
  | Call.find _ ft fe =>
    match fe with
    | some e => IsNotFound (some e)
    | none =>
      match ft with
      | some t => splitOk lib t
      | none => true
  | Call.start _ _ t2 e2 =>
    match e2, t2 with
    | none, some t => splitOk lib t
    | _, _ => false
  | Call.stop _ _ => true

/-- The trace at the end of a loop, whichever way it ended. -/
def Flow.calls {σ : Type} : Flow σ → List Call
  | Flow.next st => st.calls
  | Flow.panic st => st.calls

/-- The names of the start calls of a trace, in order. -/
def startNames (calls : List Call) : List String :=
  calls.filterMap (fun c => match c with
    | Call.start n _ _ _ => some n
    | _ => none)

/-- The pass that follows a pass on `svc` when the ports have been replaced by `ports2`
in between: it runs on the service the first pass left, against the agent in the state
the first pass left it in. -/
def nextPass {σ : Type} (lib : GoLib) (agent : Agent σ) (a : σ) (svc : Service)
    (ports2 : List ServicePort) : Pass σ :=
  reconcile lib agent (reconcile lib agent a svc).agent
    { (reconcile lib agent a svc).svc with Ports := ports2 }

/-- The text of a JSON array of strings as the persisted annotation format describes it:
an opening bracket, the string literals of the elements separated by commas, a
closing bracket. -/
def jsonArrayText (l : List String) : List Char :=
  '[' :: (List.intercalate [','] (l.map quoteString) ++ [']'])

/-- The find of a port answered NotFound, or nothing at all (a nil tunnel and a nil
error): the condition of line 173 when line 167 let the answer pass. -/
def FindAbsent (ft : Option Tunnel) (fe : Option GoError) : Prop :=
  IsNotFound fe = true ∨ (fe = none ∧ ft = none)

/-- The calls `reconcile` makes for one port: a find call on the tunnel name of the
port, followed by a start call exactly when the find answered NotFound or nothing;
the start call is on the same name and carries the tunnel configuration of the port. -/
def PortCalls (lib : GoLib) (svc : Service) (sp : ServicePort) (seg : List Call) : Prop :=
  ∃ ft fe,
    (¬ FindAbsent ft fe ∧ seg = [Call.find (reconcileTunnelName svc sp) ft fe]) ∨
    (FindAbsent ft fe ∧ ∃ t2 e2,
      seg = [Call.find (reconcileTunnelName svc sp) ft fe,
        Call.start (reconcileTunnelName svc sp) (startConfig lib svc sp) t2 e2])

/-- A tunnel on `ns-svc-a` whose public URL has a host and no port, as the agent reports
for an HTTP tunnel; `net.SplitHostPort` rejects its host (`missing port in address`). -/
def hostOnlyTunnel : Tunnel :=
  { Name := "ns-svc-a", Addr := "10.0.0.5:1234", URI := "/api/tunnels/ns-svc-a",
    PublicURL := "https://abc.ngrok.io", Proto := "https",
    Config := { Addr := "10.0.0.5:1234", Proto := "http", RemoteAddr := "" } }

/-- What the agent answers when `Stop` is called on each of the names in order, each
call in the state the call before left the agent in: the stop calls with the answers
of `agent.Stop`, and the state of the agent after the last call. -/
def stopAnswers {σ : Type} (agent : Agent σ) : List String → σ → List Call × σ
  | [], s => ([], s)
  | n :: rest, s =>
    (Call.stop n (agent.Stop s n).1 :: (stopAnswers agent rest (agent.Stop s n).2).1,
      (stopAnswers agent rest (agent.Stop s n).2).2)

/-- The service `ns/svc` marked for deletion, with the finalizer of the controller and
the ports `a` and `b`. -/
def deletedService : Service :=
  { exampleService [{ Name := "a", Protocol := "TCP", Port := 1234 },
      { Name := "b", Protocol := "TCP", Port := 6789 }] with
    DeletionTimestamp := some 1, Finalizers := [ControllerName] }

/-! ## Tunnel names -/

theorem replaceAll_data (s : String) (old new : Char) :
    (ReplaceAll s old new).data = s.data.map (fun c => if c = old then new else c) := rfl

theorem map_replace_of_not_mem (l : List Char) (old new : Char) (h : old ∉ l) :
    l.map (fun c => if c = old then new else c) = l := by
  induction l with
  | nil => rfl
  | cons x xs ih =>
    have hx : x ≠ old := fun e => h (by simp [e])
    have hxs : old ∉ xs := fun e => h (by simp [e])
    simp [hx, ih hxs]

theorem replaceAll_svckey (svc : Service) (hns : '/' ∉ svc.Namespace.data)
    (hn : '/' ∉ svc.Name.data) :
    ReplaceAll (svckey svc) '/' '-' = svc.Namespace ++ "-" ++ svc.Name := by
  apply String.ext
  rw [replaceAll_data]
  simp only [svckey, String.data_append, List.map_append]
  rw [map_replace_of_not_mem _ _ _ hns, map_replace_of_not_mem _ _ _ hn]
  rfl

/-- C1: for a service whose namespace and name hold no slash (Kubernetes admits none)
and a port `sp` of it, `reconcile` and `reconcileDeletion` derive the same tunnel
name; it is `ns-name` when the service has exactly one port and the port has no name,
and `ns-name-portname` otherwise. -/
theorem C1_tunnel_name (svc : Service) (sp : ServicePort)
    (hns : '/' ∉ svc.Namespace.data) (hn : '/' ∉ svc.Name.data) :
    reconcileTunnelName svc sp = deletionTunnelName svc sp ∧
    (svc.Ports.length = 1 ∧ sp.Name = "" →
      reconcileTunnelName svc sp = svc.Namespace ++ "-" ++ svc.Name) ∧
    (svc.Ports.length > 1 ∨ sp.Name ≠ "" →
      reconcileTunnelName svc sp = svc.Namespace ++ "-" ++ svc.Name ++ "-" ++ sp.Name) := by
  refine ⟨rfl, ?_, ?_⟩
  · rintro ⟨hlen, hname⟩
    have hc : ¬ (svc.Ports.length > 1 ∨ sp.Name ≠ "") := by
      rintro (h | h)
      · omega
      · exact h hname
    simp only [reconcileTunnelName, if_neg hc]
    exact replaceAll_svckey svc hns hn
  · intro hc
    simp only [reconcileTunnelName, if_pos hc]
    rw [replaceAll_svckey svc hns hn]

/-- C1 at the service `ns/svc` with the two named ports `a` and `b`: the port `a` gets
the tunnel name `ns-svc-a` on both paths. -/
theorem C1_tunnel_name_witness :
    reconcileTunnelName
        (exampleService [{ Name := "a", Protocol := "TCP", Port := 1234 },
          { Name := "b", Protocol := "TCP", Port := 6789 }])
        { Name := "a", Protocol := "TCP", Port := 1234 } = "ns-svc-a" ∧
      deletionTunnelName
        (exampleService [{ Name := "a", Protocol := "TCP", Port := 1234 },
          { Name := "b", Protocol := "TCP", Port := 6789 }])
        { Name := "a", Protocol := "TCP", Port := 1234 } = "ns-svc-a" := by
  have h := C1_tunnel_name
    (exampleService [{ Name := "a", Protocol := "TCP", Port := 1234 },
      { Name := "b", Protocol := "TCP", Port := 6789 }])
    { Name := "a", Protocol := "TCP", Port := 1234 } (by decide) (by decide)
  refine ⟨?_, ?_⟩
  · rw [h.2.2 (Or.inl (by decide))]; decide
  · rw [← h.1, h.2.2 (Or.inl (by decide))]; decide

theorem string_append_left_cancel (a b c : String) (h : a ++ b = a ++ c) : b = c := by
  apply String.ext
  have h1 : (a ++ b).data = (a ++ c).data := by rw [h]
  simpa [String.data_append] using h1

theorem string_ne_append_dash (a b : String) : a ≠ a ++ "-" ++ b := by
  intro h
  have h1 : a.data.length = (a ++ "-" ++ b).data.length := by rw [← h]
  simp [String.data_append] at h1

/-- C8, counterexample: the services `a-b/c` and `a/b-c`, which differ in namespace and
in name, get the same tunnel name `a-b-c` for their one unnamed port. -/
theorem C8_counterexample :
    ({ exampleService [{ Name := "", Protocol := "TCP", Port := 80 }] with
        Namespace := "a-b", Name := "c" } : Service).Namespace ≠
      ({ exampleService [{ Name := "", Protocol := "TCP", Port := 80 }] with
        Namespace := "a", Name := "b-c" } : Service).Namespace ∧
    reconcileTunnelName
        { exampleService [{ Name := "", Protocol := "TCP", Port := 80 }] with
          Namespace := "a-b", Name := "c" }
        { Name := "", Protocol := "TCP", Port := 80 } =
      reconcileTunnelName
        { exampleService [{ Name := "", Protocol := "TCP", Port := 80 }] with
          Namespace := "a", Name := "b-c" }
        { Name := "", Protocol := "TCP", Port := 80 } := by
  decide

/-- C8, amended: within one resource identity the tunnel name tells the ports apart.
For two services (or two versions of one service) with the same namespace and the
same name, two ports with different names get different tunnel names. -/
theorem C8_names_distinct_within_service (svc1 svc2 : Service) (p1 p2 : ServicePort)
    (hns : svc1.Namespace = svc2.Namespace) (hn : svc1.Name = svc2.Name)
    (hp : p1.Name ≠ p2.Name) :
    reconcileTunnelName svc1 p1 ≠ reconcileTunnelName svc2 p2 := by
  have hkey : svckey svc1 = svckey svc2 := by simp [svckey, hns, hn]
  simp only [reconcileTunnelName, hkey]
  intro h
  split_ifs at h with h1 h2 h2
  · exact hp (string_append_left_cancel _ _ _ h)
  · exact string_ne_append_dash _ _ h.symm
  · exact string_ne_append_dash _ _ h
  · have e1 : p1.Name = "" := by
      by_contra hc; exact h1 (Or.inr hc)
    have e2 : p2.Name = "" := by
      by_contra hc; exact h2 (Or.inr hc)
    exact hp (e1.trans e2.symm)

/-- C8, amended, at the service `ns/svc` with the ports `a` and `b`: the two tunnel names
differ. -/
theorem C8_names_distinct_within_service_witness :
    reconcileTunnelName
        (exampleService [{ Name := "a", Protocol := "TCP", Port := 1234 },
          { Name := "b", Protocol := "TCP", Port := 6789 }])
        { Name := "a", Protocol := "TCP", Port := 1234 } ≠
      reconcileTunnelName
        (exampleService [{ Name := "a", Protocol := "TCP", Port := 1234 },
          { Name := "b", Protocol := "TCP", Port := 6789 }])
        { Name := "b", Protocol := "TCP", Port := 6789 } :=
  C8_names_distinct_within_service _ _ _ _ rfl rfl (by decide)

/-! ## The registry codec round trip -/

theorem hexVal_hexDigit : ∀ k, k < 16 → hexVal (hexDigit k) = some k := by
  decide

theorem getu4_low (n : Nat) (h : n < 256) :
    getu4 '0' '0' (hexDigit (n / 16)) (hexDigit (n % 16)) = some n := by
  have h1 : hexVal (hexDigit (n / 16)) = some (n / 16) := hexVal_hexDigit _ (by omega)
  have h2 : hexVal (hexDigit (n % 16)) = some (n % 16) := hexVal_hexDigit _ (by omega)
  have h0 : hexVal '0' = some 0 := by decide
  simp only [getu4, h0, h1, h2]
  congr 1
  omega

theorem char_eq_of_toNat {c d : Char} (h : c.toNat = d.toNat) : c = d := by
  rw [← Char.ofNat_toNat c, ← Char.ofNat_toNat d, h]

theorem scan_inString_cons (acc : List String) (cur : List Char) (hi : Option Nat)
    (c : Char) (cs : List Char) :
    scan (ScanState.inString acc cur hi) (c :: cs) =
      if c = '"' then scan (ScanState.afterValue (acc ++ [String.mk (flush cur hi)])) cs
      else if c = '\\' then
        match cs with
        | [] => none
        | e :: rest =>
          if e = 'u' then
            match rest with
            | h1 :: h2 :: h3 :: h4 :: rest2 =>
              match getu4 h1 h2 h3 h4 with
              | none => none
              | some r =>
                match hi.bind (fun r1 => decodeSurrogates r1 r) with
                | some ch => scan (ScanState.inString acc (cur ++ [ch]) none) rest2
                | none =>
                  if isSurrogate r then
                    scan (ScanState.inString acc (flush cur hi) (some r)) rest2
                  else scan (ScanState.inString acc (flush cur hi ++ [Char.ofNat r]) none) rest2
            | _ => none
          else
            match unescapeChar e with
            | some ch => scan (ScanState.inString acc (flush cur hi ++ [ch]) none) rest
            | none => none
      else if c.toNat < 32 then none
      else scan (ScanState.inString acc (flush cur hi ++ [c]) none) cs := by
  conv_lhs => rw [scan.eq_def]

theorem scan_afterValue_cons (acc : List String) (c : Char) (cs : List Char) :
    scan (ScanState.afterValue acc) (c :: cs) =
      if isSpace c then scan (ScanState.afterValue acc) cs
      else if c = ',' then scan (ScanState.expectValue acc false) cs
      else if c = ']' then some acc
      else none := by
  conv_lhs => rw [scan.eq_def]

theorem scan_expectValue_cons (acc : List String) (first : Bool) (c : Char) (cs : List Char) :
    scan (ScanState.expectValue acc first) (c :: cs) =
      if isSpace c then scan (ScanState.expectValue acc first) cs
      else if c = ']' then (if first then some acc else none)
      else if c = '"' then scan (ScanState.inString acc [] none) cs
      else if c = 'n' then
        match cs with
        | 'u' :: 'l' :: 'l' :: rest => scan (ScanState.afterValue (acc ++ [""])) rest
        | _ => none
      else none := by
  conv_lhs => rw [scan.eq_def]

theorem scan_top_cons (c : Char) (cs : List Char) :
    scan ScanState.top (c :: cs) =
      if isSpace c then scan ScanState.top cs
      else if c = '[' then scan (ScanState.expectValue [] true) cs
      else if c = 'n' then
        match cs with
        | 'u' :: 'l' :: 'l' :: _ => some []
        | _ => none
      else none := by
  conv_lhs => rw [scan.eq_def]

/-- Reading back what the encoder wrote for one character. -/
theorem scan_escapeChar (c : Char) (acc : List String) (cur rest : List Char) :
    scan (ScanState.inString acc cur none) (escapeChar c ++ rest) =
      scan (ScanState.inString acc (cur ++ [c]) none) rest := by
  unfold escapeChar
  split_ifs with h1 h2 h3 h4 h5 h6 h7 h8
  · subst h1; simp [scan_inString_cons, unescapeChar, flush]
  · subst h2; simp [scan_inString_cons, unescapeChar, flush]
  · subst h3; simp [scan_inString_cons, unescapeChar, flush]
  · subst h4; simp [scan_inString_cons, unescapeChar, flush]
  · subst h5; simp [scan_inString_cons, unescapeChar, flush]
  · have hn : c.toNat < 256 := by
      rcases h6 with h | h | h | h
      · omega
      · subst h; decide
      · subst h; decide
      · subst h; decide
    have hs : isSurrogate c.toNat = false := by
      simp only [isSurrogate, Bool.and_eq_false_imp, decide_eq_true_eq]
      intro h; omega
    simp [scan_inString_cons, getu4_low _ hn, hs, flush]
  · have hc : c = Char.ofNat 8232 := char_eq_of_toNat (by rw [h7]; decide)
    subst hc
    have hg : getu4 '2' '0' '2' '8' = some 8232 := by decide
    have hs : isSurrogate 8232 = false := by decide
    simp [scan_inString_cons, flush, hg, hs]
  · have hc : c = Char.ofNat 8233 := char_eq_of_toNat (by rw [h8]; decide)
    subst hc
    have hg : getu4 '2' '0' '2' '9' = some 8233 := by decide
    have hs : isSurrogate 8233 = false := by decide
    simp [scan_inString_cons, flush, hg, hs]
  · have h6a : ¬ c.toNat < 32 := fun h => h6 (Or.inl h)
    simp [scan_inString_cons, h1, h2, h6a, flush]

theorem scan_string_body (s : List Char) (acc : List String) (cur rest : List Char) :
    scan (ScanState.inString acc cur none) (s.flatMap escapeChar ++ '"' :: rest) =
      scan (ScanState.afterValue (acc ++ [String.mk (cur ++ s)])) rest := by
  induction s generalizing cur with
  | nil => simp [scan_inString_cons, flush]
  | cons c cs ih =>
    rw [List.flatMap_cons, List.append_assoc, scan_escapeChar, ih]
    simp

theorem scan_quoteString (s : String) (acc : List String) (first : Bool) (rest : List Char) :
    scan (ScanState.expectValue acc first) (quoteString s ++ rest) =
      scan (ScanState.afterValue (acc ++ [s])) rest := by
  have h := scan_string_body s.data acc [] rest
  simp only [List.nil_append] at h
  have hsp : isSpace '"' = false := by decide
  simp only [quoteString, List.cons_append, List.append_assoc, List.singleton_append,
    scan_expectValue_cons, hsp]
  simpa using h

theorem scan_encodeTail (l : List String) (acc : List String) :
    scan (ScanState.afterValue acc) (encodeTail l) = some (acc ++ l) := by
  induction l generalizing acc with
  | nil =>
    have hsp : isSpace ']' = false := by decide
    simp [encodeTail, scan_afterValue_cons, hsp]
  | cons s t ih =>
    have hsp : isSpace ',' = false := by decide
    simp only [encodeTail, scan_afterValue_cons, hsp]
    simp only [Bool.false_eq_true, if_false, if_true]
    rw [scan_quoteString, ih]
    simp

/-- Round trip of the registry codec: decoding what the encoder writes for a list of
strings yields the list. -/
theorem jsonDecode_jsonEncode (l : List String) : jsonDecode (jsonEncode l) = Except.ok l := by
  cases l with
  | nil => rfl
  | cons s t =>
    have hsp : isSpace '[' = false := by decide
    simp only [jsonDecode, jsonEncode, scan_top_cons, hsp]
    simp only [Bool.false_eq_true, if_false, if_true]
    rw [scan_quoteString, scan_encodeTail]
    simp

/-! ## String sets and the registry annotation -/

theorem mem_Insert (s : StringSet) (y x : String) :
    x ∈ StringSet.Insert s y ↔ x ∈ s ∨ x = y := by
  unfold StringSet.Insert
  split_ifs with h
  · constructor
    · exact Or.inl
    · rintro (h1 | h1)
      · exact h1
      · rw [h1]; exact h
  · simp

theorem Insert_of_mem (s : StringSet) (y : String) (h : y ∈ s) : StringSet.Insert s y = s := by
  simp [StringSet.Insert, h]

theorem nodup_Insert (s : StringSet) (y : String) (h : s.Nodup) :
    (StringSet.Insert s y).Nodup := by
  unfold StringSet.Insert
  split_ifs with hy
  · exact h
  · rw [List.nodup_append]
    refine ⟨h, List.nodup_singleton y, ?_⟩
    intro a ha hb
    rw [List.mem_singleton] at hb
    exact hy (hb ▸ ha)

theorem mem_InsertAll (l : List String) (s : StringSet) (x : String) :
    x ∈ StringSet.InsertAll s l ↔ x ∈ s ∨ x ∈ l := by
  induction l generalizing s with
  | nil => simp [StringSet.InsertAll]
  | cons y t ih =>
    have h := ih (StringSet.Insert s y)
    simp only [StringSet.InsertAll, List.foldl_cons] at h ⊢
    rw [h, mem_Insert, List.mem_cons]
    tauto

theorem nodup_InsertAll (l : List String) (s : StringSet) (h : s.Nodup) :
    (StringSet.InsertAll s l).Nodup := by
  induction l generalizing s with
  | nil => simpa [StringSet.InsertAll] using h
  | cons y t ih =>
    have h1 := ih (StringSet.Insert s y) (nodup_Insert s y h)
    simpa [StringSet.InsertAll] using h1

theorem InsertAll_append (s : StringSet) (l1 l2 : List String) :
    StringSet.InsertAll s (l1 ++ l2) = StringSet.InsertAll (StringSet.InsertAll s l1) l2 := by
  simp [StringSet.InsertAll, List.foldl_append]

theorem mem_Difference (s o : StringSet) (x : String) :
    x ∈ StringSet.Difference s o ↔ x ∈ s ∧ x ∉ o := by
  simp [StringSet.Difference]

theorem nodup_Difference (s o : StringSet) (h : s.Nodup) : (StringSet.Difference s o).Nodup :=
  h.filter _

theorem mem_List (s : StringSet) (x : String) : x ∈ StringSet.List s ↔ x ∈ s :=
  (List.perm_insertionSort StrLE s).mem_iff

theorem nodup_List (s : StringSet) (h : s.Nodup) : (StringSet.List s).Nodup :=
  (List.perm_insertionSort StrLE s).nodup_iff.mpr h

theorem Difference_eq_nil (s o : StringSet) (h : ∀ x, x ∈ s → x ∈ o) :
    StringSet.Difference s o = [] := by
  simp only [StringSet.Difference, List.filter_eq_nil_iff]
  intro a ha
  simpa using h a ha

theorem mapGet_mapSet (m : List (String × String)) (k v : String) :
    mapGet (mapSet m k v) k = some v := by
  induction m with
  | nil => simp [mapSet, mapGet]
  | cons e t ih =>
    obtain ⟨k1, v1⟩ := e
    by_cases h : k1 = k
    · simp [mapSet, mapGet, h]
    · simp [mapSet, mapGet, h, ih]

theorem mapGet_mapSet_ne (m : List (String × String)) (k v k2 : String) (h : k2 ≠ k) :
    mapGet (mapSet m k v) k2 = mapGet m k2 := by
  induction m with
  | nil => simp [mapSet, mapGet, h.symm]
  | cons e t ih =>
    obtain ⟨k1, v1⟩ := e
    by_cases h1 : k1 = k
    · have h2 : ¬ k = k2 := fun e => h e.symm
      have h3 : ¬ k1 = k2 := fun e => h (e.symm.trans h1)
      simp [mapSet, mapGet, h1, h2]
    · by_cases h2 : k1 = k2
      · subst h2
        simp [mapSet, mapGet, h1]
      · simp [mapSet, mapGet, h1, h2, ih]

/-- The loader of the next pass reads back the set the deferred function stored. -/
theorem loadRegistry_storeRegistry (svc : Service) (d : StringSet) :
    loadRegistry (storeRegistry svc d) = Except.ok (StringSet.InsertAll [] (StringSet.List d)) := by
  simp [loadRegistry, storeRegistry, mapGet_mapSet, jsonDecode_jsonEncode]

theorem mem_loaded_stored (d : StringSet) (x : String) :
    x ∈ StringSet.InsertAll [] (StringSet.List d) ↔ x ∈ d := by
  rw [mem_InsertAll, mem_List]
  simp

/-! ## One step of the loop over the ports -/

theorem recordTunnel_cases {σ : Type} (lib : GoLib) (tunnelName : String) (t : Tunnel)
    (st : LoopState σ) :
    (∃ err, SplitHostPort lib t.PublicURL = Except.error err ∧
      recordTunnel lib tunnelName t st =
        { st.failed err with currentTunnelSet := st.currentTunnelSet.Insert tunnelName }) ∨
    (∃ hostname port, SplitHostPort lib t.PublicURL = Except.ok (hostname, port) ∧
      recordTunnel lib tunnelName t st =
        { st with desiredTunnelSet := st.desiredTunnelSet.Insert tunnelName,
                  ingress := st.ingress ++ [ingressEntry lib hostname port t] }) := by
  unfold recordTunnel
  cases h : SplitHostPort lib t.PublicURL with
  | error err => exact Or.inl ⟨err, rfl, rfl⟩
  | ok r =>
    obtain ⟨hostname, port⟩ := r
    exact Or.inr ⟨hostname, port, rfl, rfl⟩

theorem startTunnel_cases {σ : Type} (lib : GoLib) (agent : Agent σ) (svc : Service)
    (sp : ServicePort) (tunnelName : String) (st : LoopState σ) :
    ∃ t2 e2 a2, agent.Start st.agent tunnelName (startConfig lib svc sp) = ((t2, e2), a2) ∧
      ((∃ e, e2 = some e ∧
          startTunnel lib agent svc sp tunnelName st =
            Flow.next ((st.called a2
              (Call.start tunnelName (startConfig lib svc sp) t2 e2)).failed e)) ∨
       (e2 = none ∧ (t2 = none ∨ ∃ t err, t2 = some t ∧
            lib.urlParse t.PublicURL = Except.error err) ∧
          startTunnel lib agent svc sp tunnelName st =
            Flow.panic (st.called a2
              (Call.start tunnelName (startConfig lib svc sp) t2 e2))) ∨
       (∃ t u, e2 = none ∧ t2 = some t ∧ lib.urlParse t.PublicURL = Except.ok u ∧
          startTunnel lib agent svc sp tunnelName st =
            Flow.next (recordTunnel lib tunnelName t
              { st.called a2 (Call.start tunnelName (startConfig lib svc sp) t2 e2) with
                events := st.events ++ [{ Port := sp.Port, Host := u.Host }] }))) := by
  rcases h : agent.Start st.agent tunnelName (startConfig lib svc sp) with ⟨⟨t2, e2⟩, a2⟩
  refine ⟨t2, e2, a2, rfl, ?_⟩
  cases e2 with
  | some e => exact Or.inl ⟨e, rfl, by simp only [startTunnel, h]⟩
  | none =>
    cases t2 with
    | none => exact Or.inr (Or.inl ⟨rfl, Or.inl rfl, by simp only [startTunnel, h]⟩)
    | some t =>
      cases hu : lib.urlParse t.PublicURL with
      | error err =>
        exact Or.inr (Or.inl ⟨rfl, Or.inr ⟨t, err, rfl, hu⟩, by simp only [startTunnel, h, hu]⟩)
      | ok u =>
        refine Or.inr (Or.inr ⟨t, u, rfl, rfl, hu, ?_⟩)
        simp only [startTunnel, h, hu]
        rfl

theorem portStep_cases {σ : Type} (lib : GoLib) (agent : Agent σ) (svc : Service)
    (st : LoopState σ) (sp : ServicePort) :
    ∃ ft fe a1, agent.Find st.agent (reconcileTunnelName svc sp) = ((ft, fe), a1) ∧
      ((∃ e, fe = some e ∧ IsNotFound (some e) = false ∧
          portStep lib agent svc st sp =
            Flow.next ((st.called a1
              (Call.find (reconcileTunnelName svc sp) ft fe)).failed e)) ∨
       (∃ t, ft = some t ∧ fe = none ∧
          portStep lib agent svc st sp =
            Flow.next (recordTunnel lib (reconcileTunnelName svc sp) t
              (st.called a1 (Call.find (reconcileTunnelName svc sp) ft fe)))) ∨
       ((IsNotFound fe = true ∨ (fe = none ∧ ft = none)) ∧
          portStep lib agent svc st sp =
            startTunnel lib agent svc sp (reconcileTunnelName svc sp)
              (st.called a1 (Call.find (reconcileTunnelName svc sp) ft fe)))) := by
  rcases h : agent.Find st.agent (reconcileTunnelName svc sp) with ⟨⟨ft, fe⟩, a1⟩
  refine ⟨ft, fe, a1, rfl, ?_⟩
  cases fe with
  | some e =>
    by_cases hnf : IsNotFound (some e) = true
    · refine Or.inr (Or.inr ⟨Or.inl hnf, ?_⟩)
      simp only [portStep, h, hnf, if_true]
    · refine Or.inl ⟨e, rfl, by simpa using hnf, ?_⟩
      simp only [portStep, h, hnf]
      rfl
  | none =>
    cases ft with
    | none => exact Or.inr (Or.inr ⟨Or.inr ⟨rfl, rfl⟩, by simp only [portStep, h]⟩)
    | some t => exact Or.inr (Or.inl ⟨t, rfl, rfl, by simp only [portStep, h]⟩)

theorem recordTunnel_effect {σ : Type} (lib : GoLib) (tunnelName : String) (t : Tunnel)
    (st0 st : LoopState σ) (he : st.errs = st0.errs) (hi : st.ingress = st0.ingress)
    (hd : st.desiredTunnelSet = st0.desiredTunnelSet)
    (hc : st.currentTunnelSet = st0.currentTunnelSet) :
    StepEffect lib tunnelName (some t) st0 (recordTunnel lib tunnelName t st) := by
  cases h : SplitHostPort lib t.PublicURL with
  | error err => simp [StepEffect, recordTunnel, h, LoopState.failed, he, hi, hd, hc]
  | ok r =>
    obtain ⟨hostname, port⟩ := r
    simp [StepEffect, recordTunnel, h, he, hi, hd, hc]

theorem recordTunnel_calls {σ : Type} (lib : GoLib) (tunnelName : String) (t : Tunnel)
    (st : LoopState σ) :
    (recordTunnel lib tunnelName t st).calls = st.calls ∧
    (recordTunnel lib tunnelName t st).agent = st.agent ∧
    (recordTunnel lib tunnelName t st).events = st.events := by
  unfold recordTunnel
  cases h : SplitHostPort lib t.PublicURL with
  | error err => exact ⟨rfl, rfl, rfl⟩
  | ok r => exact ⟨rfl, rfl, rfl⟩

/-- What a step that does not panic does: it makes one find call and, when the find
did not fail, at most one start call on the name of the port; the trace tells which
tunnel the agent handed out, and the local variables change as `StepEffect` says. -/
theorem portStep_next {σ : Type} {lib : GoLib} {agent : Agent σ} {svc : Service}
    {st st1 : LoopState σ} {sp : ServicePort}
    (h : portStep lib agent svc st sp = Flow.next st1) :
    ∃ ft fe cs tun,
      st1.calls = st.calls ++ Call.find (reconcileTunnelName svc sp) ft fe :: cs ∧
      (cs = [] ∨ ((fe = none ∨ IsNotFound fe = true) ∧ ∃ t2 e2,
        cs = [Call.start (reconcileTunnelName svc sp) (startConfig lib svc sp) t2 e2])) ∧
      (∀ t, Obtained (Call.find (reconcileTunnelName svc sp) ft fe :: cs)
        (reconcileTunnelName svc sp) t ↔ tun = some t) ∧
      StepEffect lib (reconcileTunnelName svc sp) tun st st1 := by
  obtain ⟨ft, fe, a1, -, hc⟩ := portStep_cases lib agent svc st sp
  rcases hc with ⟨e, hfe, hnf, heq⟩ | ⟨t, hft, hfe, heq⟩ | ⟨hfind, heq⟩
  · rw [heq] at h
    injection h with h
    subst h hfe
    refine ⟨ft, some e, [], none, rfl, Or.inl rfl, ?_, e, rfl, rfl, rfl, rfl⟩
    intro t
    simp [Obtained]
  · rw [heq] at h
    injection h with h
    subst hft hfe h
    refine ⟨some t, none, [], some t, ?_, Or.inl rfl, ?_, ?_⟩
    · rw [(recordTunnel_calls _ _ _ _).1]; rfl
    · intro t2
      simp only [Obtained, List.mem_singleton, Call.find.injEq, true_and, and_true,
        reduceCtorEq, exists_false, or_false, Option.some.injEq]
      exact eq_comm
    · exact recordTunnel_effect lib _ t st _ rfl rfl rfl rfl
  · have hpass : fe = none ∨ IsNotFound fe = true := by
      rcases hfind with h1 | ⟨h1, -⟩
      · exact Or.inr h1
      · exact Or.inl h1
    have hnotfound : ∀ t, Call.find (reconcileTunnelName svc sp) (some t) none ≠
        Call.find (reconcileTunnelName svc sp) ft fe := by
      intro t hc
      injection hc with _ h2 h3
      rcases hfind with h1 | ⟨-, h1⟩
      · rw [← h3] at h1; simp [IsNotFound] at h1
      · rw [← h2] at h1; cases h1
    rw [heq] at h
    obtain ⟨t2, e2, a2, -, hs⟩ := startTunnel_cases lib agent svc sp
      (reconcileTunnelName svc sp) (st.called a1 (Call.find (reconcileTunnelName svc sp) ft fe))
    rcases hs with ⟨e, he2, hseq⟩ | ⟨-, -, hseq⟩ | ⟨t, u, he2, ht2, -, hseq⟩
    · rw [hseq] at h
      injection h with h
      subst h he2
      refine ⟨ft, fe, [Call.start (reconcileTunnelName svc sp) (startConfig lib svc sp) t2
        (some e)], none, ?_, Or.inr ⟨hpass, t2, some e, rfl⟩, ?_, e, rfl, rfl, rfl, rfl⟩
      · simp [LoopState.called, LoopState.failed]
      · intro t
        simp only [Obtained, List.mem_cons, List.mem_singleton, List.not_mem_nil, or_false]
        constructor
        · rintro (h1 | h1)
          · rcases h1 with h1 | h1
            · exact absurd h1 (hnotfound t)
            · cases h1
          · obtain ⟨config, h1 | h1⟩ := h1
            · cases h1
            · cases h1
        · intro h1; cases h1
    · rw [hseq] at h
      cases h
    · rw [hseq] at h
      injection h with h
      subst he2 ht2 h
      refine ⟨ft, fe, [Call.start (reconcileTunnelName svc sp) (startConfig lib svc sp)
        (some t) none], some t, ?_, Or.inr ⟨hpass, some t, none, rfl⟩, ?_, ?_⟩
      · rw [(recordTunnel_calls _ _ _ _).1]
        simp [LoopState.called]
      · intro t3
        simp only [Obtained, List.mem_cons, List.mem_singleton, List.not_mem_nil, or_false]
        constructor
        · rintro (h1 | h1)
          · rcases h1 with h1 | h1
            · exact absurd h1 (hnotfound t3)
            · cases h1
          · obtain ⟨config, h1 | h1⟩ := h1
            · cases h1
            · injection h1 with _ _ h3 _
              exact h3.symm
        · intro h1
          injection h1 with h1
          subst h1
          exact Or.inr ⟨startConfig lib svc sp, Or.inr rfl⟩
      · exact recordTunnel_effect lib _ t st _ rfl rfl rfl rfl

theorem Obtained_append (a b : List Call) (n : String) (t : Tunnel) :
    Obtained (a ++ b) n t ↔ Obtained a n t ∨ Obtained b n t := by
  simp only [Obtained, List.mem_append]
  constructor
  · rintro ((h | h) | ⟨config, h | h⟩)
    · exact Or.inl (Or.inl h)
    · exact Or.inr (Or.inl h)
    · exact Or.inl (Or.inr ⟨config, h⟩)
    · exact Or.inr (Or.inr ⟨config, h⟩)
  · rintro ((h | ⟨config, h⟩) | (h | ⟨config, h⟩))
    · exact Or.inl (Or.inl h)
    · exact Or.inr ⟨config, Or.inl h⟩
    · exact Or.inl (Or.inr h)
    · exact Or.inr ⟨config, Or.inr h⟩

theorem Obtained_name {calls : List Call} {n m : String} {t : Tunnel}
    (hn : ∀ c ∈ calls, c.tunnelName = m) (h : Obtained calls n t) : n = m := by
  rcases h with h | ⟨config, h⟩
  · exact hn _ h
  · exact hn _ h

/-- The sets, the errors and the trace after a step that does not panic, in terms of
the calls of the step. -/
theorem portStep_sets {σ : Type} {lib : GoLib} {agent : Agent σ} {svc : Service}
    {st st1 : LoopState σ} {sp : ServicePort}
    (h : portStep lib agent svc st sp = Flow.next st1) :
    ∃ cs es, st1.calls = st.calls ++ cs ∧ st1.errs = st.errs ++ es ∧
      (∀ c ∈ cs, c.isStop = false ∧ c.tunnelName = reconcileTunnelName svc sp) ∧
      findNames cs = [reconcileTunnelName svc sp] ∧
      (∀ n, n ∈ st1.desiredTunnelSet ↔ n ∈ st.desiredTunnelSet ∨
        ∃ t hostname port, Obtained cs n t ∧
          SplitHostPort lib t.PublicURL = Except.ok (hostname, port)) ∧
      (∀ n, n ∈ st1.currentTunnelSet ↔ n ∈ st.currentTunnelSet ∨
        ∃ t err, Obtained cs n t ∧ SplitHostPort lib t.PublicURL = Except.error err) ∧
      ((∃ n, ∃ c ∈ cs, FindFailed c n) → es ≠ []) ∧
      (∀ n config t e, Call.start n config t e ∈ cs → ∃ c ∈ cs, FindPassed c n) := by
  obtain ⟨ft, fe, cs0, tun, hcalls, hcs0, hob, heff⟩ := portStep_next h
  have hnames : ∀ c ∈ Call.find (reconcileTunnelName svc sp) ft fe :: cs0,
      c.isStop = false ∧ c.tunnelName = reconcileTunnelName svc sp := by
    intro c hc
    rcases List.mem_cons.mp hc with hc | hc
    · subst hc; exact ⟨rfl, rfl⟩
    · rcases hcs0 with h0 | ⟨-, t2, e2, h0⟩
      · rw [h0] at hc; cases hc
      · rw [h0, List.mem_singleton] at hc
        subst hc; exact ⟨rfl, rfl⟩
  have hfn : findNames (Call.find (reconcileTunnelName svc sp) ft fe :: cs0) =
      [reconcileTunnelName svc sp] := by
    rcases hcs0 with h0 | ⟨-, t2, e2, h0⟩ <;> subst h0 <;> rfl
  have hobn : ∀ n t, Obtained (Call.find (reconcileTunnelName svc sp) ft fe :: cs0) n t ↔
      n = reconcileTunnelName svc sp ∧ tun = some t := by
    intro n t
    constructor
    · intro ho
      have hn := Obtained_name (fun c hc => (hnames c hc).2) ho
      subst hn
      exact ⟨rfl, (hob t).mp ho⟩
    · rintro ⟨hn, ht⟩
      subst hn
      exact (hob t).mpr ht
  have hstart : ∀ n config t e,
      Call.start n config t e ∈ Call.find (reconcileTunnelName svc sp) ft fe :: cs0 →
      ∃ c ∈ Call.find (reconcileTunnelName svc sp) ft fe :: cs0, FindPassed c n := by
    intro n config t e hc
    rcases List.mem_cons.mp hc with hc | hc
    · cases hc
    · rcases hcs0 with h0 | ⟨hpass, t2, e2, h0⟩
      · rw [h0] at hc; cases hc
      · rw [h0, List.mem_singleton] at hc
        injection hc with hn _ _ _
        subst hn
        exact ⟨_, List.mem_cons_self _ _, ft, fe, rfl, hpass⟩
  have hfailed : (∃ n, ∃ c ∈ Call.find (reconcileTunnelName svc sp) ft fe :: cs0,
      FindFailed c n) → tun = none := by
    rintro ⟨n, c, hc, ft2, e, hce, hnf⟩
    subst hce
    have hfe : fe = some e := by
      rcases List.mem_cons.mp hc with hc | hc
      · injection hc with _ _ h3
        exact h3.symm
      · rcases hcs0 with h0 | ⟨-, t2, e2, h0⟩
        · rw [h0] at hc; cases hc
        · rw [h0, List.mem_singleton] at hc; cases hc
    have hcs : cs0 = [] := by
      rcases hcs0 with h0 | ⟨hpass, -⟩
      · exact h0
      · rw [hfe] at hpass
        rcases hpass with h1 | h1
        · cases h1
        · rw [hnf] at h1; cases h1
    cases htun : tun with
    | none => rfl
    | some t =>
      have ho := (hob t).mpr htun
      rw [hcs, hfe] at ho
      simp [Obtained] at ho
  cases tun with
  | none =>
    obtain ⟨e, he, -, hd, hc⟩ := heff
    refine ⟨_, [e], hcalls, he, hnames, hfn, ?_, ?_, by simp, hstart⟩
    · intro n
      rw [hd]
      simp [hobn]
    · intro n
      rw [hc]
      simp [hobn]
  | some t =>
    unfold StepEffect at heff
    cases hs : SplitHostPort lib t.PublicURL with
    | error err =>
      simp only [hs] at heff
      obtain ⟨he, -, hd, hc⟩ := heff
      refine ⟨_, [err], hcalls, he, hnames, hfn, ?_, ?_, by simp, hstart⟩
      · intro n
        rw [hd]
        constructor
        · exact Or.inl
        · rintro (h1 | ⟨t2, hostname, port, ho, hs2⟩)
          · exact h1
          · have ht := ((hobn n t2).mp ho).2
            injection ht with ht
            subst ht
            rw [hs] at hs2
            cases hs2
      · intro n
        rw [hc, mem_Insert]
        constructor
        · rintro (h1 | h1)
          · exact Or.inl h1
          · exact Or.inr ⟨t, err, (hobn n t).mpr ⟨h1, rfl⟩, hs⟩
        · rintro (h1 | ⟨t2, err2, ho, -⟩)
          · exact Or.inl h1
          · exact Or.inr ((hobn n t2).mp ho).1
    | ok r =>
      obtain ⟨hostname, port⟩ := r
      simp only [hs] at heff
      obtain ⟨he, -, hd, hc⟩ := heff
      refine ⟨_, [], hcalls, by simp [he], hnames, hfn, ?_, ?_, ?_, hstart⟩
      · intro n
        rw [hd, mem_Insert]
        constructor
        · rintro (h1 | h1)
          · exact Or.inl h1
          · exact Or.inr ⟨t, hostname, port, (hobn n t).mpr ⟨h1, rfl⟩, hs⟩
        · rintro (h1 | ⟨t2, h2, p2, ho, -⟩)
          · exact Or.inl h1
          · exact Or.inr ((hobn n t2).mp ho).1
      · intro n
        rw [hc]
        constructor
        · exact Or.inl
        · rintro (h1 | ⟨t2, err2, ho, hs2⟩)
          · exact h1
          · have ht := ((hobn n t2).mp ho).2
            injection ht with ht
            subst ht
            rw [hs] at hs2
            cases hs2
      · intro hf
        have := hfailed hf
        cases this

/-! ## The loop over the ports and the whole pass -/

theorem reconcileTunnelName_withFinalizer (svc : Service) (sp : ServicePort) :
    reconcileTunnelName (withFinalizer svc) sp = reconcileTunnelName svc sp := rfl

theorem Obtained.mono {calls calls2 : List Call} {n : String} {t : Tunnel}
    (h : Obtained calls n t) (hsub : ∀ c, c ∈ calls → c ∈ calls2) : Obtained calls2 n t := by
  rcases h with h | ⟨config, h⟩
  · exact Or.inl (hsub _ h)
  · exact Or.inr ⟨config, hsub _ h⟩

theorem NewAggregate_eq_none (errs : List GoError) : NewAggregate errs = none ↔ errs = [] := by
  cases errs <;> simp [NewAggregate]

theorem findNames_append (a b : List Call) : findNames (a ++ b) = findNames a ++ findNames b := by
  simp [findNames, List.filterMap_append]

theorem stopNames_append (a b : List Call) : stopNames (a ++ b) = stopNames a ++ stopNames b := by
  simp [stopNames, List.filterMap_append]

/-- The sets, the errors and the trace after a loop that does not panic, in terms of
the calls of the loop: the desired set gains the names for which the agent handed out a
tunnel whose public URL splits, the current set the names for which it handed out a
tunnel whose public URL does not split. -/
theorem portLoop_sets {σ : Type} (lib : GoLib) (agent : Agent σ) (svc : Service) :
    ∀ (ports : List ServicePort) (st st1 : LoopState σ),
      portLoop lib agent svc ports st = Flow.next st1 →
      ∃ cs es, st1.calls = st.calls ++ cs ∧ st1.errs = st.errs ++ es ∧
        (∀ c ∈ cs, c.isStop = false ∧
          c.tunnelName ∈ ports.map (reconcileTunnelName svc)) ∧
        findNames cs = ports.map (reconcileTunnelName svc) ∧
        (∀ n, n ∈ st1.desiredTunnelSet ↔ n ∈ st.desiredTunnelSet ∨
          ∃ t hostname port, Obtained cs n t ∧
            SplitHostPort lib t.PublicURL = Except.ok (hostname, port)) ∧
        (∀ n, n ∈ st1.currentTunnelSet ↔ n ∈ st.currentTunnelSet ∨
          ∃ t err, Obtained cs n t ∧ SplitHostPort lib t.PublicURL = Except.error err) ∧
        ((∃ n, ∃ c ∈ cs, FindFailed c n) → es ≠ []) ∧
        (∀ n config t e, Call.start n config t e ∈ cs → ∃ c ∈ cs, FindPassed c n) := by
  intro ports
  induction ports with
  | nil =>
    intro st st1 h
    simp only [portLoop] at h
    injection h with h
    subst h
    refine ⟨[], [], by simp, by simp, by simp, rfl, ?_, ?_, ?_, ?_⟩
    · intro n; simp [Obtained]
    · intro n; simp [Obtained]
    · rintro ⟨n, c, hc, -⟩; cases hc
    · intro n config t e hc; cases hc
  | cons sp rest ih =>
    intro st st1 h
    simp only [portLoop] at h
    cases hstep : portStep lib agent svc st sp with
    | panic st2 => rw [hstep] at h; cases h
    | next st2 =>
      rw [hstep] at h
      obtain ⟨cs1, es1, hc1, he1, hn1, hf1, hd1, hu1, hx1, hs1⟩ := portStep_sets hstep
      obtain ⟨cs2, es2, hc2, he2, hn2, hf2, hd2, hu2, hx2, hs2⟩ := ih st2 st1 h
      refine ⟨cs1 ++ cs2, es1 ++ es2, ?_, ?_, ?_, ?_, ?_, ?_, ?_, ?_⟩
      · rw [hc2, hc1, List.append_assoc]
      · rw [he2, he1, List.append_assoc]
      · intro c hc
        rcases List.mem_append.mp hc with hc | hc
        · refine ⟨(hn1 c hc).1, ?_⟩
          rw [(hn1 c hc).2]
          simp
        · refine ⟨(hn2 c hc).1, ?_⟩
          exact List.mem_cons_of_mem _ (hn2 c hc).2
      · rw [findNames_append, hf1, hf2]; rfl
      · intro n
        rw [hd2, hd1]
        simp only [Obtained_append]
        constructor
        · rintro ((h1 | ⟨t, a, b, ho, hsp⟩) | ⟨t, a, b, ho, hsp⟩)
          · exact Or.inl h1
          · exact Or.inr ⟨t, a, b, Or.inl ho, hsp⟩
          · exact Or.inr ⟨t, a, b, Or.inr ho, hsp⟩
        · rintro (h1 | ⟨t, a, b, ho | ho, hsp⟩)
          · exact Or.inl (Or.inl h1)
          · exact Or.inl (Or.inr ⟨t, a, b, ho, hsp⟩)
          · exact Or.inr ⟨t, a, b, ho, hsp⟩
      · intro n
        rw [hu2, hu1]
        simp only [Obtained_append]
        constructor
        · rintro ((h1 | ⟨t, a, ho, hsp⟩) | ⟨t, a, ho, hsp⟩)
          · exact Or.inl h1
          · exact Or.inr ⟨t, a, Or.inl ho, hsp⟩
          · exact Or.inr ⟨t, a, Or.inr ho, hsp⟩
        · rintro (h1 | ⟨t, a, ho | ho, hsp⟩)
          · exact Or.inl (Or.inl h1)
          · exact Or.inl (Or.inr ⟨t, a, ho, hsp⟩)
          · exact Or.inr ⟨t, a, ho, hsp⟩
      · rintro ⟨n, c, hc, hfail⟩
        rcases List.mem_append.mp hc with hc | hc
        · have := hx1 ⟨n, c, hc, hfail⟩
          intro hnil
          exact this (List.append_eq_nil.mp hnil).1
        · have := hx2 ⟨n, c, hc, hfail⟩
          intro hnil
          exact this (List.append_eq_nil.mp hnil).2
      · intro n config t e hc
        rcases List.mem_append.mp hc with hc | hc
        · obtain ⟨c, hcm, hp⟩ := hs1 n config t e hc
          exact ⟨c, List.mem_append_left _ hcm, hp⟩
        · obtain ⟨c, hcm, hp⟩ := hs2 n config t e hc
          exact ⟨c, List.mem_append_right _ hcm, hp⟩

/-- The relation between a port and its ingress entry after a pass without error. -/
theorem portLoop_success {σ : Type} (lib : GoLib) (agent : Agent σ) (svc : Service) :
    ∀ (ports : List ServicePort) (st st1 : LoopState σ),
      portLoop lib agent svc ports st = Flow.next st1 → st1.errs = [] →
      st.errs = [] ∧ st1.currentTunnelSet = st.currentTunnelSet ∧
      st1.desiredTunnelSet =
        StringSet.InsertAll st.desiredTunnelSet (ports.map (reconcileTunnelName svc)) ∧
      ∃ cs ings, st1.calls = st.calls ++ cs ∧ st1.ingress = st.ingress ++ ings ∧
        List.Forall₂ (fun sp ing => ∃ t hostname port,
          Obtained cs (reconcileTunnelName svc sp) t ∧
          SplitHostPort lib t.PublicURL = Except.ok (hostname, port) ∧
          ing = ingressEntry lib hostname port t) ports ings := by
  intro ports
  induction ports with
  | nil =>
    intro st st1 h herr
    simp only [portLoop] at h
    injection h with h
    subst h
    exact ⟨herr, rfl, rfl, [], [], by simp, by simp, List.Forall₂.nil⟩
  | cons sp rest ih =>
    intro st st1 h herr
    simp only [portLoop] at h
    cases hstep : portStep lib agent svc st sp with
    | panic st2 => rw [hstep] at h; cases h
    | next st2 =>
      rw [hstep] at h
      obtain ⟨herr2, hcur, hdes, cs, ings, hcalls, hing, hall⟩ := ih st2 st1 h herr
      obtain ⟨ft, fe, cs0, tun, hc0, -, hob, heff⟩ := portStep_next hstep
      obtain ⟨t, hostname, port, htun, hsplit, he, hi, hd, hc⟩ :
          ∃ t hostname port, tun = some t ∧
            SplitHostPort lib t.PublicURL = Except.ok (hostname, port) ∧
            st2.errs = st.errs ∧
            st2.ingress = st.ingress ++ [ingressEntry lib hostname port t] ∧
            st2.desiredTunnelSet =
              st.desiredTunnelSet.Insert (reconcileTunnelName svc sp) ∧
            st2.currentTunnelSet = st.currentTunnelSet := by
        cases tun with
        | none =>
          obtain ⟨e, he, -⟩ := heff
          rw [he] at herr2; simp at herr2
        | some t =>
          unfold StepEffect at heff
          cases hs : SplitHostPort lib t.PublicURL with
          | error err =>
            simp only [hs] at heff
            rw [heff.1] at herr2; simp at herr2
          | ok r =>
            obtain ⟨hostname, port⟩ := r
            simp only [hs] at heff
            exact ⟨t, hostname, port, rfl, hs, heff⟩
      have hob := (hob t).mpr htun
      · refine ⟨he ▸ herr2, hcur.trans hc, ?_, ?_⟩
        · rw [hdes, hd]; rfl
        · refine ⟨(Call.find (reconcileTunnelName svc sp) ft fe :: cs0) ++ cs,
            ingressEntry lib hostname port t :: ings, ?_, ?_, ?_⟩
          · rw [hcalls, hc0]; simp
          · rw [hing, hi]; simp
          · refine List.Forall₂.cons ⟨t, hostname, port, ?_, hsplit, rfl⟩ ?_
            · exact hob.mono (fun c hc => List.mem_append_left _ hc)
            · refine hall.imp ?_
              rintro sp2 ing ⟨t2, h2, p2, hob2, hs2, hi2⟩
              exact ⟨t2, h2, p2, hob2.mono (fun c hc => List.mem_append_right _ hc), hs2, hi2⟩

theorem stopStale_calls {σ : Type} (agent : Agent σ) :
    ∀ (names : List String) (s : StopState σ),
      ∃ cs, (stopStale agent names s).calls = s.calls ++ cs ∧ stopNames cs = names ∧
        ∀ c ∈ cs, c.isStop = true := by
  intro names
  induction names with
  | nil => intro s; exact ⟨[], by simp [stopStale], rfl, by simp⟩
  | cons n rest ih =>
    intro s
    rcases h : agent.Stop s.agent n with ⟨err, a⟩
    have key : ∀ errs2 : List GoError,
        ∃ cs, (stopStale agent rest
          { errs := errs2, calls := s.calls ++ [Call.stop n err], agent := a }).calls =
            s.calls ++ cs ∧ stopNames cs = n :: rest ∧ ∀ c ∈ cs, c.isStop = true := by
      intro errs2
      obtain ⟨cs, h1, h2, h3⟩ := ih
        { errs := errs2, calls := s.calls ++ [Call.stop n err], agent := a }
      refine ⟨Call.stop n err :: cs, ?_, ?_, ?_⟩
      · rw [h1]; simp
      · simp [stopNames] at h2 ⊢; exact h2
      · intro c hc
        rcases List.mem_cons.mp hc with hc | hc
        · subst hc; rfl
        · exact h3 c hc
    cases err with
    | none => simpa only [stopStale, h] using key s.errs
    | some e =>
      by_cases hnf : IsNotFound (some e) = true
      · simpa only [stopStale, h, hnf, if_true] using key s.errs
      · simpa only [stopStale, h, hnf] using key (s.errs ++ [e])

/-- The shape of a pass whose registry decodes and whose loop does not panic. -/
theorem reconcile_next {σ : Type} {lib : GoLib} {agent : Agent σ} {a : σ} {svc : Service}
    {cur : StringSet} {st : LoopState σ} (hl : loadRegistry svc = Except.ok cur)
    (hloop : portLoop lib agent (withFinalizer svc) svc.Ports (LoopState.init cur a) =
      Flow.next st) :
    (reconcile lib agent a svc).panicked = false ∧
    (reconcile lib agent a svc).events = st.events ∧
    (reconcile lib agent a svc).calls =
      (stopStale agent (staleNames st)
        { errs := [], calls := st.calls, agent := st.agent }).calls ∧
    (reconcile lib agent a svc).agent =
      (stopStale agent (staleNames st)
        { errs := [], calls := st.calls, agent := st.agent }).agent ∧
    (((stopStale agent (staleNames st)
          { errs := [], calls := st.calls, agent := st.agent }).errs = [] ∧ st.errs = [] ∧
        (reconcile lib agent a svc).reterr = none ∧
        (reconcile lib agent a svc).svc =
          storeRegistry { withFinalizer svc with Ingress := st.ingress } st.desiredTunnelSet) ∨
     (((stopStale agent (staleNames st)
          { errs := [], calls := st.calls, agent := st.agent }).errs ≠ [] ∨ st.errs ≠ []) ∧
        (reconcile lib agent a svc).reterr ≠ none ∧
        (reconcile lib agent a svc).svc =
          storeRegistry (withFinalizer svc) st.desiredTunnelSet)) := by
  have hports : (withFinalizer svc).Ports = svc.Ports := rfl
  unfold reconcile
  simp only [hl, hports, hloop]
  cases h1 : NewAggregate (stopStale agent (staleNames st)
      { errs := [], calls := st.calls, agent := st.agent }).errs with
  | some err =>
    have hne : (stopStale agent (staleNames st)
        { errs := [], calls := st.calls, agent := st.agent }).errs ≠ [] := by
      intro hc; rw [hc] at h1; simp [NewAggregate] at h1
    exact ⟨rfl, rfl, rfl, rfl, Or.inr ⟨Or.inl hne, by simp, rfl⟩⟩
  | none =>
    cases h2 : NewAggregate st.errs with
    | some err =>
      have hne : st.errs ≠ [] := by
        intro hc; rw [hc] at h2; simp [NewAggregate] at h2
      exact ⟨rfl, rfl, rfl, rfl, Or.inr ⟨Or.inr hne, by simp, rfl⟩⟩
    | none =>
      exact ⟨rfl, rfl, rfl, rfl, Or.inl ⟨(NewAggregate_eq_none _).mp h1,
        (NewAggregate_eq_none _).mp h2, rfl, rfl⟩⟩

theorem reconcile_load_error {σ : Type} (lib : GoLib) (agent : Agent σ) (a : σ)
    {svc : Service} {err : GoError} (hl : loadRegistry svc = Except.error err) :
    reconcile lib agent a svc =
      { svc := svc, reterr := some (RetError.plain err), panicked := false,
        calls := [], events := [], agent := a } := by
  unfold reconcile
  simp only [hl]

theorem reconcile_panic {σ : Type} {lib : GoLib} {agent : Agent σ} {a : σ} {svc : Service}
    {cur : StringSet} {st : LoopState σ} (hl : loadRegistry svc = Except.ok cur)
    (hloop : portLoop lib agent (withFinalizer svc) svc.Ports (LoopState.init cur a) =
      Flow.panic st) :
    reconcile lib agent a svc =
      { svc := storeRegistry (withFinalizer svc) st.desiredTunnelSet, reterr := none,
        panicked := true, calls := st.calls, events := st.events, agent := st.agent } := by
  have hports : (withFinalizer svc).Ports = svc.Ports := rfl
  unfold reconcile
  simp only [hl, hports, hloop]

/-- A pass that returns without error went through the loop and the stale cleanup
without recording an error. -/
theorem reconcile_ok {σ : Type} {lib : GoLib} {agent : Agent σ} {a : σ} {svc : Service}
    (hok : (reconcile lib agent a svc).reterr = none)
    (hp : (reconcile lib agent a svc).panicked = false) :
    ∃ cur st, loadRegistry svc = Except.ok cur ∧
      portLoop lib agent (withFinalizer svc) svc.Ports (LoopState.init cur a) = Flow.next st ∧
      st.errs = [] ∧
      (stopStale agent (staleNames st)
        { errs := [], calls := st.calls, agent := st.agent }).errs = [] ∧
      (reconcile lib agent a svc).svc =
        storeRegistry { withFinalizer svc with Ingress := st.ingress } st.desiredTunnelSet ∧
      (reconcile lib agent a svc).calls =
        (stopStale agent (staleNames st)
          { errs := [], calls := st.calls, agent := st.agent }).calls ∧
      (reconcile lib agent a svc).agent =
        (stopStale agent (staleNames st)
          { errs := [], calls := st.calls, agent := st.agent }).agent := by
  cases hl : loadRegistry svc with
  | error err =>
    rw [reconcile_load_error lib agent a hl] at hok
    cases hok
  | ok cur =>
    cases hloop : portLoop lib agent (withFinalizer svc) svc.Ports (LoopState.init cur a) with
    | panic st =>
      rw [reconcile_panic hl hloop] at hp
      cases hp
    | next st =>
      obtain ⟨-, -, hcalls, hagent, hcase⟩ := reconcile_next hl hloop
      rcases hcase with ⟨h1, h2, -, h4⟩ | ⟨-, h2, -⟩
      · exact ⟨cur, st, rfl, hloop, h2, h1, h4, hcalls, hagent⟩
      · exact absurd hok h2

theorem stopNames_eq_nil {cs : List Call} (h : ∀ c ∈ cs, c.isStop = false) : stopNames cs = [] := by
  induction cs with
  | nil => rfl
  | cons c t ih =>
    have h1 := h c (List.mem_cons_self _ _)
    have h2 := ih (fun d hd => h d (List.mem_cons_of_mem _ hd))
    cases c <;> simp_all [stopNames, Call.isStop]

theorem mem_stopNames (cs : List Call) (n : String) :
    n ∈ stopNames cs ↔ ∃ err, Call.stop n err ∈ cs := by
  induction cs with
  | nil => simp [stopNames]
  | cons c t ih =>
    simp only [stopNames] at ih
    cases c with
    | find m ft fe => simp [stopNames, ih]
    | start m config t2 e2 => simp [stopNames, ih]
    | stop m e =>
      simp only [stopNames, List.filterMap_cons, List.mem_cons, ih, Call.stop.injEq]
      constructor
      · rintro (h | ⟨err, h⟩)
        · exact ⟨e, Or.inl ⟨h, rfl⟩⟩
        · exact ⟨err, Or.inr h⟩
      · rintro ⟨err, ⟨h, -⟩ | h⟩
        · exact Or.inl h
        · exact Or.inr ⟨err, h⟩

theorem Obtained_of_stops {cs : List Call} (h : ∀ c ∈ cs, c.isStop = true) (n : String)
    (t : Tunnel) : ¬ Obtained cs n t := by
  rintro (ho | ⟨config, ho⟩)
  · have := h _ ho; cases this
  · have := h _ ho; cases this

/-- The trace and the sets of a pass whose registry decodes to `cur` and which does not
panic: the calls are those of the loop, finds and starts on names of ports, followed
by one stop call for each stale name; `d` is the desired set and `u` the current set
when the loop ends. -/
theorem reconcile_trace {σ : Type} {lib : GoLib} {agent : Agent σ} {a : σ} {svc : Service}
    {cur : StringSet} (hl : loadRegistry svc = Except.ok cur)
    (hp : (reconcile lib agent a svc).panicked = false) :
    ∃ cs stops d u, (reconcile lib agent a svc).calls = cs ++ stops ∧
      (∀ c ∈ cs, c.isStop = false ∧
        c.tunnelName ∈ svc.Ports.map (reconcileTunnelName svc)) ∧
      findNames cs = svc.Ports.map (reconcileTunnelName svc) ∧
      (∀ c ∈ stops, c.isStop = true) ∧
      stopNames stops = StringSet.List (StringSet.Difference u d) ∧
      (∀ n, n ∈ d ↔ ∃ t hostname port, Obtained cs n t ∧
        SplitHostPort lib t.PublicURL = Except.ok (hostname, port)) ∧
      (∀ n, n ∈ u ↔ n ∈ cur ∨
        ∃ t err, Obtained cs n t ∧ SplitHostPort lib t.PublicURL = Except.error err) ∧
      ((∃ n, ∃ c ∈ cs, FindFailed c n) → (reconcile lib agent a svc).reterr ≠ none) ∧
      (∀ n config t e, Call.start n config t e ∈ cs → ∃ c ∈ cs, FindPassed c n) ∧
      mapGet (reconcile lib agent a svc).svc.Annotations registryKey =
        some (jsonEncode (StringSet.List d)) ∧
      ((reconcile lib agent a svc).reterr ≠ none →
        (reconcile lib agent a svc).svc.Ingress = svc.Ingress) := by
  cases hloop : portLoop lib agent (withFinalizer svc) svc.Ports (LoopState.init cur a) with
  | panic st =>
    rw [reconcile_panic hl hloop] at hp
    cases hp
  | next st =>
    obtain ⟨cs, es, hc, he, hn, hf, hd, hu, hx, hs⟩ :=
      portLoop_sets lib agent (withFinalizer svc) svc.Ports _ st hloop
    obtain ⟨stops, hst, hsn, hsa⟩ := stopStale_calls agent (staleNames st)
      { errs := [], calls := st.calls, agent := st.agent }
    obtain ⟨-, -, hcalls, -, hcase⟩ := reconcile_next hl hloop
    have hc1 : st.calls = cs := by rw [hc]; rfl
    have he1 : st.errs = es := by rw [he]; rfl
    refine ⟨cs, stops, st.desiredTunnelSet, st.currentTunnelSet, ?_, hn, hf, hsa, hsn, ?_, ?_,
      ?_, hs, ?_, ?_⟩
    · rw [hcalls, hst]
      simp only [hc1]
    · intro n
      rw [hd n]
      simp [LoopState.init]
    · intro n
      rw [hu n]
      rfl
    · intro hfail
      have hes : st.errs ≠ [] := he1 ▸ hx hfail
      rcases hcase with ⟨-, h2, -⟩ | ⟨-, h2, -⟩
      · exact absurd h2 hes
      · exact h2
    · rcases hcase with ⟨-, -, -, h4⟩ | ⟨-, -, h4⟩ <;> rw [h4] <;>
        simp [storeRegistry, mapGet_mapSet]
    · intro hne
      rcases hcase with ⟨-, -, h3, -⟩ | ⟨-, -, h4⟩
      · exact absurd h3 hne
      · rw [h4]; rfl

/-- C2: when `reconcile` returns without error, the registry annotation it wrote is the
encoding of the set of the derived tunnel names of all ports, the loader of the next
pass decodes it to exactly that set, and `status.loadBalancer.ingress` is a new list
with one entry per port, in declared order, each with the host and the port split
from the public URL of the tunnel the agent handed out for that port in this pass. -/
theorem C2_convergence {σ : Type} (lib : GoLib) (agent : Agent σ) (a : σ) (svc : Service)
    (hok : (reconcile lib agent a svc).reterr = none)
    (hp : (reconcile lib agent a svc).panicked = false) :
    mapGet (reconcile lib agent a svc).svc.Annotations registryKey =
      some (jsonEncode (StringSet.List
        (StringSet.InsertAll [] (svc.Ports.map (reconcileTunnelName svc))))) ∧
    (∃ cur, loadRegistry (reconcile lib agent a svc).svc = Except.ok cur ∧
      ∀ n, n ∈ cur ↔ n ∈ svc.Ports.map (reconcileTunnelName svc)) ∧
    List.Forall₂ (fun sp ing => ∃ t hostname port,
        Obtained (reconcile lib agent a svc).calls (reconcileTunnelName svc sp) t ∧
        SplitHostPort lib t.PublicURL = Except.ok (hostname, port) ∧
        ing = ingressEntry lib hostname port t)
      svc.Ports (reconcile lib agent a svc).svc.Ingress := by
  obtain ⟨cur, st, -, hloop, herr, -, hsvc, hcalls, -⟩ := reconcile_ok hok hp
  obtain ⟨-, -, hdes, cs, ings, hc, hi, hall⟩ :=
    portLoop_success lib agent (withFinalizer svc) svc.Ports _ st hloop herr
  obtain ⟨cs2, hc2, -, -⟩ := stopStale_calls agent (staleNames st)
    { errs := [], calls := st.calls, agent := st.agent }
  have hdes2 : st.desiredTunnelSet =
      StringSet.InsertAll [] (svc.Ports.map (reconcileTunnelName svc)) := hdes
  refine ⟨?_, ?_, ?_⟩
  · rw [hsvc, ← hdes2]
    simp [storeRegistry, mapGet_mapSet]
  · refine ⟨_, by rw [hsvc]; exact loadRegistry_storeRegistry _ _, ?_⟩
    intro n
    rw [mem_loaded_stored, hdes2, mem_InsertAll]
    simp
  · have hing : (reconcile lib agent a svc).svc.Ingress = ings := by
      rw [hsvc]
      show st.ingress = ings
      rw [hi]; rfl
    rw [hing]
    refine hall.imp ?_
    rintro sp ing ⟨t, hostname, port, hob, hs, he⟩
    refine ⟨t, hostname, port, hob.mono ?_, hs, he⟩
    intro c hcm
    rw [hcalls, hc2, hc]
    simp only [LoopState.init, List.nil_append, List.mem_append]
    exact Or.inl hcm

/-- C2 at the service `ns/svc` with the named ports `a` and `b` and an agent without
tunnels. -/
theorem C2_convergence_witness :
    mapGet (reconcile goLib (mapAgent exampleAssign) []
        (exampleService [{ Name := "a", Protocol := "TCP", Port := 1234 },
          { Name := "b", Protocol := "TCP", Port := 6789 }])).svc.Annotations registryKey =
      some "[\"ns-svc-a\",\"ns-svc-b\"]\n" ∧
    (reconcile goLib (mapAgent exampleAssign) []
        (exampleService [{ Name := "a", Protocol := "TCP", Port := 1234 },
          { Name := "b", Protocol := "TCP", Port := 6789 }])).svc.Ingress.length = 2 := by
  have h := C2_convergence goLib (mapAgent exampleAssign) []
    (exampleService [{ Name := "a", Protocol := "TCP", Port := 1234 },
      { Name := "b", Protocol := "TCP", Port := 6789 }]) (by decide) (by decide)
  refine ⟨?_, ?_⟩
  · rw [h.1]; decide
  · rw [← h.2.2.length_eq]; rfl

theorem loadRegistry_of_mapGet {svc : Service} {l : List String}
    (h : mapGet svc.Annotations registryKey = some (jsonEncode l)) :
    loadRegistry svc = Except.ok (StringSet.InsertAll [] l) := by
  simp [loadRegistry, h, jsonDecode_jsonEncode]

theorem reconcile_error_not_panicked {σ : Type} {lib : GoLib} {agent : Agent σ} {a : σ}
    {svc : Service} (herr : (reconcile lib agent a svc).reterr ≠ none) :
    (reconcile lib agent a svc).panicked = false := by
  cases hl : loadRegistry svc with
  | error err => rw [reconcile_load_error lib agent a hl]
  | ok cur =>
    cases hloop : portLoop lib agent (withFinalizer svc) svc.Ports (LoopState.init cur a) with
    | panic st =>
      rw [reconcile_panic hl hloop] at herr
      exact absurd rfl herr
    | next st => exact (reconcile_next hl hloop).1

theorem Obtained_stops_right {cs stops : List Call} (h : ∀ c ∈ stops, c.isStop = true)
    (n : String) (t : Tunnel) : Obtained (cs ++ stops) n t ↔ Obtained cs n t := by
  rw [Obtained_append]
  constructor
  · rintro (h1 | h1)
    · exact h1
    · exact absurd h1 (Obtained_of_stops h n t)
  · exact Or.inl

/-! ## Errors and the commit (C5) -/

/-- C5, counterexample: the service `ns/svc` has no registry annotation and one unnamed
port, the agent cannot be reached. The pass returns an error, and yet the registry
annotation has changed: it was absent and now holds the empty array. -/
theorem C5_counterexample :
    (reconcile goLib downAgent ()
      (exampleService [{ Name := "", Protocol := "TCP", Port := 1234 }])).reterr ≠ none ∧
    mapGet (exampleService [{ Name := "", Protocol := "TCP", Port := 1234 }]).Annotations
      registryKey = none ∧
    mapGet (reconcile goLib downAgent ()
      (exampleService [{ Name := "", Protocol := "TCP", Port := 1234 }])).svc.Annotations
      registryKey = some "[]\n" := by
  decide

/-- C5, amended: when `reconcile` returns an error, the status ingress list is the one
from before the pass. The registry annotation is left as it was only when the error is
the decode error of the registry (the whole service is then untouched); in every other
failing pass the deferred function overwrites it with the encoding of the desired set,
the names for which the agent handed out a tunnel whose public URL splits. -/
theorem C5_error_keeps_status {σ : Type} (lib : GoLib) (agent : Agent σ) (a : σ)
    (svc : Service) (herr : (reconcile lib agent a svc).reterr ≠ none) :
    (reconcile lib agent a svc).svc.Ingress = svc.Ingress ∧
    (∀ err, loadRegistry svc = Except.error err → (reconcile lib agent a svc).svc = svc) ∧
    (∀ cur, loadRegistry svc = Except.ok cur →
      ∃ d, mapGet (reconcile lib agent a svc).svc.Annotations registryKey =
          some (jsonEncode (StringSet.List d)) ∧
        ∀ n, n ∈ d ↔ ∃ t hostname port, Obtained (reconcile lib agent a svc).calls n t ∧
          SplitHostPort lib t.PublicURL = Except.ok (hostname, port)) := by
  refine ⟨?_, ?_, ?_⟩
  · cases hl : loadRegistry svc with
    | error err => rw [reconcile_load_error lib agent a hl]
    | ok cur =>
      obtain ⟨cs, stops, d, u, -, -, -, -, -, -, -, -, -, -, hing⟩ :=
        reconcile_trace hl (reconcile_error_not_panicked herr)
      exact hing herr
  · intro err hl
    rw [reconcile_load_error lib agent a hl]
  · intro cur hl
    obtain ⟨cs, stops, d, u, hcalls, -, -, hstops, -, hd, -, -, -, hann, -⟩ :=
      reconcile_trace hl (reconcile_error_not_panicked herr)
    refine ⟨d, hann, ?_⟩
    intro n
    rw [hd n, hcalls]
    simp only [Obtained_stops_right hstops]

/-- C5, amended, at the service `ns/svc` with one unnamed port and an agent that cannot
be reached: the status ingress list stays empty. -/
theorem C5_error_keeps_status_witness :
    (reconcile goLib downAgent ()
      (exampleService [{ Name := "", Protocol := "TCP", Port := 1234 }])).svc.Ingress = [] :=
  (C5_error_keeps_status goLib downAgent ()
    (exampleService [{ Name := "", Protocol := "TCP", Port := 1234 }]) (by decide)).1

/-! ## A failed find (C6) -/

/-- C6, counterexample: the registry of `ns/svc` holds `ns-svc`, the service has one
unnamed port, and the find call on `ns-svc` fails with a transport error. The pass
issues a stop call for `ns-svc`. -/
theorem C6_counterexample :
    (reconcile goLib downAgent ()
      (exampleServiceWith ["ns-svc"] [{ Name := "", Protocol := "TCP", Port := 1234 }])).calls =
      [Call.find "ns-svc" none (some (GoError.other "connection refused")),
       Call.stop "ns-svc" (some (GoError.other "connection refused"))] := by
  decide

/-- C6, amended: let the registry decode to `cur` and the pass not panic, and let
`n` be a tunnel name with a failed find call (an error that is not NotFound) and no
find call that passed. Then the pass returns an error, the status ingress list is the
one from before, `n` is not in the registry the pass writes, and a stop call for `n` is
issued exactly when `n` was in the loaded registry. -/
theorem C6_find_failure {σ : Type} (lib : GoLib) (agent : Agent σ) (a : σ) (svc : Service)
    (cur : StringSet) (n : String) (hl : loadRegistry svc = Except.ok cur)
    (hp : (reconcile lib agent a svc).panicked = false)
    (hex : ∃ c ∈ (reconcile lib agent a svc).calls, FindFailed c n)
    (hall : ∀ c ∈ (reconcile lib agent a svc).calls, ¬ FindPassed c n) :
    (reconcile lib agent a svc).reterr ≠ none ∧
    (reconcile lib agent a svc).svc.Ingress = svc.Ingress ∧
    (∃ reg, loadRegistry (reconcile lib agent a svc).svc = Except.ok reg ∧ n ∉ reg) ∧
    ((∃ err, Call.stop n err ∈ (reconcile lib agent a svc).calls) ↔ n ∈ cur) := by
  obtain ⟨cs, stops, d, u, hcalls, hcs, -, hstops, hsn, hd, hu, hx, hs, hann, hing⟩ :=
    reconcile_trace hl hp
  have hnot : ∀ t, ¬ Obtained cs n t := by
    rintro t (ho | ⟨config, ho⟩)
    · exact hall _ (by rw [hcalls]; exact List.mem_append_left _ ho)
        ⟨some t, none, rfl, Or.inl rfl⟩
    · obtain ⟨c, hc, hpass⟩ := hs n config (some t) none ho
      exact hall c (by rw [hcalls]; exact List.mem_append_left _ hc) hpass
  have hnd : n ∉ d := by
    intro hnd
    obtain ⟨t, -, -, ho, -⟩ := (hd n).mp hnd
    exact hnot t ho
  have herr : (reconcile lib agent a svc).reterr ≠ none := by
    obtain ⟨c, hc, hfail⟩ := hex
    rw [hcalls] at hc
    rcases List.mem_append.mp hc with hc | hc
    · exact hx ⟨n, c, hc, hfail⟩
    · obtain ⟨ft, e, hce, -⟩ := hfail
      have := hstops c hc
      rw [hce] at this
      cases this
  refine ⟨herr, hing herr, ⟨_, loadRegistry_of_mapGet hann, ?_⟩, ?_⟩
  · rw [mem_loaded_stored]
    exact hnd
  · rw [← mem_stopNames, hcalls, stopNames_append, stopNames_eq_nil (fun c hc => (hcs c hc).1),
      List.nil_append, hsn, mem_List, mem_Difference, hu n]
    constructor
    · rintro ⟨h1 | ⟨t, err, ho, -⟩, -⟩
      · exact h1
      · exact absurd ho (hnot t)
    · intro h1
      exact ⟨Or.inl h1, hnd⟩

/-- C6, amended, at the service `ns/svc` with one unnamed port, an empty registry and an
agent that cannot be reached: the pass fails and no stop call is issued for `ns-svc`. -/
theorem C6_find_failure_witness :
    (reconcile goLib downAgent ()
      (exampleServiceWith [] [{ Name := "", Protocol := "TCP", Port := 1234 }])).reterr ≠ none ∧
    ¬ ∃ err, Call.stop "ns-svc" err ∈ (reconcile goLib downAgent ()
      (exampleServiceWith [] [{ Name := "", Protocol := "TCP", Port := 1234 }])).calls := by
  have h := C6_find_failure goLib downAgent ()
    (exampleServiceWith [] [{ Name := "", Protocol := "TCP", Port := 1234 }]) [] "ns-svc"
    (by rfl) (by decide)
    ⟨Call.find "ns-svc" none (some (GoError.other "connection refused")), by decide,
      none, GoError.other "connection refused", rfl, by decide⟩
    (by
      intro c hc
      have hc2 : c = Call.find "ns-svc" none (some (GoError.other "connection refused")) := by
        have hcalls : (reconcile goLib downAgent ()
            (exampleServiceWith [] [{ Name := "", Protocol := "TCP", Port := 1234 }])).calls =
            [Call.find "ns-svc" none (some (GoError.other "connection refused"))] := by
          decide
        rw [hcalls] at hc
        exact List.mem_singleton.mp hc
      subst hc2
      rintro ⟨ft, fe, heq, hpass⟩
      injection heq with _ _ h3
      subst h3
      rcases hpass with h1 | h1
      · cases h1
      · exact absurd h1 (by decide))
  refine ⟨h.1, ?_⟩
  rw [h.2.2.2]
  decide

/-! ## Finalization (C7) -/

theorem deletionLoop_trace {σ : Type} (agent : Agent σ) (svc : Service) :
    ∀ (ports : List ServicePort) (s : StopState σ),
      ∃ cs, (deletionLoop agent svc ports s).calls = s.calls ++ cs ∧
        (deletionLoop agent svc ports s).errs = s.errs ++ stopErrors cs ∧
        stopNames cs = ports.map (deletionTunnelName svc) ∧
        cs.length = ports.length ∧ ∀ c ∈ cs, c.isStop = true := by
  intro ports
  induction ports with
  | nil => intro s; exact ⟨[], by simp [deletionLoop], by simp [deletionLoop, stopErrors], rfl,
      rfl, by simp⟩
  | cons sp rest ih =>
    intro s
    rcases h : agent.Stop s.agent (deletionTunnelName svc sp) with ⟨err, a⟩
    have key : ∀ errs2 : List GoError,
        errs2 = s.errs ++ stopErrors [Call.stop (deletionTunnelName svc sp) err] →
        ∃ cs, (deletionLoop agent svc rest
          { errs := errs2, calls := s.calls ++ [Call.stop (deletionTunnelName svc sp) err],
            agent := a }).calls = s.calls ++ cs ∧
          (deletionLoop agent svc rest
          { errs := errs2, calls := s.calls ++ [Call.stop (deletionTunnelName svc sp) err],
            agent := a }).errs = s.errs ++ stopErrors cs ∧
          stopNames cs = (sp :: rest).map (deletionTunnelName svc) ∧
          cs.length = (sp :: rest).length ∧ ∀ c ∈ cs, c.isStop = true := by
      intro errs2 he
      obtain ⟨cs, h1, h2, h3, h4, h5⟩ := ih
        { errs := errs2, calls := s.calls ++ [Call.stop (deletionTunnelName svc sp) err],
          agent := a }
      refine ⟨Call.stop (deletionTunnelName svc sp) err :: cs, ?_, ?_, ?_, ?_, ?_⟩
      · rw [h1]; simp
      · rw [h2, he]
        simp [stopErrors, List.filterMap_cons]
        cases err with
        | none => simp
        | some e => by_cases hnf : IsNotFound (some e) = true <;> simp [hnf]
      · simp only [stopNames, List.filterMap_cons, List.map_cons] at h3 ⊢
        rw [h3]
      · simp [h4]
      · intro c hc
        rcases List.mem_cons.mp hc with hc | hc
        · subst hc; rfl
        · exact h5 c hc
    cases err with
    | none =>
      simpa only [deletionLoop, h] using key s.errs (by simp [stopErrors])
    | some e =>
      by_cases hnf : IsNotFound (some e) = true
      · simpa only [deletionLoop, h, hnf, if_true] using key s.errs (by simp [stopErrors, hnf])
      · simpa only [deletionLoop, h, hnf] using key (s.errs ++ [e]) (by simp [stopErrors, hnf])

/-- The loop of `reconcileDeletion` calls `agent.Stop` on the name of each port in order,
threading the state of the agent, and records each answer. -/
theorem deletionLoop_run {σ : Type} (agent : Agent σ) (svc : Service) :
    ∀ (ports : List ServicePort) (s : StopState σ),
      (deletionLoop agent svc ports s).calls =
        s.calls ++ (stopAnswers agent (ports.map (deletionTunnelName svc)) s.agent).1 ∧
      (deletionLoop agent svc ports s).agent =
        (stopAnswers agent (ports.map (deletionTunnelName svc)) s.agent).2 := by
  intro ports
  induction ports with
  | nil => intro s; simp [deletionLoop, stopAnswers]
  | cons sp rest ih =>
    intro s
    rcases h : agent.Stop s.agent (deletionTunnelName svc sp) with ⟨err, a⟩
    have key : ∀ errs2 : List GoError,
        (deletionLoop agent svc rest
          { errs := errs2, calls := s.calls ++ [Call.stop (deletionTunnelName svc sp) err],
            agent := a }).calls =
          s.calls ++ (stopAnswers agent ((sp :: rest).map (deletionTunnelName svc)) s.agent).1 ∧
        (deletionLoop agent svc rest
          { errs := errs2, calls := s.calls ++ [Call.stop (deletionTunnelName svc sp) err],
            agent := a }).agent =
          (stopAnswers agent ((sp :: rest).map (deletionTunnelName svc)) s.agent).2 := by
      intro errs2
      obtain ⟨h1, h2⟩ := ih
        { errs := errs2, calls := s.calls ++ [Call.stop (deletionTunnelName svc sp) err],
          agent := a }
      simp only [List.map_cons, stopAnswers, h]
      exact ⟨by rw [h1]; simp, h2⟩
    cases err with
    | none => simpa only [deletionLoop, h] using key s.errs
    | some e =>
      by_cases hnf : IsNotFound (some e) = true
      · simpa only [deletionLoop, h, hnf, if_true] using key s.errs
      · simpa only [deletionLoop, h, hnf] using key (s.errs ++ [e])

theorem stopErrors_eq_nil_iff (cs : List Call) :
    stopErrors cs = [] ↔ ∀ n e, Call.stop n (some e) ∈ cs → IsNotFound (some e) = true := by
  induction cs with
  | nil => simp [stopErrors]
  | cons c t ih =>
    have happ : stopErrors (c :: t) = stopErrors [c] ++ stopErrors t := by
      simp [stopErrors, List.filterMap_cons]
      cases c with
      | find m ft fe => simp
      | start m config t2 e2 => simp
      | stop m e =>
        cases e with
        | none => simp
        | some e0 => by_cases hnf : IsNotFound (some e0) = true <;> simp [hnf]
    rw [happ, List.append_eq_nil, ih]
    constructor
    · rintro ⟨h1, h2⟩ n e hmem
      rcases List.mem_cons.mp hmem with hmem | hmem
      · subst hmem
        by_contra hnf
        simp [stopErrors, hnf] at h1
      · exact h2 n e hmem
    · intro h
      refine ⟨?_, fun n e hmem => h n e (List.mem_cons_of_mem _ hmem)⟩
      cases c with
      | find m ft fe => simp [stopErrors]
      | start m config t2 e2 => simp [stopErrors]
      | stop m e =>
        cases e with
        | none => simp [stopErrors]
        | some e0 =>
          have := h m e0 (List.mem_cons_self _ _)
          simp [stopErrors, this]

/-- C7: `reconcileDeletion` calls `agent.Stop` once per port, in declared order, on the
derived name of the port, each call in the state the call before left the agent in,
and makes no other call; its trace holds the answers of the agent and it leaves the
agent in the state after the last call. It returns nil exactly when every stop
answered nil or NotFound, and then removes the finalizer of the controller and
changes nothing else; otherwise it returns the aggregate of the other stop errors
and the service as it was. The registry annotation and the status are unchanged in
both cases. `Reconcile` takes this path for a service with cluster IP and deletion
timestamp. -/
theorem C7_finalization {σ : Type} (lib : GoLib) (agent : Agent σ) (a : σ) (svc : Service) :
    (reconcileDeletion agent a svc).calls =
      (stopAnswers agent (svc.Ports.map (deletionTunnelName svc)) a).1 ∧
    (reconcileDeletion agent a svc).agent =
      (stopAnswers agent (svc.Ports.map (deletionTunnelName svc)) a).2 ∧
    ((reconcileDeletion agent a svc).reterr = none ↔
      ∀ n e, Call.stop n (some e) ∈
          (stopAnswers agent (svc.Ports.map (deletionTunnelName svc)) a).1 →
        IsNotFound (some e) = true) ∧
    (reconcileDeletion agent a svc).reterr =
      NewAggregate (stopErrors
        (stopAnswers agent (svc.Ports.map (deletionTunnelName svc)) a).1) ∧
    stopNames (reconcileDeletion agent a svc).calls = svc.Ports.map (deletionTunnelName svc) ∧
    (reconcileDeletion agent a svc).calls.length = svc.Ports.length ∧
    (∀ c ∈ (reconcileDeletion agent a svc).calls, c.isStop = true) ∧
    (reconcileDeletion agent a svc).reterr =
      NewAggregate (stopErrors (reconcileDeletion agent a svc).calls) ∧
    (stopErrors (reconcileDeletion agent a svc).calls = [] →
      (reconcileDeletion agent a svc).svc =
        { svc with Finalizers := RemoveFinalizer svc.Finalizers ControllerName } ∧
      ControllerName ∉ (reconcileDeletion agent a svc).svc.Finalizers) ∧
    (stopErrors (reconcileDeletion agent a svc).calls ≠ [] →
      (reconcileDeletion agent a svc).svc = svc) ∧
    (reconcileDeletion agent a svc).svc.Annotations = svc.Annotations ∧
    (reconcileDeletion agent a svc).svc.Ingress = svc.Ingress ∧
    (svc.ClusterIP ≠ "" → svc.DeletionTimestamp.isSome = true →
      Reconcile lib agent a svc = (none, reconcileDeletion agent a svc)) := by
  obtain ⟨cs, hc, he, hn, hlen, hall⟩ := deletionLoop_trace agent svc svc.Ports
    { errs := [], calls := [], agent := a }
  obtain ⟨hrun, hrunagent⟩ := deletionLoop_run agent svc svc.Ports
    { errs := [], calls := [], agent := a }
  simp only [List.nil_append] at hc he hrun
  have hcs : cs = (stopAnswers agent (svc.Ports.map (deletionTunnelName svc)) a).1 :=
    hc.symm.trans hrun
  have hdisp : svc.ClusterIP ≠ "" → svc.DeletionTimestamp.isSome = true →
      Reconcile lib agent a svc = (none, reconcileDeletion agent a svc) := by
    intro h1 h2
    simp [Reconcile, h1, h2]
  cases hagg : NewAggregate (stopErrors cs) with
  | none =>
    have hnil : stopErrors cs = [] := (NewAggregate_eq_none _).mp hagg
    have hout : reconcileDeletion agent a svc =
        { svc := { svc with Finalizers := RemoveFinalizer svc.Finalizers ControllerName },
          reterr := none, panicked := false, calls := cs, events := [],
          agent := (deletionLoop agent svc svc.Ports
            { errs := [], calls := [], agent := a }).agent } := by
      simp only [reconcileDeletion, he, hagg, hc]
    rw [hout]
    refine ⟨hcs, hrunagent, ?_, by rw [← hcs, hagg], hn, hlen, hall, by simp [hagg], ?_, ?_,
      rfl, rfl, hout ▸ hdisp⟩
    · rw [← hcs]
      exact ⟨fun _ => (stopErrors_eq_nil_iff cs).mp hnil, fun _ => rfl⟩
    · intro _
      refine ⟨rfl, ?_⟩
      simp [RemoveFinalizer]
    · intro h; exact absurd hnil h
  | some err =>
    have hne : stopErrors cs ≠ [] := by
      intro h; rw [h] at hagg; simp [NewAggregate] at hagg
    have hout : reconcileDeletion agent a svc =
        { svc := svc, reterr := some err, panicked := false, calls := cs, events := [],
          agent := (deletionLoop agent svc svc.Ports
            { errs := [], calls := [], agent := a }).agent } := by
      simp only [reconcileDeletion, he, hagg, hc]
    rw [hout]
    refine ⟨hcs, hrunagent, ?_, by rw [← hcs, hagg], hn, hlen, hall, by simp [hagg], ?_, ?_,
      rfl, rfl, hout ▸ hdisp⟩
    · rw [← hcs]
      constructor
      · intro h; cases h
      · intro h
        exact absurd ((stopErrors_eq_nil_iff cs).mpr h) hne
    · intro h; exact absurd h hne
    · intro _; rfl

/-- C7 at the service `ns/svc` marked for deletion, with the finalizer and the ports `a`
and `b`. `Reconcile` goes to `reconcileDeletion`. Against an agent that cannot be
reached both stop calls are made and fail, the aggregate of the two errors is returned
and the finalizer stays; against an agent without tunnels the finalizer is removed. -/
theorem C7_finalization_witness :
    Reconcile goLib downAgent () deletedService =
      (none, reconcileDeletion downAgent () deletedService) ∧
    (reconcileDeletion downAgent () deletedService).calls =
      [Call.stop "ns-svc-a" (some (GoError.other "connection refused")),
       Call.stop "ns-svc-b" (some (GoError.other "connection refused"))] ∧
    (reconcileDeletion downAgent () deletedService).reterr =
      some (RetError.aggregate
        [GoError.other "connection refused", GoError.other "connection refused"]) ∧
    (reconcileDeletion downAgent () deletedService).svc.Finalizers = [ControllerName] ∧
    (reconcileDeletion (mapAgent exampleAssign) [] deletedService).reterr = none ∧
    (reconcileDeletion (mapAgent exampleAssign) [] deletedService).svc.Finalizers = [] := by
  have h := C7_finalization goLib downAgent () deletedService
  have h2 := C7_finalization goLib (mapAgent exampleAssign) [] deletedService
  refine ⟨h.2.2.2.2.2.2.2.2.2.2.2.2 (by decide) (by decide), ?_, ?_, ?_, ?_, ?_⟩
  · rw [h.1]; decide
  · rw [h.2.2.2.1]; decide
  · rw [h.2.2.2.2.2.2.2.2.2.1 (by decide)]; decide
  · rw [h2.2.2.2.1]; decide
  · rw [(h2.2.2.2.2.2.2.2.2.1 (by decide)).1]
    decide

/-! ## Panics (C9) -/

/-- C9, the failing run: the service `ns/svc` has one unnamed port, the agent holds no
tunnel and starts one whose public URL is the text of one colon. `url.Parse` returns
a nil URL and an error, line 185 drops the error, and reading `u.Host` on line 186
panics: the pass ends in a panic after the find and the start call, with no error
returned. With an empty public URL the same run ends without panic and returns the
aggregated error of the split. -/
theorem C9_unparseable_url_panics :
    (reconcile goLib (mapAgent colonAssign) []
      (exampleService [{ Name := "", Protocol := "TCP", Port := 1234 }])).panicked = true ∧
    (reconcile goLib (mapAgent colonAssign) []
      (exampleService [{ Name := "", Protocol := "TCP", Port := 1234 }])).reterr = none ∧
    (reconcile goLib (mapAgent colonAssign) []
      (exampleService [{ Name := "", Protocol := "TCP", Port := 1234 }])).calls.length = 2 ∧
    (reconcile goLib (mapAgent emptyAssign) []
      (exampleService [{ Name := "", Protocol := "TCP", Port := 1234 }])).panicked = false ∧
    (reconcile goLib (mapAgent emptyAssign) []
      (exampleService [{ Name := "", Protocol := "TCP", Port := 1234 }])).reterr =
      some (RetError.aggregate [addrErr "" "missing port in address"]) := by
  decide

/-! ## Loading the registry (C10) -/

/-- C10: without registry annotation the current set starts empty, so that a pass that
does not panic stops only names of its own ports for which the agent handed out a
tunnel whose public URL does not split. With a registry annotation that does not
decode, `reconcile` returns the decode error, makes no agent call and returns the
service as it was: no finalizer added, annotations and status unchanged. -/
theorem C10_registry_loading {σ : Type} (lib : GoLib) (agent : Agent σ) (a : σ)
    (svc : Service) :
    (mapGet svc.Annotations registryKey = none →
      loadRegistry svc = Except.ok [] ∧
      ((reconcile lib agent a svc).panicked = false →
        ∀ n, n ∈ stopNames (reconcile lib agent a svc).calls →
          n ∈ svc.Ports.map (reconcileTunnelName svc) ∧
          ∃ t err, Obtained (reconcile lib agent a svc).calls n t ∧
            SplitHostPort lib t.PublicURL = Except.error err)) ∧
    (∀ r err, mapGet svc.Annotations registryKey = some r → jsonDecode r = Except.error err →
      reconcile lib agent a svc =
        { svc := svc, reterr := some (RetError.plain err), panicked := false,
          calls := [], events := [], agent := a }) := by
  refine ⟨?_, ?_⟩
  · intro hnone
    have hl : loadRegistry svc = Except.ok [] := by simp [loadRegistry, hnone]
    refine ⟨hl, ?_⟩
    intro hp n hn
    obtain ⟨cs, stops, d, u, hcalls, hcs, -, hstops, hsn, -, hu, -, -, -, -⟩ :=
      reconcile_trace hl hp
    rw [hcalls, stopNames_append, stopNames_eq_nil (fun c hc => (hcs c hc).1),
      List.nil_append, hsn, mem_List, mem_Difference, hu n] at hn
    rcases hn.1 with h1 | ⟨t, err, ho, hs⟩
    · cases h1
    · refine ⟨?_, t, err, ?_, hs⟩
      · rcases ho with ho | ⟨config, ho⟩
        · exact (hcs _ ho).2
        · exact (hcs _ ho).2
      · rw [hcalls]
        exact (Obtained_stops_right hstops n t).mpr ho
  · intro r err hr hdec
    have hl : loadRegistry svc = Except.error err := by simp [loadRegistry, hr, hdec]
    exact reconcile_load_error lib agent a hl

/-- C10 at the service `ns/svc` whose registry annotation is the text `oops`: the pass
returns the decode error without any agent call and without adding the finalizer. -/
theorem C10_registry_loading_witness :
    (reconcile goLib (mapAgent exampleAssign) []
      { exampleService [{ Name := "", Protocol := "TCP", Port := 1234 }] with
        Annotations := [(registryKey, "oops")] }).calls = [] ∧
    (reconcile goLib (mapAgent exampleAssign) []
      { exampleService [{ Name := "", Protocol := "TCP", Port := 1234 }] with
        Annotations := [(registryKey, "oops")] }).svc.Finalizers = [] := by
  have h := (C10_registry_loading goLib (mapAgent exampleAssign) []
    { exampleService [{ Name := "", Protocol := "TCP", Port := 1234 }] with
      Annotations := [(registryKey, "oops")] }).2 "oops"
    (GoError.other "json: cannot decode the value into a []string") (by decide) (by rfl)
  rw [h]
  exact ⟨rfl, rfl⟩

/-! ## Stale cleanup across a change of the ports (C4) -/

theorem splitOk_iff (lib : GoLib) (t : Tunnel) :
    splitOk lib t = true ↔ ∃ hostname port,
      SplitHostPort lib t.PublicURL = Except.ok (hostname, port) := by
  unfold splitOk
  cases h : SplitHostPort lib t.PublicURL with
  | error err => simp
  | ok r => exact ⟨fun _ => ⟨r.1, r.2, rfl⟩, fun _ => rfl⟩

theorem urlParse_of_split {lib : GoLib} {raw : String} {r : String × Int}
    (h : SplitHostPort lib raw = Except.ok r) : ∃ u, lib.urlParse raw = Except.ok u := by
  unfold SplitHostPort at h
  cases hu : lib.urlParse raw with
  | error err => rw [hu] at h; cases h
  | ok u => exact ⟨u, rfl⟩

theorem recordTunnel_of_split {σ : Type} {lib : GoLib} {tunnelName : String} {t : Tunnel}
    (st : LoopState σ) (h : splitOk lib t = true) :
    (recordTunnel lib tunnelName t st).errs = st.errs ∧
    (recordTunnel lib tunnelName t st).currentTunnelSet = st.currentTunnelSet ∧
    (recordTunnel lib tunnelName t st).desiredTunnelSet =
      st.desiredTunnelSet.Insert tunnelName := by
  obtain ⟨hostname, port, hs⟩ := (splitOk_iff lib t).mp h
  simp [recordTunnel, hs]

theorem portStep_calls_prefix {σ : Type} (lib : GoLib) (agent : Agent σ) (svc : Service)
    (st : LoopState σ) (sp : ServicePort) :
    ∃ cs, (portStep lib agent svc st sp).calls = st.calls ++ cs := by
  obtain ⟨ft, fe, a1, -, hc⟩ := portStep_cases lib agent svc st sp
  rcases hc with ⟨e, -, -, heq⟩ | ⟨t, -, -, heq⟩ | ⟨-, heq⟩
  · rw [heq]; exact ⟨_, rfl⟩
  · rw [heq]
    exact ⟨[Call.find (reconcileTunnelName svc sp) ft fe], by
      simp only [Flow.calls, (recordTunnel_calls _ _ _ _).1]; rfl⟩
  · rw [heq]
    obtain ⟨t2, e2, a2, -, hs⟩ := startTunnel_cases lib agent svc sp
      (reconcileTunnelName svc sp) (st.called a1 (Call.find (reconcileTunnelName svc sp) ft fe))
    rcases hs with ⟨e, -, hseq⟩ | ⟨-, -, hseq⟩ | ⟨t, u, -, -, -, hseq⟩
    · rw [hseq]; exact ⟨_, by simp [Flow.calls, LoopState.called, LoopState.failed]; rfl⟩
    · rw [hseq]; exact ⟨_, by simp [Flow.calls, LoopState.called]; rfl⟩
    · rw [hseq]
      exact ⟨_, by
        simp only [Flow.calls, (recordTunnel_calls _ _ _ _).1]
        simp [LoopState.called]; rfl⟩

theorem portLoop_calls_prefix {σ : Type} (lib : GoLib) (agent : Agent σ) (svc : Service) :
    ∀ (ports : List ServicePort) (st : LoopState σ),
      ∃ cs, (portLoop lib agent svc ports st).calls = st.calls ++ cs := by
  intro ports
  induction ports with
  | nil => intro st; exact ⟨[], by simp [portLoop, Flow.calls]⟩
  | cons sp rest ih =>
    intro st
    obtain ⟨cs1, h1⟩ := portStep_calls_prefix lib agent svc st sp
    simp only [portLoop]
    cases hstep : portStep lib agent svc st sp with
    | panic st2 =>
      rw [hstep] at h1
      exact ⟨cs1, h1⟩
    | next st2 =>
      rw [hstep] at h1
      obtain ⟨cs2, h2⟩ := ih st2
      refine ⟨cs1 ++ cs2, ?_⟩
      simp only [Flow.calls] at h1
      rw [h2, h1, List.append_assoc]

/-- A step whose calls the agent served ends without panic and without error, and
inserts the name of the port into the desired set. -/
theorem portStep_served {σ : Type} (lib : GoLib) (agent : Agent σ) (svc : Service)
    (st : LoopState σ) (sp : ServicePort)
    (h : ∀ c ∈ (portStep lib agent svc st sp).calls, served lib c = true) :
    ∃ st1, portStep lib agent svc st sp = Flow.next st1 ∧ st1.errs = st.errs ∧
      st1.currentTunnelSet = st.currentTunnelSet ∧
      st1.desiredTunnelSet = st.desiredTunnelSet.Insert (reconcileTunnelName svc sp) := by
  obtain ⟨ft, fe, a1, -, hc⟩ := portStep_cases lib agent svc st sp
  rcases hc with ⟨e, hfe, hnf, heq⟩ | ⟨t, hft, hfe, heq⟩ | ⟨-, heq⟩
  · rw [heq] at h
    have := h (Call.find (reconcileTunnelName svc sp) ft fe)
      (by simp [Flow.calls, LoopState.called, LoopState.failed])
    subst hfe
    simp only [served] at this
    rw [hnf] at this
    cases this
  · rw [heq] at h
    have hsv := h (Call.find (reconcileTunnelName svc sp) ft fe)
      (by simp [Flow.calls, (recordTunnel_calls _ _ _ _).1, LoopState.called])
    subst hft hfe
    simp only [served] at hsv
    exact ⟨_, heq, recordTunnel_of_split _ hsv⟩
  · rw [heq] at h
    obtain ⟨t2, e2, a2, -, hs⟩ := startTunnel_cases lib agent svc sp
      (reconcileTunnelName svc sp) (st.called a1 (Call.find (reconcileTunnelName svc sp) ft fe))
    rcases hs with ⟨e, he2, hseq⟩ | ⟨he2, hbad, hseq⟩ | ⟨t, u, he2, ht2, -, hseq⟩
    · rw [hseq] at h
      have hsv := h (Call.start (reconcileTunnelName svc sp) (startConfig lib svc sp) t2 e2)
        (by simp [Flow.calls, LoopState.called, LoopState.failed])
      subst he2
      simp [served] at hsv
    · rw [hseq] at h
      have hsv := h (Call.start (reconcileTunnelName svc sp) (startConfig lib svc sp) t2 e2)
        (by simp [Flow.calls, LoopState.called])
      subst he2
      rcases hbad with ht2 | ⟨t, err, ht2, hu⟩
      · subst ht2
        simp [served] at hsv
      · subst ht2
        simp only [served] at hsv
        obtain ⟨hostname, port, hsplit⟩ := (splitOk_iff lib t).mp hsv
        obtain ⟨u, hu2⟩ := urlParse_of_split hsplit
        rw [hu] at hu2
        cases hu2
    · rw [hseq] at h
      have hsv := h (Call.start (reconcileTunnelName svc sp) (startConfig lib svc sp) t2 e2)
        (by simp [Flow.calls, (recordTunnel_calls _ _ _ _).1, LoopState.called])
      subst he2 ht2
      simp only [served] at hsv
      rw [heq, hseq]
      exact ⟨_, rfl, recordTunnel_of_split _ hsv⟩

/-- A loop whose calls the agent served ends without panic and without error, leaves
the current set as it was and inserts the names of all ports into the desired set. -/
theorem portLoop_served {σ : Type} (lib : GoLib) (agent : Agent σ) (svc : Service) :
    ∀ (ports : List ServicePort) (st : LoopState σ),
      (∀ c ∈ (portLoop lib agent svc ports st).calls, served lib c = true) →
      ∃ st1, portLoop lib agent svc ports st = Flow.next st1 ∧ st1.errs = st.errs ∧
        st1.currentTunnelSet = st.currentTunnelSet ∧
        st1.desiredTunnelSet =
          StringSet.InsertAll st.desiredTunnelSet (ports.map (reconcileTunnelName svc)) := by
  intro ports
  induction ports with
  | nil => intro st _; exact ⟨st, rfl, rfl, rfl, rfl⟩
  | cons sp rest ih =>
    intro st h
    simp only [portLoop] at h ⊢
    have hstep : ∀ c ∈ (portStep lib agent svc st sp).calls, served lib c = true := by
      intro c hc
      apply h
      cases hs : portStep lib agent svc st sp with
      | panic st2 => rw [hs] at hc; exact hc
      | next st2 =>
        rw [hs] at hc
        obtain ⟨cs, hcs⟩ := portLoop_calls_prefix lib agent svc rest st2
        simp only [hcs]
        exact List.mem_append_left _ hc
    obtain ⟨st2, h2, he, hc, hd⟩ := portStep_served lib agent svc st sp hstep
    rw [h2] at h
    obtain ⟨st1, h1, he1, hc1, hd1⟩ := ih st2 h
    refine ⟨st1, by rw [h2]; exact h1, he1.trans he, hc1.trans hc, ?_⟩
    rw [hd1, hd]
    rfl

theorem reconcile_calls_loop {σ : Type} {lib : GoLib} {agent : Agent σ} {a : σ}
    {svc : Service} {cur : StringSet} (hl : loadRegistry svc = Except.ok cur) :
    ∀ c ∈ (portLoop lib agent (withFinalizer svc) svc.Ports (LoopState.init cur a)).calls,
      c ∈ (reconcile lib agent a svc).calls := by
  intro c hc
  cases hloop : portLoop lib agent (withFinalizer svc) svc.Ports (LoopState.init cur a) with
  | panic st =>
    rw [hloop] at hc
    rw [reconcile_panic hl hloop]
    exact hc
  | next st =>
    rw [hloop] at hc
    obtain ⟨-, -, hcalls, -, -⟩ := reconcile_next hl hloop
    obtain ⟨stops, hst, -, -⟩ := stopStale_calls agent (staleNames st)
      { errs := [], calls := st.calls, agent := st.agent }
    rw [hcalls, hst]
    exact List.mem_append_left _ hc

theorem reconcileTunnelName_congr {svc1 svc2 : Service} (hns : svc1.Namespace = svc2.Namespace)
    (hn : svc1.Name = svc2.Name) (hp : svc1.Ports = svc2.Ports) (sp : ServicePort) :
    reconcileTunnelName svc1 sp = reconcileTunnelName svc2 sp := by
  simp [reconcileTunnelName, svckey, hns, hn, hp]

/-- C4: let a pass on a service with ports `P1` return without error, and let the next
pass run on the resulting service with the ports replaced by `P2`, against an agent
that serves every find and start call of that pass (NotFound or a tunnel whose public
URL splits on find, such a tunnel on start). Then the second pass does not panic, its
stop calls are exactly the tunnel names of `P1` that are not tunnel names of `P2`,
each once, and no tunnel name of `P2` is stopped. -/
theorem C4_stale_cleanup {σ τ : Type} (lib : GoLib) (agent1 : Agent σ) (a1 : σ)
    (agent2 : Agent τ) (a2 : τ) (svc : Service) (ports2 : List ServicePort)
    (hok : (reconcile lib agent1 a1 svc).reterr = none)
    (hp : (reconcile lib agent1 a1 svc).panicked = false)
    (hserved : ∀ c ∈ (reconcile lib agent2 a2
        { (reconcile lib agent1 a1 svc).svc with Ports := ports2 }).calls,
      served lib c = true) :
    (reconcile lib agent2 a2
      { (reconcile lib agent1 a1 svc).svc with Ports := ports2 }).panicked = false ∧
    (∀ n, n ∈ stopNames (reconcile lib agent2 a2
        { (reconcile lib agent1 a1 svc).svc with Ports := ports2 }).calls ↔
      n ∈ svc.Ports.map (reconcileTunnelName svc) ∧
      n ∉ ports2.map (reconcileTunnelName { svc with Ports := ports2 })) ∧
    (stopNames (reconcile lib agent2 a2
      { (reconcile lib agent1 a1 svc).svc with Ports := ports2 }).calls).Nodup ∧
    (∀ n, n ∈ ports2.map (reconcileTunnelName { svc with Ports := ports2 }) →
      ∀ err, Call.stop n err ∉ (reconcile lib agent2 a2
        { (reconcile lib agent1 a1 svc).svc with Ports := ports2 }).calls) := by
  obtain ⟨cur1, st1, -, hloop1, herr1, -, hsvc1, -, -⟩ := reconcile_ok hok hp
  obtain ⟨-, -, hdes1, -⟩ :=
    portLoop_success lib agent1 (withFinalizer svc) svc.Ports _ st1 hloop1 herr1
  have hdes1b : st1.desiredTunnelSet =
      StringSet.InsertAll [] (svc.Ports.map (reconcileTunnelName svc)) := hdes1
  generalize hsvc2 : ({ (reconcile lib agent1 a1 svc).svc with Ports := ports2 } : Service) =
    svc2 at hserved ⊢
  have hl2 : loadRegistry svc2 =
      Except.ok (StringSet.InsertAll [] (StringSet.List st1.desiredTunnelSet)) := by
    rw [← hsvc2, hsvc1]
    exact loadRegistry_storeRegistry _ _
  have hports2 : svc2.Ports = ports2 := by rw [← hsvc2]
  have hnames2 : ∀ sp, reconcileTunnelName (withFinalizer svc2) sp =
      reconcileTunnelName { svc with Ports := ports2 } sp := by
    intro sp
    apply reconcileTunnelName_congr
    · rw [← hsvc2, hsvc1]; rfl
    · rw [← hsvc2, hsvc1]; rfl
    · rw [← hsvc2]; rfl
  obtain ⟨st2, hloop2, -, hcur2, hd2⟩ := portLoop_served lib agent2 (withFinalizer svc2)
    svc2.Ports (LoopState.init _ a2)
    (fun c hc => hserved c (reconcile_calls_loop hl2 c hc))
  obtain ⟨hpan, -, hcalls, -, -⟩ := reconcile_next hl2 hloop2
  obtain ⟨cs, es, hc, -, hn, -, -, -, -, -⟩ :=
    portLoop_sets lib agent2 (withFinalizer svc2) svc2.Ports _ st2 hloop2
  obtain ⟨stops, hst, hsn, -⟩ := stopStale_calls agent2 (staleNames st2)
    { errs := [], calls := st2.calls, agent := st2.agent }
  have hstopnames : stopNames (reconcile lib agent2 a2 svc2).calls = staleNames st2 := by
    have hc1 : st2.calls = cs := by rw [hc]; rfl
    rw [hcalls, hst, stopNames_append, hc1,
      stopNames_eq_nil (fun c hcm => (hn c hcm).1), List.nil_append, hsn]
  have hd2b : st2.desiredTunnelSet = StringSet.InsertAll []
      (ports2.map (reconcileTunnelName { svc with Ports := ports2 })) := by
    rw [hd2, hports2]
    congr 1
    exact List.map_congr_left (fun sp _ => hnames2 sp)
  have hcur2b : st2.currentTunnelSet =
      StringSet.InsertAll [] (StringSet.List st1.desiredTunnelSet) := hcur2
  have hmem : ∀ n, n ∈ stopNames (reconcile lib agent2 a2 svc2).calls ↔
      n ∈ svc.Ports.map (reconcileTunnelName svc) ∧
      n ∉ ports2.map (reconcileTunnelName { svc with Ports := ports2 }) := by
    intro n
    rw [hstopnames, staleNames, mem_List, mem_Difference, hcur2b, mem_loaded_stored, hdes1b,
      hd2b, mem_InsertAll, mem_InsertAll]
    simp
  refine ⟨hpan, hmem, ?_, ?_⟩
  · rw [hstopnames, staleNames]
    apply nodup_List
    apply nodup_Difference
    rw [hcur2b]
    exact nodup_InsertAll _ _ List.nodup_nil
  · intro n hn2 err hmemc
    have : n ∈ stopNames (reconcile lib agent2 a2 svc2).calls :=
      (mem_stopNames _ n).mpr ⟨err, hmemc⟩
    exact ((hmem n).mp this).2 hn2

/-- C4 in the two scenarios, with an agent that starts without tunnels. From one unnamed
port to the named ports `a` and `b`: the second pass stops `ns-svc` and starts
`ns-svc-a` and `ns-svc-b`. From the named ports `a` and `b` to the port `a` alone: the
second pass stops `ns-svc-b` only and starts nothing. -/
theorem C4_stale_cleanup_witness :
    (stopNames (nextPass goLib (mapAgent exampleAssign) []
        (exampleService [{ Name := "", Protocol := "TCP", Port := 1234 }])
        [{ Name := "a", Protocol := "TCP", Port := 1234 },
          { Name := "b", Protocol := "TCP", Port := 5678 }]).calls = ["ns-svc"] ∧
      startNames (nextPass goLib (mapAgent exampleAssign) []
        (exampleService [{ Name := "", Protocol := "TCP", Port := 1234 }])
        [{ Name := "a", Protocol := "TCP", Port := 1234 },
          { Name := "b", Protocol := "TCP", Port := 5678 }]).calls = ["ns-svc-a", "ns-svc-b"]) ∧
    (stopNames (nextPass goLib (mapAgent exampleAssign) []
        (exampleService [{ Name := "a", Protocol := "TCP", Port := 1234 },
          { Name := "b", Protocol := "TCP", Port := 5678 }])
        [{ Name := "a", Protocol := "TCP", Port := 1234 }]).calls = ["ns-svc-b"] ∧
      startNames (nextPass goLib (mapAgent exampleAssign) []
        (exampleService [{ Name := "a", Protocol := "TCP", Port := 1234 },
          { Name := "b", Protocol := "TCP", Port := 5678 }])
        [{ Name := "a", Protocol := "TCP", Port := 1234 }]).calls = []) ∧
    (∀ n, n ∈ stopNames (nextPass goLib (mapAgent exampleAssign) []
        (exampleService [{ Name := "", Protocol := "TCP", Port := 1234 }])
        [{ Name := "a", Protocol := "TCP", Port := 1234 },
          { Name := "b", Protocol := "TCP", Port := 5678 }]).calls ↔
      n ∈ ["ns-svc"] ∧ n ∉ ["ns-svc-a", "ns-svc-b"]) := by
  have h := C4_stale_cleanup goLib (mapAgent exampleAssign) [] (mapAgent exampleAssign)
    (reconcile goLib (mapAgent exampleAssign) []
      (exampleService [{ Name := "", Protocol := "TCP", Port := 1234 }])).agent
    (exampleService [{ Name := "", Protocol := "TCP", Port := 1234 }])
    [{ Name := "a", Protocol := "TCP", Port := 1234 },
      { Name := "b", Protocol := "TCP", Port := 5678 }]
    (by decide) (by decide) (by decide)
  refine ⟨by decide, by decide, ?_⟩
  intro n
  have h2 := h.2.1 n
  exact h2

/-! ## Idempotence against a map agent (C3) -/

theorem lookup_filter_ne (m : List (String × Tunnel)) (n k : String) (h : k ≠ n) :
    (m.filter (fun e => e.1 ≠ n)).lookup k = m.lookup k := by
  induction m with
  | nil => rfl
  | cons e t ih =>
    obtain ⟨k1, v1⟩ := e
    by_cases h1 : k1 = n
    · have h2 : (k == k1) = false := by
        rw [beq_eq_false_iff_ne]; rw [h1]; exact h
      have hp : decide ((k1, v1).1 ≠ n) = false := by simp [h1]
      rw [List.filter_cons, hp, if_neg (by decide), List.lookup_cons, h2]
      exact ih
    · have hp : decide ((k1, v1).1 ≠ n) = true := by simp [h1]
      rw [List.filter_cons, hp, if_pos rfl, List.lookup_cons, List.lookup_cons]
      cases hk : k == k1 with
      | true => rfl
      | false => exact ih

theorem lookup_start_self (m : List (String × Tunnel)) (n : String) (t : Tunnel) :
    ((n, t) :: m.filter (fun e => e.1 ≠ n)).lookup n = some t := by
  simp [List.lookup_cons]

theorem lookup_start_ne (m : List (String × Tunnel)) (n k : String) (t : Tunnel) (h : k ≠ n) :
    ((n, t) :: m.filter (fun e => e.1 ≠ n)).lookup k = m.lookup k := by
  have h2 : (k == n) = false := by
    rw [beq_eq_false_iff_ne]; exact h
  rw [List.lookup_cons, h2]
  exact lookup_filter_ne m n k h

theorem mapAgent_find_some (assign : String → TunnelConfig → Tunnel)
    (m : List (String × Tunnel)) (n : String) (t : Tunnel) (h : m.lookup n = some t) :
    (mapAgent assign).Find m n = ((some t, none), m) := by
  simp [mapAgent, h]

theorem mapAgent_find_none (assign : String → TunnelConfig → Tunnel)
    (m : List (String × Tunnel)) (n : String) (h : m.lookup n = none) :
    (mapAgent assign).Find m n = ((none, some notFoundError), m) := by
  simp [mapAgent, h]

theorem mapAgent_start (assign : String → TunnelConfig → Tunnel)
    (m : List (String × Tunnel)) (n : String) (config : TunnelConfig) :
    (mapAgent assign).Start m n config =
      ((some (assign n config), none),
        (n, assign n config) :: m.filter (fun e => e.1 ≠ n)) := rfl

theorem mapAgent_stop (assign : String → TunnelConfig → Tunnel)
    (m : List (String × Tunnel)) (n : String) :
    (mapAgent assign).Stop m n = (none, m.filter (fun e => e.1 ≠ n)) := rfl

theorem append_singleton_ne_self {α : Type} (l : List α) (x : α) : l ++ [x] ≠ l := by
  intro h
  have := congrArg List.length h
  simp at this

/-- A step against the map agent that records no error: afterwards the map binds the
name of the port to the tunnel whose entry the step appended, and every binding from
before is still there. -/
theorem mapStep_success {lib : GoLib} {assign : String → TunnelConfig → Tunnel}
    {svc : Service} {st st2 : LoopState (List (String × Tunnel))} {sp : ServicePort}
    (h : portStep lib (mapAgent assign) svc st sp = Flow.next st2)
    (herr : st2.errs = st.errs) :
    ∃ t hostname port, st2.agent.lookup (reconcileTunnelName svc sp) = some t ∧
      SplitHostPort lib t.PublicURL = Except.ok (hostname, port) ∧
      st2.ingress = st.ingress ++ [ingressEntry lib hostname port t] ∧
      ∀ k t2, st.agent.lookup k = some t2 → st2.agent.lookup k = some t2 := by
  obtain ⟨ft, fe, a1, hfind, hc⟩ := portStep_cases lib (mapAgent assign) svc st sp
  cases hlk : st.agent.lookup (reconcileTunnelName svc sp) with
  | some t0 =>
    rw [mapAgent_find_some assign _ _ t0 hlk] at hfind
    injection hfind with h1 h2
    injection h1 with h1 h3
    subst h1 h2 h3
    rcases hc with ⟨e, hfe, -, -⟩ | ⟨t, hft, -, heq⟩ | ⟨hbad, -⟩
    · cases hfe
    · injection hft with hft
      subst hft
      rw [heq] at h
      injection h with h
      rcases recordTunnel_cases lib (reconcileTunnelName svc sp) t0
        (st.called st.agent (Call.find (reconcileTunnelName svc sp) (some t0) none))
        with ⟨err, -, hr⟩ | ⟨hostname, port, hsplit, hr⟩
      · rw [hr] at h
        subst h
        exact absurd herr (append_singleton_ne_self _ _)
      · rw [hr] at h
        subst h
        exact ⟨t0, hostname, port, hlk, hsplit, rfl, fun k t2 hk => hk⟩
    · rcases hbad with h1 | ⟨-, h1⟩
      · simp [IsNotFound] at h1
      · cases h1
  | none =>
    rw [mapAgent_find_none assign _ _ hlk] at hfind
    injection hfind with h1 h2
    injection h1 with h1 h3
    subst h1 h2 h3
    rcases hc with ⟨e, hfe, hnf, -⟩ | ⟨t, hft, -, -⟩ | ⟨-, heq⟩
    · injection hfe with hfe
      subst hfe
      exact absurd hnf (by decide)
    · cases hft
    · rw [heq] at h
      obtain ⟨t2, e2, a2, hstart, hs⟩ := startTunnel_cases lib (mapAgent assign) svc sp
        (reconcileTunnelName svc sp)
        (st.called st.agent (Call.find (reconcileTunnelName svc sp) none (some notFoundError)))
      have hstart2 : (mapAgent assign).Start st.agent (reconcileTunnelName svc sp)
          (startConfig lib svc sp) = ((t2, e2), a2) := hstart
      rw [mapAgent_start] at hstart2
      injection hstart2 with h1 h2
      injection h1 with h1 h3
      subst h1 h2 h3
      rcases hs with ⟨e, he2, -⟩ | ⟨-, -, hseq⟩ | ⟨t, u, -, ht2, -, hseq⟩
      · cases he2
      · rw [hseq] at h
        cases h
      · injection ht2 with ht2
        subst ht2
        rw [hseq] at h
        injection h with h
        rcases recordTunnel_cases lib (reconcileTunnelName svc sp)
          (assign (reconcileTunnelName svc sp) (startConfig lib svc sp))
          { (st.called st.agent (Call.find (reconcileTunnelName svc sp) none
                (some notFoundError))).called
              ((reconcileTunnelName svc sp,
                  assign (reconcileTunnelName svc sp) (startConfig lib svc sp)) ::
                st.agent.filter (fun e => e.1 ≠ reconcileTunnelName svc sp))
              (Call.start (reconcileTunnelName svc sp) (startConfig lib svc sp)
                (some (assign (reconcileTunnelName svc sp) (startConfig lib svc sp))) none) with
            events := (st.called st.agent (Call.find (reconcileTunnelName svc sp) none
                (some notFoundError))).events ++ [{ Port := sp.Port, Host := u.Host }] }
          with ⟨err, -, hr⟩ | ⟨hostname, port, hsplit, hr⟩
        · rw [hr] at h
          subst h
          exact absurd herr (append_singleton_ne_self _ _)
        · rw [hr] at h
          subst h
          refine ⟨_, hostname, port, lookup_start_self _ _ _, hsplit, rfl, ?_⟩
          intro k t2 hk
          have hne : k ≠ reconcileTunnelName svc sp := by
            intro hkn
            rw [hkn, hlk] at hk
            cases hk
          show List.lookup k ((reconcileTunnelName svc sp, _) :: _) = some t2
          rw [lookup_start_ne _ _ _ _ hne]
          exact hk

theorem portLoop_errs_prefix {σ : Type} {lib : GoLib} {agent : Agent σ} {svc : Service}
    {ports : List ServicePort} {st st1 : LoopState σ}
    (h : portLoop lib agent svc ports st = Flow.next st1) :
    ∃ es, st1.errs = st.errs ++ es := by
  obtain ⟨cs, es, -, he, -⟩ := portLoop_sets lib agent svc ports st st1 h
  exact ⟨es, he⟩

/-- A loop against the map agent that records no error: afterwards the map binds the
name of every port to the tunnel of its ingress entry, and keeps the bindings it had. -/
theorem mapLoop_success (lib : GoLib) (assign : String → TunnelConfig → Tunnel)
    (svc : Service) :
    ∀ (ports : List ServicePort) (st st1 : LoopState (List (String × Tunnel))),
      portLoop lib (mapAgent assign) svc ports st = Flow.next st1 → st1.errs = st.errs →
      (∀ k t, st.agent.lookup k = some t → st1.agent.lookup k = some t) ∧
      ∃ ings, st1.ingress = st.ingress ++ ings ∧
        List.Forall₂ (fun sp ing => ∃ t hostname port,
          st1.agent.lookup (reconcileTunnelName svc sp) = some t ∧
          SplitHostPort lib t.PublicURL = Except.ok (hostname, port) ∧
          ing = ingressEntry lib hostname port t) ports ings := by
  intro ports
  induction ports with
  | nil =>
    intro st st1 h _
    simp only [portLoop] at h
    injection h with h
    subst h
    exact ⟨fun k t hk => hk, [], by simp, List.Forall₂.nil⟩
  | cons sp rest ih =>
    intro st st1 h herr
    simp only [portLoop] at h
    cases hstep : portStep lib (mapAgent assign) svc st sp with
    | panic st2 => rw [hstep] at h; cases h
    | next st2 =>
      rw [hstep] at h
      obtain ⟨es2, he2⟩ := portLoop_errs_prefix h
      obtain ⟨cs1, es1, -, he1, -⟩ := portStep_sets hstep
      have hes : es1 = [] ∧ es2 = [] := by
        rw [he2, he1, List.append_assoc] at herr
        have := List.append_cancel_left (herr.trans (List.append_nil _).symm)
        exact List.append_eq_nil.mp this
      have herr1 : st2.errs = st.errs := by rw [he1, hes.1, List.append_nil]
      have herr2 : st1.errs = st2.errs := by rw [he2, hes.2, List.append_nil]
      obtain ⟨t, hostname, port, hlk, hsplit, hing, hmono⟩ := mapStep_success hstep herr1
      obtain ⟨hmono2, ings, hing2, hall⟩ := ih st2 st1 h herr2
      refine ⟨fun k t2 hk => hmono2 k t2 (hmono k t2 hk),
        ingressEntry lib hostname port t :: ings, ?_, ?_⟩
      · rw [hing2, hing]; simp
      · exact List.Forall₂.cons ⟨t, hostname, port, hmono2 _ _ hlk, hsplit, rfl⟩ hall

/-- A loop against a map that binds the name of every port to a tunnel whose public URL
splits: it makes one find call per port and no other call, leaves the map as it is,
records no error, and appends the entries of those tunnels. -/
theorem mapLoop_replay (lib : GoLib) (assign : String → TunnelConfig → Tunnel)
    (svc : Service) :
    ∀ (ports : List ServicePort) (ings : List LoadBalancerIngress)
      (st : LoopState (List (String × Tunnel))),
      List.Forall₂ (fun sp ing => ∃ t hostname port,
          st.agent.lookup (reconcileTunnelName svc sp) = some t ∧
          SplitHostPort lib t.PublicURL = Except.ok (hostname, port) ∧
          ing = ingressEntry lib hostname port t) ports ings →
      ∃ st1, portLoop lib (mapAgent assign) svc ports st = Flow.next st1 ∧
        st1.agent = st.agent ∧ st1.errs = st.errs ∧
        st1.currentTunnelSet = st.currentTunnelSet ∧
        st1.desiredTunnelSet =
          StringSet.InsertAll st.desiredTunnelSet (ports.map (reconcileTunnelName svc)) ∧
        st1.ingress = st.ingress ++ ings ∧
        ∃ cs, st1.calls = st.calls ++ cs ∧
          ∀ c ∈ cs, c.isStart = false ∧ c.isStop = false := by
  intro ports
  induction ports with
  | nil =>
    intro ings st hall
    cases hall
    exact ⟨st, rfl, rfl, rfl, rfl, rfl, by simp, [], by simp, by simp⟩
  | cons sp rest ih =>
    intro ings st hall
    cases hall with
    | cons hhead htail =>
      rename_i ing ings2
      obtain ⟨t, hostname, port, hlk, hsplit, hing⟩ := hhead
      have hstep : portStep lib (mapAgent assign) svc st sp =
          Flow.next
            { st with
              calls := st.calls ++ [Call.find (reconcileTunnelName svc sp) (some t) none],
              desiredTunnelSet := st.desiredTunnelSet.Insert (reconcileTunnelName svc sp),
              ingress := st.ingress ++ [ingressEntry lib hostname port t] } := by
        simp only [portStep, mapAgent_find_some assign _ _ t hlk, recordTunnel, hsplit,
          LoopState.called]
      obtain ⟨st1, h1, ha, he, hc, hd, hi, cs, hcs, hno⟩ := ih ings2
        { st with
          calls := st.calls ++ [Call.find (reconcileTunnelName svc sp) (some t) none],
          desiredTunnelSet := st.desiredTunnelSet.Insert (reconcileTunnelName svc sp),
          ingress := st.ingress ++ [ingressEntry lib hostname port t] } htail
      refine ⟨st1, ?_, ha, he, hc, ?_, ?_, ?_⟩
      · simp only [portLoop, hstep]
        exact h1
      · rw [hd]; rfl
      · rw [hi, hing]; simp
      · refine ⟨Call.find (reconcileTunnelName svc sp) (some t) none :: cs, ?_, ?_⟩
        · rw [hcs]; simp
        · intro c hc2
          rcases List.mem_cons.mp hc2 with hc2 | hc2
          · subst hc2; exact ⟨rfl, rfl⟩
          · exact hno c hc2

theorem mapStale_lookup (assign : String → TunnelConfig → Tunnel) :
    ∀ (names : List String) (s : StopState (List (String × Tunnel))),
      (stopStale (mapAgent assign) names s).errs = s.errs ∧
      ∀ k, k ∉ names → (stopStale (mapAgent assign) names s).agent.lookup k =
        s.agent.lookup k := by
  intro names
  induction names with
  | nil => intro s; exact ⟨rfl, fun k _ => rfl⟩
  | cons n rest ih =>
    intro s
    have hstep : stopStale (mapAgent assign) (n :: rest) s =
        stopStale (mapAgent assign) rest
          { errs := s.errs, calls := s.calls ++ [Call.stop n none],
            agent := s.agent.filter (fun e => e.1 ≠ n) } := by
      simp only [stopStale, mapAgent_stop]
    rw [hstep]
    obtain ⟨h1, h2⟩ := ih
      { errs := s.errs, calls := s.calls ++ [Call.stop n none],
        agent := s.agent.filter (fun e => e.1 ≠ n) }
    refine ⟨h1, ?_⟩
    intro k hk
    have hkn : k ≠ n := fun e => hk (by simp [e])
    have hkr : k ∉ rest := fun e => hk (by simp [e])
    rw [h2 k hkr]
    exact lookup_filter_ne _ _ _ hkn

theorem mapSet_mapSet (m : List (String × String)) (k v v2 : String) :
    mapSet (mapSet m k v) k v2 = mapSet m k v2 := by
  induction m with
  | nil => simp [mapSet]
  | cons e t ih =>
    obtain ⟨k1, v1⟩ := e
    by_cases h : k1 = k
    · simp [mapSet, h]
    · simp [mapSet, h, ih]

theorem AddFinalizer_idem (fs : List String) (f : String) :
    AddFinalizer (AddFinalizer fs f) f = AddFinalizer fs f := by
  unfold AddFinalizer
  by_cases h : f ∈ fs
  · simp [h]
  · simp [h]

theorem List_nil : StringSet.List [] = [] := rfl

/-- C3: against the map agent, when a pass returns without error and a second pass runs
on the service and the agent state the first one left, the second pass returns without
error, issues no start and no stop call, and leaves the service as the first pass left
it: the same registry annotation and the same status ingress list. The agent is left
as it was. -/
theorem C3_idempotence (lib : GoLib) (assign : String → TunnelConfig → Tunnel)
    (m0 : List (String × Tunnel)) (svc : Service)
    (hok : (reconcile lib (mapAgent assign) m0 svc).reterr = none)
    (hp : (reconcile lib (mapAgent assign) m0 svc).panicked = false) :
    (reconcile lib (mapAgent assign) (reconcile lib (mapAgent assign) m0 svc).agent
      (reconcile lib (mapAgent assign) m0 svc).svc).reterr = none ∧
    (reconcile lib (mapAgent assign) (reconcile lib (mapAgent assign) m0 svc).agent
      (reconcile lib (mapAgent assign) m0 svc).svc).panicked = false ∧
    (∀ c ∈ (reconcile lib (mapAgent assign) (reconcile lib (mapAgent assign) m0 svc).agent
      (reconcile lib (mapAgent assign) m0 svc).svc).calls,
        c.isStart = false ∧ c.isStop = false) ∧
    mapGet (reconcile lib (mapAgent assign) (reconcile lib (mapAgent assign) m0 svc).agent
      (reconcile lib (mapAgent assign) m0 svc).svc).svc.Annotations registryKey =
      mapGet (reconcile lib (mapAgent assign) m0 svc).svc.Annotations registryKey ∧
    (reconcile lib (mapAgent assign) (reconcile lib (mapAgent assign) m0 svc).agent
      (reconcile lib (mapAgent assign) m0 svc).svc).svc.Ingress =
      (reconcile lib (mapAgent assign) m0 svc).svc.Ingress ∧
    (reconcile lib (mapAgent assign) (reconcile lib (mapAgent assign) m0 svc).agent
      (reconcile lib (mapAgent assign) m0 svc).svc).svc =
      (reconcile lib (mapAgent assign) m0 svc).svc ∧
    (reconcile lib (mapAgent assign) (reconcile lib (mapAgent assign) m0 svc).agent
      (reconcile lib (mapAgent assign) m0 svc).svc).agent =
      (reconcile lib (mapAgent assign) m0 svc).agent := by
  obtain ⟨cur1, st1, -, hloop1, herr1, -, hsvc1, -, hagent1⟩ := reconcile_ok hok hp
  obtain ⟨-, -, hdes1, -⟩ :=
    portLoop_success lib (mapAgent assign) (withFinalizer svc) svc.Ports _ st1 hloop1 herr1
  have hdes1b : st1.desiredTunnelSet =
      StringSet.InsertAll [] (svc.Ports.map (reconcileTunnelName (withFinalizer svc))) := hdes1
  obtain ⟨-, ings, hing1, hall1⟩ := mapLoop_success lib assign (withFinalizer svc) svc.Ports
    _ st1 hloop1 (by rw [herr1]; rfl)
  have hing1b : st1.ingress = ings := by rw [hing1]; rfl
  generalize hm1 : (reconcile lib (mapAgent assign) m0 svc).agent = m1 at *
  generalize hs1 : (reconcile lib (mapAgent assign) m0 svc).svc = svc1 at *
  -- the stale cleanup of the first pass leaves the tunnels of the ports in the map
  have hall2 : List.Forall₂ (fun sp ing => ∃ t hostname port,
      m1.lookup (reconcileTunnelName (withFinalizer svc) sp) = some t ∧
      SplitHostPort lib t.PublicURL = Except.ok (hostname, port) ∧
      ing = ingressEntry lib hostname port t) svc.Ports ings := by
    have hmem : ∀ sp ∈ svc.Ports,
        reconcileTunnelName (withFinalizer svc) sp ∉ staleNames st1 := by
      intro sp hsp hin
      rw [staleNames, mem_List, mem_Difference] at hin
      apply hin.2
      rw [hdes1b, mem_InsertAll]
      exact Or.inr (List.mem_map_of_mem _ hsp)
    have hkeep := (mapStale_lookup assign (staleNames st1)
      { errs := [], calls := st1.calls, agent := st1.agent }).2
    have hall1b : ∀ (l : List ServicePort) (is : List LoadBalancerIngress),
        (∀ sp ∈ l, sp ∈ svc.Ports) →
        List.Forall₂ (fun sp ing => ∃ t hostname port,
          st1.agent.lookup (reconcileTunnelName (withFinalizer svc) sp) = some t ∧
          SplitHostPort lib t.PublicURL = Except.ok (hostname, port) ∧
          ing = ingressEntry lib hostname port t) l is →
        List.Forall₂ (fun sp ing => ∃ t hostname port,
          m1.lookup (reconcileTunnelName (withFinalizer svc) sp) = some t ∧
          SplitHostPort lib t.PublicURL = Except.ok (hostname, port) ∧
          ing = ingressEntry lib hostname port t) l is := by
      intro l is hsub hf
      induction hf with
      | nil => exact List.Forall₂.nil
      | @cons sp ing l2 is2 hhead _ ih2 =>
        obtain ⟨t, hostname, port, hlk, hsplit, hi⟩ := hhead
        refine List.Forall₂.cons ⟨t, hostname, port, ?_, hsplit, hi⟩
          (ih2 (fun x hx => hsub x (List.mem_cons_of_mem _ hx)))
        rw [hagent1, hkeep _ (hmem sp (hsub sp (List.mem_cons_self _ _)))]
        exact hlk
    exact hall1b svc.Ports ings (fun _ h => h) hall1
  -- the second pass
  have hl2 : loadRegistry svc1 =
      Except.ok (StringSet.InsertAll [] (StringSet.List st1.desiredTunnelSet)) := by
    rw [hsvc1]
    exact loadRegistry_storeRegistry _ _
  have hports : svc1.Ports = svc.Ports := by rw [hsvc1]; rfl
  have hnames : ∀ sp, reconcileTunnelName (withFinalizer svc1) sp =
      reconcileTunnelName (withFinalizer svc) sp := by
    intro sp
    apply reconcileTunnelName_congr
    · rw [hsvc1]; rfl
    · rw [hsvc1]; rfl
    · rw [hsvc1]; rfl
  have hall3 : List.Forall₂ (fun sp ing => ∃ t hostname port,
      (LoopState.init (StringSet.InsertAll [] (StringSet.List st1.desiredTunnelSet))
        m1).agent.lookup (reconcileTunnelName (withFinalizer svc1) sp) = some t ∧
      SplitHostPort lib t.PublicURL = Except.ok (hostname, port) ∧
      ing = ingressEntry lib hostname port t) svc1.Ports ings := by
    rw [hports]
    refine hall2.imp ?_
    rintro sp ing ⟨t, hostname, port, hlk, hsplit, hi⟩
    exact ⟨t, hostname, port, by rw [hnames]; exact hlk, hsplit, hi⟩
  obtain ⟨st2, hloop2, hag2, he2, hc2, hd2, hi2, cs, hcs, hno⟩ :=
    mapLoop_replay lib assign (withFinalizer svc1) svc1.Ports ings _ hall3
  have hd2b : st2.desiredTunnelSet = st1.desiredTunnelSet := by
    rw [hd2, hdes1b, hports]
    show StringSet.InsertAll [] _ = _
    congr 1
    exact List.map_congr_left (fun sp _ => hnames sp)
  have hstale : staleNames st2 = [] := by
    rw [staleNames, Difference_eq_nil, List_nil]
    intro x hx
    rw [hc2] at hx
    rw [hd2b]
    exact (mem_loaded_stored _ x).mp hx
  obtain ⟨hpan, -, hcalls, hagent, hcase⟩ := reconcile_next hl2 hloop2
  rw [hstale] at hcalls hagent hcase
  simp only [stopStale] at hcalls hagent hcase
  have hsvc2 : storeRegistry { withFinalizer svc1 with Ingress := st2.ingress }
      st2.desiredTunnelSet = svc1 := by
    have hi2b : st2.ingress = st1.ingress := by
      rw [hi2, hing1b]; rfl
    rw [hd2b, hi2b, hsvc1]
    simp [storeRegistry, withFinalizer, mapSet_mapSet, AddFinalizer_idem]
  rcases hcase with ⟨-, -, hret, hsvc⟩ | ⟨hbad, -, -⟩
  · refine ⟨hret, hpan, ?_, ?_, ?_, ?_, ?_⟩
    · intro c hc
      rw [hcalls, hcs] at hc
      exact hno c (by simpa [LoopState.init] using hc)
    · rw [hsvc, hsvc2]
    · rw [hsvc, hsvc2]
    · rw [hsvc, hsvc2]
    · rw [hagent, hag2]; rfl
  · exfalso
    rcases hbad with h | h
    · exact h rfl
    · apply h
      rw [he2]; rfl

/-- C3 at the service `ns/svc` with the named ports `a` and `b` and a map agent that
starts without tunnels: the second pass makes the two find calls only. -/
theorem C3_idempotence_witness :
    (reconcile goLib (mapAgent exampleAssign)
      (reconcile goLib (mapAgent exampleAssign) []
        (exampleService [{ Name := "a", Protocol := "TCP", Port := 1234 },
          { Name := "b", Protocol := "TCP", Port := 6789 }])).agent
      (reconcile goLib (mapAgent exampleAssign) []
        (exampleService [{ Name := "a", Protocol := "TCP", Port := 1234 },
          { Name := "b", Protocol := "TCP", Port := 6789 }])).svc).reterr = none ∧
    findNames (reconcile goLib (mapAgent exampleAssign)
      (reconcile goLib (mapAgent exampleAssign) []
        (exampleService [{ Name := "a", Protocol := "TCP", Port := 1234 },
          { Name := "b", Protocol := "TCP", Port := 6789 }])).agent
      (reconcile goLib (mapAgent exampleAssign) []
        (exampleService [{ Name := "a", Protocol := "TCP", Port := 1234 },
          { Name := "b", Protocol := "TCP", Port := 6789 }])).svc).calls =
      ["ns-svc-a", "ns-svc-b"] := by
  have h := C3_idempotence goLib exampleAssign []
    (exampleService [{ Name := "a", Protocol := "TCP", Port := 1234 },
      { Name := "b", Protocol := "TCP", Port := 6789 }]) (by decide) (by decide)
  exact ⟨h.1, by decide⟩

/-! ## The order of the calls of a pass (C14) -/

theorem findNames_eq_nil {cs : List Call} (h : ∀ c ∈ cs, c.isStop = true) : findNames cs = [] := by
  induction cs with
  | nil => rfl
  | cons c t ih =>
    have h1 := h c (List.mem_cons_self _ _)
    have h2 := ih (fun d hd => h d (List.mem_cons_of_mem _ hd))
    cases c <;> simp_all [findNames, Call.isStop]

/-- Once the registry has decoded, a pass that does not panic issues exactly one find
call per port, in declared port order, whatever the agent answered for any port; and
its trace splits into the find and start calls of the loop followed by the stop calls
of the stale cleanup, so that every stop call comes after every find and start call. -/
theorem call_order_of_pass {σ : Type} (lib : GoLib) (agent : Agent σ) (a : σ) (svc : Service)
    (cur : StringSet) (hl : loadRegistry svc = Except.ok cur)
    (hp : (reconcile lib agent a svc).panicked = false) :
    findNames (reconcile lib agent a svc).calls = svc.Ports.map (reconcileTunnelName svc) ∧
    ∃ cs stops, (reconcile lib agent a svc).calls = cs ++ stops ∧
      (∀ c ∈ cs, c.isStop = false) ∧ (∀ c ∈ stops, c.isStop = true) := by
  obtain ⟨cs, stops, d, u, hcalls, hcs, hf, hstops, -⟩ := reconcile_trace hl hp
  refine ⟨?_, cs, stops, hcalls, fun c hc => (hcs c hc).1, hstops⟩
  rw [hcalls, findNames_append, findNames_eq_nil hstops, List.append_nil, hf]

/-- The order of the calls at the service `ns/svc` with the ports `a` and `b`, the
registry `ns-svc` and an agent that cannot be reached: both find calls are made, in
order, before the stop call. -/
theorem call_order_of_pass_down :
    findNames (reconcile goLib downAgent ()
      (exampleServiceWith ["ns-svc"] [{ Name := "a", Protocol := "TCP", Port := 1234 },
        { Name := "b", Protocol := "TCP", Port := 6789 }])).calls = ["ns-svc-a", "ns-svc-b"] ∧
    (reconcile goLib downAgent ()
      (exampleServiceWith ["ns-svc"] [{ Name := "a", Protocol := "TCP", Port := 1234 },
        { Name := "b", Protocol := "TCP", Port := 6789 }])).calls.map Call.isStop =
      [false, false, true] := by
  have h := call_order_of_pass goLib downAgent ()
    (exampleServiceWith ["ns-svc"] [{ Name := "a", Protocol := "TCP", Port := 1234 },
      { Name := "b", Protocol := "TCP", Port := 6789 }]) ["ns-svc"] (by rfl) (by decide)
  exact ⟨h.1, by decide⟩

/-- C14, the failing run: the service `ns/svc` has the ports `a` and `b`, the registry
decodes (it is absent), the agent holds no tunnel and starts tunnels whose public URL
is the text of one colon. The parse of the public URL of the tunnel started for `a`
fails, reading `u.Host` on line 186 panics, and the loop never reaches `b`: the trace
holds the find and the start call on `ns-svc-a` and no find call on `ns-svc-b`. -/
theorem C14_panic_skips_later_ports :
    (reconcile goLib (mapAgent colonAssign) []
      (exampleService [{ Name := "a", Protocol := "TCP", Port := 1234 },
        { Name := "b", Protocol := "TCP", Port := 6789 }])).panicked = true ∧
    findNames (reconcile goLib (mapAgent colonAssign) []
      (exampleService [{ Name := "a", Protocol := "TCP", Port := 1234 },
        { Name := "b", Protocol := "TCP", Port := 6789 }])).calls = ["ns-svc-a"] ∧
    startNames (reconcile goLib (mapAgent colonAssign) []
      (exampleService [{ Name := "a", Protocol := "TCP", Port := 1234 },
        { Name := "b", Protocol := "TCP", Port := 6789 }])).calls = ["ns-svc-a"] ∧
    (exampleService [{ Name := "a", Protocol := "TCP", Port := 1234 },
        { Name := "b", Protocol := "TCP", Port := 6789 }]).Ports.map
      (reconcileTunnelName (exampleService [{ Name := "a", Protocol := "TCP", Port := 1234 },
        { Name := "b", Protocol := "TCP", Port := 6789 }])) = ["ns-svc-a", "ns-svc-b"] := by
  decide

/-! ## The registry codec on a set (C12) -/

theorem lessChars_asymm : ∀ (a b : List Char), lessChars a b = true → lessChars b a = false := by
  intro a
  induction a with
  | nil => intro b _; cases b <;> rfl
  | cons x xs ih =>
    intro b h
    cases b with
    | nil => simp [lessChars] at h
    | cons y ys =>
      simp only [lessChars] at h ⊢
      by_cases h1 : x.toNat < y.toNat
      · have h2 : ¬ y.toNat < x.toNat := by omega
        simp [h1, h2]
      · by_cases h2 : y.toNat < x.toNat
        · simp [h1, h2] at h
        · simp only [h1, h2, if_false] at h ⊢
          exact ih ys h

theorem lessChars_trans : ∀ (a b c : List Char),
    lessChars a b = true → lessChars b c = true → lessChars a c = true := by
  intro a
  induction a with
  | nil =>
    intro b c h1 h2
    cases c with
    | nil => cases b <;> simp [lessChars] at h2
    | cons z zs => rfl
  | cons x xs ih =>
    intro b c h1 h2
    cases b with
    | nil => simp [lessChars] at h1
    | cons y ys =>
      cases c with
      | nil => simp [lessChars] at h2
      | cons z zs =>
        simp only [lessChars] at h1 h2 ⊢
        by_cases hxy : x.toNat < y.toNat
        · by_cases hyz : y.toNat < z.toNat
          · have : x.toNat < z.toNat := by omega
            simp [this]
          · by_cases hzy : z.toNat < y.toNat
            · simp [hyz, hzy] at h2
            · have : x.toNat < z.toNat := by omega
              simp [this]
        · by_cases hyx : y.toNat < x.toNat
          · simp [hxy, hyx] at h1
          · simp only [hxy, hyx, if_false] at h1
            by_cases hyz : y.toNat < z.toNat
            · have : x.toNat < z.toNat := by omega
              simp [this]
            · by_cases hzy : z.toNat < y.toNat
              · simp [hyz, hzy] at h2
              · simp only [hyz, hzy, if_false] at h2
                have h3 : ¬ x.toNat < z.toNat := by omega
                have h4 : ¬ z.toNat < x.toNat := by omega
                simp only [h3, h4, if_false]
                exact ih ys zs h1 h2

theorem lessChars_trichotomy : ∀ (a b : List Char),
    lessChars a b = false → lessChars b a = false → a = b := by
  intro a
  induction a with
  | nil =>
    intro b h1 _
    cases b with
    | nil => rfl
    | cons y ys => simp [lessChars] at h1
  | cons x xs ih =>
    intro b h1 h2
    cases b with
    | nil => simp [lessChars] at h2
    | cons y ys =>
      simp only [lessChars] at h1 h2
      by_cases hxy : x.toNat < y.toNat
      · simp [hxy] at h1
      · by_cases hyx : y.toNat < x.toNat
        · simp [hyx] at h2
        · simp only [hxy, hyx, if_false] at h1 h2
          have hc : x = y := char_eq_of_toNat (by omega)
          rw [hc, ih ys h1 h2]

theorem StrLE_total (a b : String) : StrLE a b ∨ StrLE b a := by
  unfold StrLE
  cases h : lessChars b.data a.data with
  | false => exact Or.inl rfl
  | true => exact Or.inr (lessChars_asymm _ _ h)

theorem StrLE_trans (a b c : String) (h1 : StrLE a b) (h2 : StrLE b c) : StrLE a c := by
  unfold StrLE at *
  cases h : lessChars c.data a.data with
  | false => rfl
  | true =>
    exfalso
    cases hab : lessChars a.data b.data with
    | true =>
      have := lessChars_trans _ _ _ h hab
      rw [h2] at this
      cases this
    | false =>
      have hEq : a.data = b.data := lessChars_trichotomy _ _ hab h1
      rw [hEq, h2] at h
      cases h

theorem sorted_List (s : StringSet) : (StringSet.List s).Sorted StrLE := by
  haveI : IsTotal String StrLE := ⟨StrLE_total⟩
  haveI : IsTrans String StrLE := ⟨StrLE_trans⟩
  exact List.sorted_insertionSort StrLE s

/-- The list of a set without duplicates is strictly ascending in the order of Go
strings. -/
theorem ascending_List (s : StringSet) (hs : s.Nodup) :
    (StringSet.List s).Pairwise (fun a b => lessChars a.data b.data = true) := by
  have h1 : (StringSet.List s).Pairwise StrLE := sorted_List s
  have h2 : (StringSet.List s).Pairwise (fun a b => a ≠ b) := nodup_List s hs
  refine (h1.and h2).imp ?_
  rintro a b ⟨hle, hne⟩
  cases h : lessChars a.data b.data with
  | true => rfl
  | false =>
    exfalso
    apply hne
    exact String.ext (lessChars_trichotomy _ _ h hle)

theorem encodeTail_eq (t : List String) :
    encodeTail t = t.flatMap (fun x => ',' :: quoteString x) ++ [']', '\n'] := by
  induction t with
  | nil => rfl
  | cons x xs ih => simp [encodeTail, ih]

theorem intercalate_quote (x : String) (t : List String) :
    List.intercalate [','] ((x :: t).map quoteString) =
      quoteString x ++ t.flatMap (fun y => ',' :: quoteString y) := by
  induction t generalizing x with
  | nil => simp [List.intercalate]
  | cons y ys ih =>
    have h := ih y
    simp only [List.intercalate, List.map_cons, List.intersperse_cons_cons,
      List.flatten_cons, List.flatMap_cons] at h ⊢
    rw [h]
    simp

/-- What the encoder writes is the text of the JSON array followed by a newline. -/
theorem jsonEncode_eq_arrayText (l : List String) :
    jsonEncode l = String.mk (jsonArrayText l ++ ['\n']) := by
  cases l with
  | nil => rfl
  | cons x t =>
    simp only [jsonEncode, jsonArrayText, intercalate_quote, encodeTail_eq]
    simp

/-- C12: for a set `s` of tunnel names, the annotation value the deferred function of
`reconcile` writes is the text of a JSON array of strings followed by a newline; the
array lists each element of `s` exactly once, in strictly ascending order of Go strings;
the empty set is written as the empty array `[]`; the value decodes to the listed
names, and the loader at the start of `reconcile` reads back exactly the set `s`. -/
theorem C12_registry_codec (svc : Service) (s : StringSet) (hs : s.Nodup) :
    mapGet (storeRegistry svc s).Annotations registryKey =
      some (jsonEncode (StringSet.List s)) ∧
    jsonEncode (StringSet.List s) =
      String.mk (jsonArrayText (StringSet.List s) ++ ['\n']) ∧
    (∀ n, n ∈ StringSet.List s ↔ n ∈ s) ∧
    (StringSet.List s).Nodup ∧
    (StringSet.List s).Pairwise (fun a b => lessChars a.data b.data = true) ∧
    jsonEncode (StringSet.List []) = "[]\n" ∧
    jsonDecode (jsonEncode (StringSet.List s)) = Except.ok (StringSet.List s) ∧
    ∃ cur, loadRegistry (storeRegistry svc s) = Except.ok cur ∧ cur.Nodup ∧
      ∀ n, n ∈ cur ↔ n ∈ s := by
  refine ⟨by simp [storeRegistry, mapGet_mapSet], jsonEncode_eq_arrayText _, mem_List s,
    nodup_List s hs, ascending_List s hs, rfl, jsonDecode_jsonEncode _, ?_⟩
  exact ⟨_, loadRegistry_storeRegistry svc s, nodup_InsertAll _ _ List.nodup_nil,
    mem_loaded_stored s⟩

/-- C12 at the set that holds `ns-svc-b` and `ns-svc-a`: the annotation lists the two
names in ascending order. -/
theorem C12_registry_codec_witness :
    mapGet (storeRegistry (exampleService []) ["ns-svc-b", "ns-svc-a"]).Annotations
      registryKey = some "[\"ns-svc-a\",\"ns-svc-b\"]\n" := by
  have h := (C12_registry_codec (exampleService []) ["ns-svc-b", "ns-svc-a"] (by decide)).1
  rw [h]
  decide

/-! ## Find or start (C11) -/

/-- The calls of one step of the loop, however the step ends. -/
theorem portStep_segment {σ : Type} (lib : GoLib) (agent : Agent σ) (svc : Service)
    (st : LoopState σ) (sp : ServicePort) :
    ∃ seg, (portStep lib agent svc st sp).calls = st.calls ++ seg ∧
      PortCalls lib svc sp seg := by
  obtain ⟨ft, fe, a1, -, hc⟩ := portStep_cases lib agent svc st sp
  rcases hc with ⟨e, hfe, hnf, heq⟩ | ⟨t, hft, hfe, heq⟩ | ⟨habs, heq⟩
  · refine ⟨[Call.find (reconcileTunnelName svc sp) ft fe], by rw [heq]; rfl, ft, fe,
      Or.inl ⟨?_, rfl⟩⟩
    subst hfe
    rintro (h1 | ⟨h1, -⟩)
    · rw [hnf] at h1; cases h1
    · cases h1
  · refine ⟨[Call.find (reconcileTunnelName svc sp) ft fe], ?_, ft, fe, Or.inl ⟨?_, rfl⟩⟩
    · rw [heq]
      simp only [Flow.calls, (recordTunnel_calls _ _ _ _).1]
      rfl
    · subst hft hfe
      rintro (h1 | ⟨-, h1⟩)
      · simp [IsNotFound] at h1
      · cases h1
  · obtain ⟨t2, e2, a2, -, hs⟩ := startTunnel_cases lib agent svc sp
      (reconcileTunnelName svc sp) (st.called a1 (Call.find (reconcileTunnelName svc sp) ft fe))
    refine ⟨[Call.find (reconcileTunnelName svc sp) ft fe,
      Call.start (reconcileTunnelName svc sp) (startConfig lib svc sp) t2 e2], ?_, ft, fe,
      Or.inr ⟨habs, t2, e2, rfl⟩⟩
    rw [heq]
    rcases hs with ⟨e, -, hseq⟩ | ⟨-, -, hseq⟩ | ⟨t, u, -, -, -, hseq⟩
    · rw [hseq]; simp [Flow.calls, LoopState.called, LoopState.failed]
    · rw [hseq]; simp [Flow.calls, LoopState.called]
    · rw [hseq]
      simp only [Flow.calls, (recordTunnel_calls _ _ _ _).1]
      simp [LoopState.called]

/-- The calls of the loop, however it ends: one segment for each port the loop came
to, in declared order; a loop that does not panic comes to every port. -/
theorem portLoop_segments {σ : Type} (lib : GoLib) (agent : Agent σ) (svc : Service) :
    ∀ (ports : List ServicePort) (st : LoopState σ),
      ∃ reached segs, reached <+: ports ∧
        List.Forall₂ (PortCalls lib svc) reached segs ∧
        (portLoop lib agent svc ports st).calls = st.calls ++ segs.flatten ∧
        (∀ st1, portLoop lib agent svc ports st = Flow.next st1 → reached = ports) := by
  intro ports
  induction ports with
  | nil =>
    intro st
    exact ⟨[], [], List.prefix_refl _, List.Forall₂.nil, by simp [portLoop, Flow.calls],
      fun _ _ => rfl⟩
  | cons sp rest ih =>
    intro st
    obtain ⟨seg, hseg, hpc⟩ := portStep_segment lib agent svc st sp
    cases hstep : portStep lib agent svc st sp with
    | panic st2 =>
      rw [hstep] at hseg
      refine ⟨[sp], [seg], ?_, List.Forall₂.cons hpc List.Forall₂.nil, ?_, ?_⟩
      · exact ⟨rest, rfl⟩
      · simp only [portLoop, hstep]
        simpa using hseg
      · intro st1 h
        simp only [portLoop, hstep] at h
        cases h
    | next st2 =>
      rw [hstep] at hseg
      obtain ⟨reached, segs, hpre, hall, hcalls, hfull⟩ := ih st2
      refine ⟨sp :: reached, seg :: segs, ?_, List.Forall₂.cons hpc hall, ?_, ?_⟩
      · obtain ⟨r, hr⟩ := hpre
        exact ⟨r, by rw [← hr]; rfl⟩
      · simp only [portLoop, hstep]
        simp only [Flow.calls] at hseg
        rw [hcalls, hseg]
        simp
      · intro st1 h
        simp only [portLoop, hstep] at h
        rw [hfull st1 h]

/-- C11: the trace of every pass is one segment of calls for each port the loop came to,
in declared order, followed by the stop calls; a pass whose registry decodes and
which does not panic comes to every port. The segment of a port is a find call on
its tunnel name, followed by a start call exactly when the find answered NotFound or
nothing, and never when it answered with a tunnel and no error; the start call
carries the tunnel name, the address `net.JoinHostPort(ClusterIP, port in decimal)`,
which is `ClusterIP:port` for a cluster IP without colon, and the protocol of the
port in lower case. In a pass that returns without error the ingress entry of a port
has the host and the port split from the public URL of the tunnel the agent handed
out for it, and the protocol of that tunnel in upper case. -/
theorem C11_find_or_start {σ : Type} (lib : GoLib) (agent : Agent σ) (a : σ)
    (svc : Service) :
    (∃ reached segs stops, reached <+: svc.Ports ∧
      List.Forall₂ (PortCalls lib svc) reached segs ∧
      (reconcile lib agent a svc).calls = segs.flatten ++ stops ∧
      (∀ c ∈ stops, c.isStop = true) ∧
      (∀ cur, loadRegistry svc = Except.ok cur →
        (reconcile lib agent a svc).panicked = false → reached = svc.Ports)) ∧
    (∀ t ft fe, ft = some t → fe = none → ¬ FindAbsent ft fe) ∧
    (∀ sp, startConfig lib svc sp =
      { Addr := JoinHostPort svc.ClusterIP (Itoa sp.Port),
        Proto := lib.ToLower sp.Protocol, RemoteAddr := "" }) ∧
    (∀ port, ':' ∉ svc.ClusterIP.data →
      JoinHostPort svc.ClusterIP port = svc.ClusterIP ++ ":" ++ port) ∧
    ((reconcile lib agent a svc).reterr = none →
      (reconcile lib agent a svc).panicked = false →
      List.Forall₂ (fun sp ing => ∃ t hostname port,
          Obtained (reconcile lib agent a svc).calls (reconcileTunnelName svc sp) t ∧
          SplitHostPort lib t.PublicURL = Except.ok (hostname, port) ∧
          ing = { IP := "", Hostname := hostname,
                  Ports := [{ Port := port, Protocol := lib.ToUpper t.Proto }] })
        svc.Ports (reconcile lib agent a svc).svc.Ingress) := by
  refine ⟨?_, ?_, fun _ => rfl, ?_, ?_⟩
  · cases hl : loadRegistry svc with
    | error err =>
      rw [reconcile_load_error lib agent a hl]
      exact ⟨[], [], [], List.nil_prefix, List.Forall₂.nil, rfl, by simp,
        fun cur h => by cases h⟩
    | ok cur =>
      obtain ⟨reached, segs, hpre, hall, hcalls, hfull⟩ :=
        portLoop_segments lib agent (withFinalizer svc) svc.Ports (LoopState.init cur a)
      have hall2 : List.Forall₂ (PortCalls lib svc) reached segs :=
        hall.imp (fun _ _ h => h)
      cases hloop : portLoop lib agent (withFinalizer svc) svc.Ports
          (LoopState.init cur a) with
      | panic st =>
        rw [hloop] at hcalls
        rw [reconcile_panic hl hloop]
        refine ⟨reached, segs, [], hpre, hall2, ?_, by simp, ?_⟩
        · simpa [Flow.calls, LoopState.init] using hcalls
        · intro _ _ hp
          cases hp
      | next st =>
        rw [hloop] at hcalls
        obtain ⟨-, -, hc, -, -⟩ := reconcile_next hl hloop
        obtain ⟨stops, hst, -, hsa⟩ := stopStale_calls agent (staleNames st)
          { errs := [], calls := st.calls, agent := st.agent }
        refine ⟨reached, segs, stops, hpre, hall2, ?_, hsa, fun _ _ _ => hfull st hloop⟩
        rw [hc, hst]
        simp only [Flow.calls, LoopState.init, List.nil_append] at hcalls
        simp only [hcalls]
  · rintro t ft fe hft hfe (h | ⟨-, h⟩)
    · subst hfe
      simp [IsNotFound] at h
    · rw [hft] at h
      cases h
  · intro port hno
    simp [JoinHostPort, hno]
  · intro hok hp
    obtain ⟨cur, st, -, hloop, herr, -, hsvc, hcalls, -⟩ := reconcile_ok hok hp
    obtain ⟨-, -, -, cs, ings, hc, hi, hall⟩ :=
      portLoop_success lib agent (withFinalizer svc) svc.Ports _ st hloop herr
    obtain ⟨cs2, hc2, -, -⟩ := stopStale_calls agent (staleNames st)
      { errs := [], calls := st.calls, agent := st.agent }
    have hing : (reconcile lib agent a svc).svc.Ingress = ings := by
      rw [hsvc]
      show st.ingress = ings
      rw [hi]; rfl
    rw [hing]
    refine hall.imp ?_
    rintro sp ing ⟨t, hostname, port, hob, hs, he⟩
    refine ⟨t, hostname, port, hob.mono ?_, hs, he⟩
    intro c hcm
    rw [hcalls, hc2, hc]
    simp only [LoopState.init, List.nil_append, List.mem_append]
    exact Or.inl hcm

/-- C11 at the service `ns/svc` with cluster IP 10.0.0.5 and one unnamed TCP port 1234,
against an agent without tunnels: the find call answers NotFound, one start call is
made with the name `ns-svc`, the address `10.0.0.5:1234` and the protocol `tcp`, and
the one ingress entry has the host and the port of the tunnel and the protocol `TCP`. -/
theorem C11_find_or_start_witness :
    (reconcile goLib (mapAgent exampleAssign) []
      (exampleService [{ Name := "", Protocol := "TCP", Port := 1234 }])).calls =
      [Call.find "ns-svc" none (some notFoundError),
       Call.start "ns-svc" { Addr := "10.0.0.5:1234", Proto := "tcp", RemoteAddr := "" }
        (some (exampleAssign "ns-svc"
          { Addr := "10.0.0.5:1234", Proto := "tcp", RemoteAddr := "" })) none] ∧
    (reconcile goLib (mapAgent exampleAssign) []
      (exampleService [{ Name := "", Protocol := "TCP", Port := 1234 }])).svc.Ingress =
      [{ IP := "", Hostname := "0.tcp.ngrok.io",
         Ports := [{ Port := 10000, Protocol := "TCP" }] }] ∧
    List.Forall₂ (fun sp ing => ∃ t hostname port,
        Obtained (reconcile goLib (mapAgent exampleAssign) []
          (exampleService [{ Name := "", Protocol := "TCP", Port := 1234 }])).calls
          (reconcileTunnelName
            (exampleService [{ Name := "", Protocol := "TCP", Port := 1234 }]) sp) t ∧
        SplitHostPort goLib t.PublicURL = Except.ok (hostname, port) ∧
        ing = { IP := "", Hostname := hostname,
                Ports := [{ Port := port, Protocol := goLib.ToUpper t.Proto }] })
      (exampleService [{ Name := "", Protocol := "TCP", Port := 1234 }]).Ports
      (reconcile goLib (mapAgent exampleAssign) []
        (exampleService [{ Name := "", Protocol := "TCP", Port := 1234 }])).svc.Ingress := by
  have h := (C11_find_or_start goLib (mapAgent exampleAssign) []
    (exampleService [{ Name := "", Protocol := "TCP", Port := 1234 }])).2.2.2.2
    (by decide) (by decide)
  exact ⟨by decide, by decide, h⟩

/-! ## A public URL that does not split (C13) -/

theorem stopErrors_append (a b : List Call) :
    stopErrors (a ++ b) = stopErrors a ++ stopErrors b := by
  simp [stopErrors, List.filterMap_append]

theorem stopErrors_eq_nil {cs : List Call} (h : ∀ c ∈ cs, c.isStop = false) :
    stopErrors cs = [] := by
  induction cs with
  | nil => rfl
  | cons c t ih =>
    have h1 := h c (List.mem_cons_self _ _)
    have h2 := ih (fun d hd => h d (List.mem_cons_of_mem _ hd))
    cases c <;> simp_all [stopErrors, Call.isStop]

theorem stopStale_errs {σ : Type} (agent : Agent σ) :
    ∀ (names : List String) (s : StopState σ),
      ∃ cs, (stopStale agent names s).calls = s.calls ++ cs ∧
        (stopStale agent names s).errs = s.errs ++ stopErrors cs := by
  intro names
  induction names with
  | nil => intro s; exact ⟨[], by simp [stopStale], by simp [stopStale, stopErrors]⟩
  | cons n rest ih =>
    intro s
    rcases h : agent.Stop s.agent n with ⟨err, a⟩
    have key : ∀ errs2 : List GoError, errs2 = s.errs ++ stopErrors [Call.stop n err] →
        ∃ cs, (stopStale agent rest
            { errs := errs2, calls := s.calls ++ [Call.stop n err], agent := a }).calls =
            s.calls ++ cs ∧
          (stopStale agent rest
            { errs := errs2, calls := s.calls ++ [Call.stop n err], agent := a }).errs =
            s.errs ++ stopErrors cs := by
      intro errs2 he
      obtain ⟨cs, h1, h2⟩ := ih
        { errs := errs2, calls := s.calls ++ [Call.stop n err], agent := a }
      refine ⟨Call.stop n err :: cs, ?_, ?_⟩
      · rw [h1]; simp
      · rw [h2, he]
        have : Call.stop n err :: cs = [Call.stop n err] ++ cs := rfl
        rw [this, stopErrors_append, List.append_assoc]
    cases err with
    | none => simpa only [stopStale, h] using key s.errs (by simp [stopErrors])
    | some e =>
      by_cases hnf : IsNotFound (some e) = true
      · simpa only [stopStale, h, hnf, if_true] using key s.errs (by simp [stopErrors, hnf])
      · simpa only [stopStale, h, hnf] using key (s.errs ++ [e]) (by simp [stopErrors, hnf])

/-- The error of a public URL that does not split is among the errors of the step. -/
theorem portStep_split_err {σ : Type} {lib : GoLib} {agent : Agent σ} {svc : Service}
    {st st1 : LoopState σ} {sp : ServicePort}
    (h : portStep lib agent svc st sp = Flow.next st1) (cs : List Call) (es : List GoError)
    (hcs : st1.calls = st.calls ++ cs) (hes : st1.errs = st.errs ++ es)
    (n : String) (t : Tunnel) (err : GoError) (hob : Obtained cs n t)
    (hsplit : SplitHostPort lib t.PublicURL = Except.error err) : err ∈ es := by
  obtain ⟨ft, fe, cs0, tun, hcalls, hcs0, hiff, heff⟩ := portStep_next h
  have hcseq : cs = Call.find (reconcileTunnelName svc sp) ft fe :: cs0 :=
    List.append_cancel_left (hcs.symm.trans hcalls)
  subst hcseq
  have hname : ∀ c ∈ Call.find (reconcileTunnelName svc sp) ft fe :: cs0,
      c.tunnelName = reconcileTunnelName svc sp := by
    intro c hc
    rcases List.mem_cons.mp hc with hc | hc
    · subst hc; rfl
    · rcases hcs0 with h0 | ⟨-, t2, e2, h0⟩
      · rw [h0] at hc; cases hc
      · rw [h0, List.mem_singleton] at hc
        subst hc; rfl
  have hn := Obtained_name hname hob
  subst hn
  have htun := (hiff t).mp hob
  subst htun
  simp only [StepEffect, hsplit] at heff
  have : es = [err] := List.append_cancel_left (hes.symm.trans heff.1)
  rw [this]
  exact List.mem_singleton.mpr rfl

/-- The error of a public URL that does not split is among the errors of the loop. -/
theorem portLoop_split_err {σ : Type} (lib : GoLib) (agent : Agent σ) (svc : Service) :
    ∀ (ports : List ServicePort) (st st1 : LoopState σ),
      portLoop lib agent svc ports st = Flow.next st1 →
      ∀ (cs : List Call) (es : List GoError), st1.calls = st.calls ++ cs →
        st1.errs = st.errs ++ es →
        ∀ n t err, Obtained cs n t → SplitHostPort lib t.PublicURL = Except.error err →
          err ∈ es := by
  intro ports
  induction ports with
  | nil =>
    intro st st1 h cs es hcs _ n t err hob _
    simp only [portLoop] at h
    injection h with h
    subst h
    have : cs = [] := List.append_cancel_left (hcs.symm.trans (List.append_nil _).symm)
    subst this
    rcases hob with hob | ⟨config, hob⟩ <;> cases hob
  | cons sp rest ih =>
    intro st st1 h cs es hcs hes n t err hob hsplit
    simp only [portLoop] at h
    cases hstep : portStep lib agent svc st sp with
    | panic st2 => rw [hstep] at h; cases h
    | next st2 =>
      rw [hstep] at h
      obtain ⟨cs1, es1, hc1, he1, -⟩ := portStep_sets hstep
      obtain ⟨cs2, es2, hc2, he2, -⟩ := portLoop_sets lib agent svc rest st2 st1 h
      have hcseq : cs = cs1 ++ cs2 := by
        have h3 : st.calls ++ cs = st.calls ++ (cs1 ++ cs2) := by
          rw [← hcs, hc2, hc1, List.append_assoc]
        exact List.append_cancel_left h3
      have heseq : es = es1 ++ es2 := by
        have h3 : st.errs ++ es = st.errs ++ (es1 ++ es2) := by
          rw [← hes, he2, he1, List.append_assoc]
        exact List.append_cancel_left h3
      rw [heseq, List.mem_append]
      rw [hcseq, Obtained_append] at hob
      rcases hob with hob | hob
      · exact Or.inl (portStep_split_err hstep cs1 es1 hc1 he1 n t err hob hsplit)
      · exact Or.inr (ih st2 st1 h cs2 es2 hc2 he2 n t err hob hsplit)

/-- The returned error of a pass whose registry decodes and whose loop does not panic:
the aggregate of the stop errors of the stale cleanup when there is one, otherwise
the aggregate of the errors of the loop. -/
theorem reconcile_reterr {σ : Type} {lib : GoLib} {agent : Agent σ} {a : σ} {svc : Service}
    {cur : StringSet} {st : LoopState σ} (hl : loadRegistry svc = Except.ok cur)
    (hloop : portLoop lib agent (withFinalizer svc) svc.Ports (LoopState.init cur a) =
      Flow.next st) :
    (stopErrors (reconcile lib agent a svc).calls ≠ [] →
      (reconcile lib agent a svc).reterr =
        NewAggregate (stopErrors (reconcile lib agent a svc).calls)) ∧
    (stopErrors (reconcile lib agent a svc).calls = [] →
      (reconcile lib agent a svc).reterr = NewAggregate st.errs) := by
  obtain ⟨cs, es, hc, -, hn, -⟩ := portLoop_sets lib agent (withFinalizer svc) svc.Ports _ st hloop
  obtain ⟨stops, hst, hse⟩ := stopStale_errs agent (staleNames st)
    { errs := [], calls := st.calls, agent := st.agent }
  obtain ⟨-, -, hcalls, -, -⟩ := reconcile_next hl hloop
  have hc1 : st.calls = cs := by rw [hc]; rfl
  have hstopErrs : stopErrors (reconcile lib agent a svc).calls =
      (stopStale agent (staleNames st)
        { errs := [], calls := st.calls, agent := st.agent }).errs := by
    rw [hcalls, hst, hse, stopErrors_append, hc1,
      stopErrors_eq_nil (fun c hcm => (hn c hcm).1)]
  rw [hstopErrs]
  have hports : (withFinalizer svc).Ports = svc.Ports := rfl
  constructor
  · intro hne
    unfold reconcile
    simp only [hl, hports, hloop]
    cases h1 : NewAggregate (stopStale agent (staleNames st)
        { errs := [], calls := st.calls, agent := st.agent }).errs with
    | some err => rfl
    | none => exact absurd ((NewAggregate_eq_none _).mp h1) hne
  · intro hnil
    have hnone : NewAggregate ([] : List GoError) = none := rfl
    unfold reconcile
    simp only [hl, hports, hloop, hnil, hnone]
    cases h2 : NewAggregate st.errs with
    | some err => rfl
    | none => rfl

/-- In a pass whose registry decodes and which does not panic, let the agent hand out,
for the tunnel name `n`, a tunnel whose public URL does not split, and no tunnel whose
public URL splits. Then the pass returns an error, which holds the split error when
no stop call failed; the status ingress list is the one from before; a stop call is
issued for `n`; and `n` is not in the registry the pass writes. -/
theorem split_failure_is_stale {σ : Type} (lib : GoLib) (agent : Agent σ) (a : σ)
    (svc : Service) (cur : StringSet) (n : String) (t : Tunnel) (err : GoError)
    (hl : loadRegistry svc = Except.ok cur)
    (hp : (reconcile lib agent a svc).panicked = false)
    (hob : Obtained (reconcile lib agent a svc).calls n t)
    (hsplit : SplitHostPort lib t.PublicURL = Except.error err)
    (hno : ∀ t2 hostname port, Obtained (reconcile lib agent a svc).calls n t2 →
      SplitHostPort lib t2.PublicURL ≠ Except.ok (hostname, port)) :
    (reconcile lib agent a svc).reterr ≠ none ∧
    (stopErrors (reconcile lib agent a svc).calls = [] →
      ∃ errs, (reconcile lib agent a svc).reterr = some (RetError.aggregate errs) ∧
        err ∈ errs) ∧
    (reconcile lib agent a svc).svc.Ingress = svc.Ingress ∧
    (∃ e, Call.stop n e ∈ (reconcile lib agent a svc).calls) ∧
    (∃ reg, loadRegistry (reconcile lib agent a svc).svc = Except.ok reg ∧ n ∉ reg) := by
  cases hloop : portLoop lib agent (withFinalizer svc) svc.Ports (LoopState.init cur a) with
  | panic st =>
    rw [reconcile_panic hl hloop] at hp
    cases hp
  | next st =>
    obtain ⟨cs, stops, d, u, hcalls, hcs, -, hstops, hsn, hd, hu, -, -, hann, hing⟩ :=
      reconcile_trace hl hp
    obtain ⟨cs1, es1, hc1, he1, -⟩ :=
      portLoop_sets lib agent (withFinalizer svc) svc.Ports _ st hloop
    obtain ⟨stops1, hst1, -, hsa1⟩ := stopStale_calls agent (staleNames st)
      { errs := [], calls := st.calls, agent := st.agent }
    obtain ⟨-, -, hcalls1, -, hcase⟩ := reconcile_next hl hloop
    have hob1 : Obtained cs1 n t := by
      have h2 : (reconcile lib agent a svc).calls = cs1 ++ stops1 := by
        rw [hcalls1, hst1, hc1]; rfl
      rw [h2] at hob
      exact (Obtained_stops_right hsa1 n t).mp hob
    have herrmem : err ∈ st.errs := by
      have := portLoop_split_err lib agent (withFinalizer svc) svc.Ports _ st hloop cs1 es1
        hc1 he1 n t err hob1 hsplit
      rw [he1]
      exact List.mem_append_right _ this
    have hne : st.errs ≠ [] := by
      intro h0; rw [h0] at herrmem; cases herrmem
    have hret : (reconcile lib agent a svc).reterr ≠ none := by
      rcases hcase with ⟨-, h2, -⟩ | ⟨-, h2, -⟩
      · exact absurd h2 hne
      · exact h2
    have hobcs : Obtained cs n t := by
      rw [hcalls] at hob
      exact (Obtained_stops_right hstops n t).mp hob
    have hnd : n ∉ d := by
      intro hin
      obtain ⟨t2, hostname, port, ho2, hs2⟩ := (hd n).mp hin
      refine hno t2 hostname port ?_ hs2
      rw [hcalls]
      exact (Obtained_stops_right hstops n t2).mpr ho2
    refine ⟨hret, ?_, hing hret, ?_, ⟨_, loadRegistry_of_mapGet hann, ?_⟩⟩
    · intro hnil
      have h3 := (reconcile_reterr hl hloop).2 hnil
      cases hst : st.errs with
      | nil => exact absurd hst hne
      | cons e es =>
        refine ⟨e :: es, ?_, ?_⟩
        · rw [h3, hst]; rfl
        · rw [← hst]; exact herrmem
    · rw [← mem_stopNames, hcalls, stopNames_append,
        stopNames_eq_nil (fun c hc => (hcs c hc).1), List.nil_append, hsn, mem_List,
        mem_Difference, hu n]
      exact ⟨Or.inr ⟨t, err, hobcs, hsplit⟩, hnd⟩
    · rw [mem_loaded_stored]
      exact hnd

/-- The pass at the service `ns/svc` with the one port `a`, against an agent that holds,
for `ns-svc-a`, a tunnel whose public URL has no port: the find call is followed by a
stop call on `ns-svc-a`, the pass returns the split error, and the registry written
holds no name. -/
theorem split_failure_is_stale_example :
    (reconcile goLib (mapAgent colonAssign) [("ns-svc-a", hostOnlyTunnel)]
      (exampleService [{ Name := "a", Protocol := "TCP", Port := 1234 }])).calls =
      [Call.find "ns-svc-a" (some hostOnlyTunnel) none, Call.stop "ns-svc-a" none] ∧
    (reconcile goLib (mapAgent colonAssign) [("ns-svc-a", hostOnlyTunnel)]
      (exampleService [{ Name := "a", Protocol := "TCP", Port := 1234 }])).reterr =
      some (RetError.aggregate [addrErr "abc.ngrok.io" "missing port in address"]) ∧
    mapGet (reconcile goLib (mapAgent colonAssign) [("ns-svc-a", hostOnlyTunnel)]
      (exampleService [{ Name := "a", Protocol := "TCP", Port := 1234 }])).svc.Annotations
      registryKey = some "[]\n" := by
  decide

/-- C13, the failing run: the service `ns/svc` has the ports `a` and `b`; the agent
holds, for `ns-svc-a`, a tunnel whose public URL has no port, holds no tunnel for
`ns-svc-b`, and starts tunnels whose public URL is the text of one colon. The split
of the public URL of the found tunnel fails and `ns-svc-a` joins the current set; then
the tunnel started for `b` has a public URL that `url.Parse` rejects, and reading
`u.Host` on line 186 panics. The pass ends without any stop call and without a
returned error: the stale cleanup of `ns-svc-a` never runs, and the failed split of
the started tunnel is not recorded. -/
theorem C13_panic_skips_stale_cleanup :
    SplitHostPort goLib hostOnlyTunnel.PublicURL =
      Except.error (addrErr "abc.ngrok.io" "missing port in address") ∧
    (reconcile goLib (mapAgent colonAssign) [("ns-svc-a", hostOnlyTunnel)]
      (exampleService [{ Name := "a", Protocol := "TCP", Port := 1234 },
        { Name := "b", Protocol := "TCP", Port := 6789 }])).panicked = true ∧
    (reconcile goLib (mapAgent colonAssign) [("ns-svc-a", hostOnlyTunnel)]
      (exampleService [{ Name := "a", Protocol := "TCP", Port := 1234 },
        { Name := "b", Protocol := "TCP", Port := 6789 }])).calls.map Call.tunnelName =
      ["ns-svc-a", "ns-svc-b", "ns-svc-b"] ∧
    stopNames (reconcile goLib (mapAgent colonAssign) [("ns-svc-a", hostOnlyTunnel)]
      (exampleService [{ Name := "a", Protocol := "TCP", Port := 1234 },
        { Name := "b", Protocol := "TCP", Port := 6789 }])).calls = [] ∧
    (reconcile goLib (mapAgent colonAssign) [("ns-svc-a", hostOnlyTunnel)]
      (exampleService [{ Name := "a", Protocol := "TCP", Port := 1234 },
        { Name := "b", Protocol := "TCP", Port := 6789 }])).reterr = none := by
  refine ⟨by rfl, by decide, by decide, by decide, by decide⟩

end Kngrok
